import Mathlib

/-!
# ast-cc: the symbol table, the semantic validator and the emitters

A shallow embedding of the v0.1 variant of the `ast-cc` schema compiler
(`src/src/ast-cc.cc`, `src/src/emit-cpp.cc`, `src/ast-cc.hh`, `src/lists.hh`).

Conventions of the embedding

* `List<T>` (a singly linked list of element pointers) is a Lean `List`; the
  elements a list owns (attributes, methods, parameters, include strings) are
  held by value.
* `std::string` and `char *` texts are `String`; an output stream is the
  `String` written so far, `os << x` is `os ++ x` and `std::endl` is `"\n"`.
* `stderr` is the list of the diagnostics written so far, one entry for each
  `fprintf` call.
* The flag word `int flags` is a `Nat`, with `&&&` for `&` and `|||` for `|`.
* A `Node *` is `Option Nat`: `none` is `NULL`, `some p` is the node stored at
  position `p` of the global node list `nodes`, which serves as the node
  store.  Walking the parent links is bounded by a fuel argument; the result
  is `none` when the fuel runs out (a parent chain that does not end) or when
  a link points outside the store.
* A `Symbol *` is the `Symbol` it points to: names in the symbol table are
  unique, so two pointers into the table are equal exactly when the symbols
  are.
-/

namespace AstCC

/-! ## Flags and kinds (`ast-cc.hh`, lines 49-70) -/

def NONE : Nat := 0x0000
def ABSTRACT : Nat := 0x0001
def PRIVATE : Nat := 0x0002
def PUBLIC : Nat := 0x0004
def PROTECTED : Nat := 0x0008
def STATIC : Nat := 0x0010
def NOINLINES : Nat := 0x0020
def INLINE : Nat := 0x0040
def EXTERNAL : Nat := 0x0080
def NOINIT : Nat := 0x0100

inductive Kind where
  | UNKNOWN
  | TYPE
  | NODE
  deriving DecidableEq, Repr

/-- The C++ operator `!` applied to an integer: `1` for zero, `0` otherwise. -/
def cNot (x : Nat) : Nat := if x = 0 then 1 else 0

/-! ## The declaration classes (`ast-cc.hh`) -/

structure Symbol where
  name : String
  kind : Kind
  deriving DecidableEq, Repr

structure Attribute where
  flags : Nat
  type : Symbol
  name : String
  code : String
  deriving DecidableEq, Repr

structure Parameter where
  type : Symbol
  name : String
  deriving DecidableEq, Repr

structure Method where
  flags : Nat
  type : Symbol
  name : String
  parms : List Parameter
  code : String
  deriving DecidableEq, Repr

structure Node where
  flags : Nat
  parent : Option Nat
  name : Symbol
  methods : List Method
  attrs : List Attribute
  deriving DecidableEq, Repr

/-- `Attribute::Set_Flag`: `flags |= f`. -/
def Attribute.Set_Flag (a : Attribute) (f : Nat) : Attribute :=
  { a with flags := a.flags ||| f }

/-- `Method::Set_Flag`: `flags |= f`. -/
def Method.Set_Flag (m : Method) (f : Nat) : Method :=
  { m with flags := m.flags ||| f }

/-- `Method::Get_Parm`: the `n`-th parameter, `NULL` when `n >= Len(parms)`. -/
def Method.Get_Parm (m : Method) (n : Nat) : Option Parameter :=
  if n ≥ m.parms.length then none else m.parms[n]?

/-- The global variables of `ast-cc.cc` (lines 70-73). -/
structure Model where
  includes : List String
  symtab : List Symbol
  nodes : List Node
  endingCode : String
  deriving DecidableEq, Repr

/-! ## `Node::GetParmCount` and `Node::GetAttrCount` -/

/-- The loop of `Node::GetParmCount` (lines 58-61). -/
def parmCountLoop : List Attribute → Nat → Nat
  | [], rv => rv
  | a :: al, rv =>
    if a.flags &&& NOINIT ≠ 0 then parmCountLoop al rv
    else parmCountLoop al (rv + 1)

/-- `Node::GetParmCount` (`ast-cc.cc`, lines 51-64), called on the node at
position `p` of the store. -/
def GetParmCount (nodes : List Node) : Nat → Nat → Option Nat
  | 0, _ => none
  | fuel + 1, p =>
    match nodes[p]? with
    | none => none
    | some node =>
      match node.parent with
      | none => some (parmCountLoop node.attrs 0)
      | some q =>
        match GetParmCount nodes fuel q with
        | none => none
        | some rv => some (parmCountLoop node.attrs rv)

/-- `Node::GetAttrCount` (`ast-cc.hh`, line 377):
`(parent ? parent->GetParmCount() : 0) + Len(attrs)`. -/
def GetAttrCount (nodes : List Node) (fuel : Nat) (p : Nat) : Option Nat :=
  match nodes[p]? with
  | none => none
  | some node =>
    match node.parent with
    | none => some (0 + node.attrs.length)
    | some q =>
      match GetParmCount nodes fuel q with
      | none => none
      | some c => some (c + node.attrs.length)

/-! ## `Semant` (`ast-cc.cc`, lines 138-288) -/

/-- The running state of `Semant`: the local `rv` and what was written to
`stderr`. -/
structure SemState where
  rv : Bool
  err : List String
  deriving DecidableEq, Repr

/-- One error report: `fprintf(stderr, msg); rv = false;`. -/
def SemState.error (s : SemState) (msg : String) : SemState :=
  { rv := false, err := s.err ++ [msg] }

/-- The inner include loop (lines 151-156), `x` being `looper->elem()`. -/
def inclInner (x : String) : List String → SemState → SemState
  | [], s => s
  | c :: rest, s =>
    if x = c then
      inclInner x rest
        (s.error ("Error: Include file " ++ x ++ " specified more than once\n"))
    else inclInner x rest s

/-- The outer include loop (lines 150-157). -/
def inclLoop : List String → SemState → SemState
  | [], s => s
  | x :: rest, s => inclLoop rest (inclInner x rest s)

/-- The attribute against the attributes after it (lines 171-177). -/
def attrDupLoop (n : Node) (a : Attribute) : List Attribute → SemState → SemState
  | [], s => s
  | chk :: rest, s =>
    if a.name = chk.name then
      attrDupLoop n a rest
        (s.error ("Error: Attrribute name " ++ a.name ++ " in class " ++ n.name.name
          ++ " is duplicated\n"))
    else attrDupLoop n a rest s

/-- The attribute against every method of the node (lines 182-189). -/
def attrMethLoop (n : Node) (a : Attribute) : List Method → SemState → SemState
  | [], s => s
  | chk :: rest, s =>
    if a.name = chk.name then
      attrMethLoop n a rest
        (s.error ("Error: Attrribute name " ++ a.name ++ " in class " ++ n.name.name
          ++ " is duplicated by method " ++ chk.name ++ "\n"))
    else attrMethLoop n a rest s

/-- The visibility checks on one attribute (lines 207-223), `f` being the
flag word read at line 195. -/
def attrVisCheck (n : Node) (a : Attribute) (f : Nat) (s : SemState) : SemState :=
  let s1 :=
    if f &&& PUBLIC ≠ 0 ∧ f &&& PROTECTED ≠ 0 then
      s.error ("Error: Cannot specify both PUBLIC and PROTECTED on attribute " ++ a.name
        ++ " in class " ++ n.name.name ++ "\n")
    else s
  let s2 :=
    if f &&& PUBLIC ≠ 0 ∧ f &&& PRIVATE ≠ 0 then
      s1.error ("Error: Cannot specify both PUBLIC and PRIVATE on attribute " ++ a.name
        ++ " in class " ++ n.name.name ++ "\n")
    else s1
  if f &&& PROTECTED ≠ 0 ∧ f &&& PRIVATE ≠ 0 then
    s2.error ("Error: Cannot specify both PROTECTED and PRIVATE on attribute " ++ a.name
      ++ " in class " ++ n.name.name ++ "\n")
  else s2

/-- The default visibility (lines 200-202). -/
def attrDefaultVis (a : Attribute) (f : Nat) : Attribute :=
  if f &&& PUBLIC = 0 ∧ f &&& PROTECTED = 0 ∧ f &&& PRIVATE = 0 then a.Set_Flag PROTECTED
  else a

/-- The attribute loop of one node (lines 170-224): the state afterwards and
the attribute list as the loop leaves it. -/
def attrLoop (n : Node) : List Attribute → SemState → SemState × List Attribute
  | [], s => (s, [])
  | a :: rest, s =>
    let s1 := attrDupLoop n a rest s
    let s2 := attrMethLoop n a n.methods s1
    let f := a.flags
    let a1 := attrDefaultVis a f
    let s3 := attrVisCheck n a1 f s2
    let r := attrLoop n rest s3
    (r.1, a1 :: r.2)

/-- The parameter loop (lines 256-261): `same` is cleared when the types at
some position differ, and is never set. -/
def parmLoop (meth chkm : Method) (same : Bool) : Bool :=
  (List.range meth.parms.length).foldl
    (fun sm i =>
      if (meth.Get_Parm i).map Parameter.type ≠ (chkm.Get_Parm i).map Parameter.type
      then false else sm)
    same

/-- The signature loop (lines 249-270): `meth` against the methods after it.
The flag `same` is declared outside this loop (line 246) and is carried from
one compared method to the next. -/
def sigLoop (meth : Method) : List Method → Bool × SemState → Bool × SemState
  | [], st => st
  | chkm :: rest, st =>
    if meth.name = chkm.name then
      if meth.parms.length = chkm.parms.length then
        let same := parmLoop meth chkm st.1
        if same then
          sigLoop meth rest
            (same, st.2.error ("Error: Signature of method " ++ meth.name ++ " is duplicated\n"))
        else sigLoop meth rest (same, st.2)
      else sigLoop meth rest (false, st.2)
    else sigLoop meth rest (false, st.2)

/-- The body/flag checks on one method (lines 272-283).  Line 276 tests
`meth->Get_Flags() & !EXTERNAL`. -/
def methCodeCheck (meth : Method) (s : SemState) : SemState × Method :=
  let r : SemState × Method :=
    if meth.code ≠ "" ∧ meth.flags &&& EXTERNAL ≠ 0 then
      (s.error ("Error: EXTERNAL method specified when code is also provided in "
        ++ meth.name ++ "\n"), meth)
    else if meth.code = "" ∧ meth.flags &&& cNot EXTERNAL ≠ 0 then
      (s.error ("Error: EXTERNAL method not specified when no code is provided in "
        ++ meth.name ++ "\n"), meth.Set_Flag EXTERNAL)
    else (s, meth)
  if r.2.code = "" then (r.1, r.2.Set_Flag EXTERNAL) else r

/-- The method loop of one node (lines 245-284). -/
def methLoop : List Method → SemState → SemState × List Method
  | [], s => (s, [])
  | meth :: rest, s =>
    let st := sigLoop meth rest (true, s)
    let r1 := methCodeCheck meth st.2
    let r := methLoop rest r1.1
    (r.1, r1.2 :: r.2)

/-- The body of the node loop (lines 164-284) for one node. -/
def semantNode (n : Node) (s : SemState) : SemState × Node :=
  let ra := attrLoop n n.attrs s
  let rm := methLoop n.methods ra.1
  (rm.1, { n with attrs := ra.2, methods := rm.2 })

/-- The node loop (lines 163-285). -/
def nodeLoop : List Node → SemState → SemState × List Node
  | [], s => (s, [])
  | n :: rest, s =>
    let r1 := semantNode n s
    let r := nodeLoop rest r1.1
    (r.1, r1.2 :: r.2)

/-- What a call of `Semant` leaves behind: the return value, the diagnostics
written to `stderr`, and the global variables. -/
structure SemantResult where
  rv : Bool
  err : List String
  model : Model
  deriving DecidableEq, Repr

/-- `Semant()` (lines 138-288). -/
def Semant (m : Model) : SemantResult :=
  let s0 : SemState := { rv := true, err := [] }
  let s1 := inclLoop m.includes s0
  let r := nodeLoop m.nodes s1
  { rv := r.1.rv, err := r.1.err, model := { m with nodes := r.2 } }

/-! ## The constructor emitters (`emit-cpp.cc`, lines 138-267 and 386-413) -/

/-- The attribute loop of `cpp_EmitConstructorParms` (lines 145-153); the
state is the stream and the local `parmPrinted`. -/
def ctorParmsLoop : List Attribute → String × Bool → String × Bool
  | [], st => st
  | a :: al, st =>
    if a.flags &&& NOINIT ≠ 0 then ctorParmsLoop al st
    else
      let os1 := if st.2 then st.1 ++ "," ++ "\n" ++ "\t\t" else st.1
      let os2 := os1 ++ a.type.name ++ (if a.type.kind = Kind.NODE then " *" else " ")
        ++ "__init__" ++ a.name
      ctorParmsLoop al (os2, true)

/-- `cpp_EmitConstructorParms` (lines 138-156): the stream afterwards and the
returned `parmPrinted`. -/
def cpp_EmitConstructorParms (nodes : List Node) :
    Nat → String → Option Nat → Option (String × Bool)
  | _, os, none => some (os, false)
  | 0, _, some _ => none
  | fuel + 1, os, some p =>
    match nodes[p]? with
    | none => none
    | some node =>
      match cpp_EmitConstructorParms nodes fuel os node.parent with
      | none => none
      | some st => some (ctorParmsLoop node.attrs st)

/-- The attribute loop of `cpp_EmitConstructorArgs` (lines 169-176). -/
def ctorArgsLoop : List Attribute → String × Bool → String × Bool
  | [], st => st
  | a :: al, st =>
    if a.flags &&& NOINIT ≠ 0 then ctorArgsLoop al st
    else
      let os1 := if st.2 then st.1 ++ "," ++ "\n" ++ "\t\t" else st.1
      let os2 := os1 ++ "__init__" ++ a.name
      ctorArgsLoop al (os2, true)

/-- `cpp_EmitConstructorArgs` (lines 162-179). -/
def cpp_EmitConstructorArgs (nodes : List Node) :
    Nat → String → Option Nat → Option (String × Bool)
  | _, os, none => some (os, false)
  | 0, _, some _ => none
  | fuel + 1, os, some p =>
    match nodes[p]? with
    | none => none
    | some node =>
      match cpp_EmitConstructorArgs nodes fuel os node.parent with
      | none => none
      | some st => some (ctorArgsLoop node.attrs st)

/-- The attribute loop of `cpp_EmitConstructorBase` (lines 192-199). -/
def ctorBaseLoop : List Attribute → String × Bool → String × Bool
  | [], st => st
  | a :: al, st =>
    if a.flags &&& NOINIT ≠ 0 then ctorBaseLoop al st
    else
      let os1 := if st.2 then st.1 ++ "," ++ "\n" ++ "\t\t" else st.1
      let os2 := os1 ++ "__init__" ++ a.name
      ctorBaseLoop al (os2, true)

/-- `cpp_EmitConstructorBase` (lines 185-202). -/
def cpp_EmitConstructorBase (nodes : List Node) :
    Nat → String → Option Nat → Option (String × Bool)
  | _, os, none => some (os, false)
  | 0, _, some _ => none
  | fuel + 1, os, some p =>
    match nodes[p]? with
    | none => none
    | some node =>
      match cpp_EmitConstructorBase nodes fuel os node.parent with
      | none => none
      | some st => some (ctorBaseLoop node.attrs st)

/-- The initializer loop of `cpp_EmitConstructor` (lines 250-262); the state
is the stream and the local `needComma`. -/
def ctorInitLoop : List Attribute → String × Bool → String × Bool
  | [], st => st
  | a :: al, st =>
    let os1 := if st.2 then st.1 ++ "," ++ "\n" ++ "\t\t" else st.1
    let os2 := os1 ++ a.name ++ "("
    let os3 := if a.flags &&& NOINIT ≠ 0 then os2 ++ a.code else os2 ++ "__init__" ++ a.name
    ctorInitLoop al (os3 ++ ")", true)

/-- The base class initializer of `cpp_EmitConstructor` (lines 238-243), for
the parent pointer `parent`: the stream afterwards and `needComma`. -/
def ctorBaseCall (nodes : List Node) (fuel : Nat) (os : String) :
    Option Nat → Option (String × Bool)
  | none => some (os, false)
  | some q =>
    match nodes[q]? with
    | none => none
    | some par =>
      match cpp_EmitConstructorBase nodes fuel (os ++ par.name.name ++ "(") (some q) with
      | none => none
      | some st => some (st.1 ++ ")", true)

/-- `cpp_EmitConstructor` (lines 208-267), for the node at position `p`. -/
def cpp_EmitConstructor (nodes : List Node) (fuel : Nat) (os : String) (p : Nat) :
    Option String :=
  match nodes[p]? with
  | none => none
  | some node =>
    let os1 := os ++ "\t//" ++ "\n"
      ++ "\t// -- The " ++ node.name.name ++ " constructor" ++ "\n"
      ++ "\t//----------------------------------------------------------------------------------"
      ++ "\n"
      ++ "protected:" ++ "\n"
      ++ "\texplicit " ++ node.name.name ++ "("
    match cpp_EmitConstructorParms nodes fuel os1 (some p) with
    | none => none
    | some st =>
      let os2 := (if !st.2 then st.1 ++ "void" else st.1) ++ ")"
      match GetAttrCount nodes fuel p with
      | none => none
      | some cnt =>
        if cnt = 0 then some (os2 ++ " \x7b \x7d" ++ "\n" ++ "\n")
        else
          match ctorBaseCall nodes fuel (os2 ++ " :" ++ "\n" ++ "\t\t") node.parent with
          | none => none
          | some b => some ((ctorInitLoop node.attrs b).1 ++ " \x7b \x7d" ++ "\n" ++ "\n")

/-- `cpp_EmitFactoryFunc` (lines 386-413), for the node at position `p`. -/
def cpp_EmitFactoryFunc (nodes : List Node) (fuel : Nat) (os : String) (p : Nat) :
    Option String :=
  match nodes[p]? with
  | none => none
  | some node =>
    if node.flags &&& ABSTRACT ≠ 0 then some os
    else
      let os1 := os ++ "\t//" ++ "\n"
        ++ "\t// -- The " ++ node.name.name ++ " Factory function" ++ "\n"
        ++ "\t//----------------------------------------------------------------------------------"
        ++ "\n"
        ++ "public:" ++ "\n"
        ++ "\tstatic " ++ node.name.name ++ " *Factory("
      match cpp_EmitConstructorParms nodes fuel os1 (some p) with
      | none => none
      | some st =>
        let os2 := (if !st.2 then st.1 ++ "void" else st.1) ++ ")"
          ++ " \x7b return new " ++ node.name.name ++ "("
        match cpp_EmitConstructorArgs nodes fuel os2 (some p) with
        | none => none
        | some st2 => some (st2.1 ++ "); \x7d" ++ "\n" ++ "\n")

/-! ## Vocabulary of the properties -/

/-- `IsPath nodes ptr path`: following the parent links from `ptr` visits
exactly the nodes of `path`, the starting node first, and then reaches
`NULL`. -/
def IsPath (nodes : List Node) : Option Nat → List Node → Prop
  | none, [] => True
  | some p, n :: rest => nodes[p]? = some n ∧ IsPath nodes n.parent rest
  | none, _ :: _ => False
  | some _, [] => False

/-- `AncestorChain nodes p chain`: the node at position `p` has the finite
ancestor chain `chain`, listed from the root ancestor down to the node
itself. -/
def AncestorChain (nodes : List Node) (p : Nat) (chain : List Node) : Prop :=
  IsPath nodes (some p) chain.reverse

/-- The own attributes of a node that lack `NOINIT`, in declaration order. -/
def ownInitAttrs (n : Node) : List Attribute :=
  n.attrs.filter (fun a => a.flags &&& NOINIT = 0)

/-- The concatenation, along a chain of nodes in the order given, of each
node's own attributes lacking `NOINIT`. -/
def chainInitAttrs (chain : List Node) : List Attribute :=
  (chain.map ownInitAttrs).flatten

/-- The separator the emitters write between two list items. -/
def listSep : String := "," ++ "\n" ++ "\t\t"

/-- The texts of `items`, separated by `listSep`. -/
def joinSep : List String → String
  | [] => ""
  | [x] => x
  | x :: y :: rest => x ++ listSep ++ joinSep (y :: rest)

/-- The formal parameter declared for an attribute. -/
def parmText (a : Attribute) : String :=
  a.type.name ++ (if a.type.kind = Kind.NODE then " *" else " ") ++ "__init__" ++ a.name

/-- The argument that forwards the parameter of an attribute. -/
def argText (a : Attribute) : String := "__init__" ++ a.name

/-- The member initializer of an attribute. -/
def initText (a : Attribute) : String :=
  a.name ++ "(" ++ (if a.flags &&& NOINIT ≠ 0 then a.code else "__init__" ++ a.name) ++ ")"

/-- A formal parameter list: the parameters of `attrs` in order, or `void`
for no attribute. -/
def formalsText (attrs : List Attribute) : String :=
  if attrs = [] then "void" else joinSep (attrs.map parmText)

/-- What `cpp_EmitConstructor` writes before the formal parameters. -/
def ctorHead (n : Node) : String :=
  "\t//" ++ "\n"
    ++ "\t// -- The " ++ n.name.name ++ " constructor" ++ "\n"
    ++ "\t//----------------------------------------------------------------------------------"
    ++ "\n"
    ++ "protected:" ++ "\n"
    ++ "\texplicit " ++ n.name.name ++ "("

/-- What `cpp_EmitFactoryFunc` writes before the formal parameters. -/
def factoryHead (n : Node) : String :=
  "\t//" ++ "\n"
    ++ "\t// -- The " ++ n.name.name ++ " Factory function" ++ "\n"
    ++ "\t//----------------------------------------------------------------------------------"
    ++ "\n"
    ++ "public:" ++ "\n"
    ++ "\tstatic " ++ n.name.name ++ " *Factory("

/-- The call of the parent's constructor: no item for a root, and
`P(arguments)` for a node whose parent chain `pchain` (root first) ends in
`P`. -/
def baseCallItems (pchain : List Node) : List String :=
  match pchain.getLast? with
  | none => []
  | some par => [par.name.name ++ "(" ++ joinSep ((chainInitAttrs pchain).map argText) ++ ")"]

/-- The initializer list of the constructor of `n`, whose parent chain is
`pchain`: nothing when the attribute count is zero, otherwise the call of
the parent's constructor followed by one initializer for each own
attribute. -/
def ctorInitText (pchain : List Node) (n : Node) : String :=
  if (chainInitAttrs pchain).length + n.attrs.length = 0 then ""
  else " :" ++ "\n" ++ "\t\t" ++ joinSep (baseCallItems pchain ++ n.attrs.map initText)

/-! ## Sample models -/

def tInteger : Symbol := { name := "Integer", kind := Kind.TYPE }

def tString : Symbol := { name := "String", kind := Kind.TYPE }

/-- A method `Integer compute(Integer v)` with an inline body. -/
def computeMeth : Method :=
  { flags := PUBLIC, type := tInteger, name := "compute",
    parms := [{ type := tInteger, name := "v" }], code := "\x7b return v; \x7d" }

/-- A method `Integer other(void)` with an inline body. -/
def otherMeth : Method :=
  { flags := PUBLIC, type := tInteger, name := "other", parms := [],
    code := "\x7b return 0; \x7d" }

/-- One node whose method list is `compute(Integer)`, `other()`,
`compute(Integer)`. -/
def dupSigModel : Model :=
  { includes := [], symtab := [tInteger, { name := "Calc", kind := Kind.NODE }],
    nodes := [{ flags := NONE, parent := none, name := { name := "Calc", kind := Kind.NODE },
                methods := [computeMeth, otherMeth, computeMeth], attrs := [] }],
    endingCode := "" }

/-- A method `Integer eval(void)` declared without code and without a flag. -/
def evalMeth : Method :=
  { flags := NONE, type := tInteger, name := "eval", parms := [], code := "" }

/-- A node whose only method is `evalMeth`. -/
def noCodeNode : Node :=
  { flags := NONE, parent := none, name := { name := "Expr", kind := Kind.NODE },
    methods := [evalMeth], attrs := [] }

/-- One node whose only method has no code and no `EXTERNAL` flag. -/
def noCodeModel : Model :=
  { includes := [], symtab := [tInteger, { name := "Expr", kind := Kind.NODE }],
    nodes := [noCodeNode], endingCode := "" }

/-- A method flagged `EXTERNAL` that also carries an inline body. -/
def extCodeMeth : Method :=
  { flags := EXTERNAL, type := tInteger, name := "size", parms := [],
    code := "\x7b return 1; \x7d" }

/-- One node whose only method is `extCodeMeth`. -/
def extCodeNode : Node :=
  { flags := NONE, parent := none, name := { name := "Expr", kind := Kind.NODE },
    methods := [extCodeMeth], attrs := [] }

/-- One node, `extCodeNode`. -/
def extCodeModel : Model :=
  { includes := [], symtab := [tInteger, { name := "Expr", kind := Kind.NODE }],
    nodes := [extCodeNode], endingCode := "" }



/-- The root node `Common`: abstract, no attributes. -/
def commonNode : Node :=
  { flags := ABSTRACT, parent := none, name := { name := "Common", kind := Kind.NODE },
    methods := [], attrs := [] }

/-- The attribute `count : Integer`, no flags. -/
def countAttr : Attribute := { flags := NONE, type := tInteger, name := "count", code := "" }

/-- The node `Leaf`, child of `Common`, with the one attribute `count`. -/
def leafNode : Node :=
  { flags := NONE, parent := some 0, name := { name := "Leaf", kind := Kind.NODE },
    methods := [], attrs := [countAttr] }

/-- The node store holding `Common` and `Leaf`. -/
def leafNodes : List Node := [commonNode, leafNode]

/-- The attribute `x : Integer` of node `A`. -/
def xAttr : Attribute := { flags := NONE, type := tInteger, name := "x", code := "" }

/-- The attribute `y : String` of node `B`, flagged `NOINIT`, default
`"foo"`. -/
def yAttr : Attribute := { flags := NOINIT, type := tString, name := "y", code := "\"foo\"" }

/-- The node `A`, a root with the attribute `x`. -/
def aNode : Node :=
  { flags := NONE, parent := none, name := { name := "A", kind := Kind.NODE },
    methods := [], attrs := [xAttr] }

/-- The node `B`, child of `A`, with the attribute `y`. -/
def bNode : Node :=
  { flags := NONE, parent := some 0, name := { name := "B", kind := Kind.NODE },
    methods := [], attrs := [yAttr] }

/-- The node store holding `A` and `B`. -/
def abNodes : List Node := [aNode, bNode]

/-! ## The symbol table (`ast-cc.cc`, lines 80-132, and `lists.hh`) -/

/-- `Append` (`lists.hh`, lines 40-47): `r` when `l` is empty, `l` when `r` is
empty, otherwise `l` with `r` linked behind its last cell. -/
def Append {α : Type} : List α → List α → List α
  | [], r => r
  | x :: l, [] => x :: l
  | x :: l, y :: r => x :: Append l (y :: r)

/-- `LookupSymbol` (lines 106-116) on the table `symtab`. -/
def LookupSymbol : List Symbol → String → Bool
  | [], _ => false
  | tmp :: wrk, n => if tmp.name = n then true else LookupSymbol wrk n

/-- `GetSymbol` (lines 122-132) on the table `symtab`. -/
def GetSymbol : List Symbol → String → Option Symbol
  | [], _ => none
  | tmp :: wrk, n => if tmp.name = n then some tmp else GetSymbol wrk n

/-- `Symbol::Factory` (`ast-cc.hh`, line 122). -/
def Symbol.Factory (k : Kind) (n : String) : Symbol := { name := n, kind := k }

/-- `AddTypeSymbol` (lines 80-87): the returned pointer and the table
afterwards. -/
def AddTypeSymbol (symtab : List Symbol) (n : String) : Option Symbol × List Symbol :=
  if LookupSymbol symtab n = false then
    let rv := Symbol.Factory Kind.TYPE n
    (some rv, Append symtab [rv])
  else (none, symtab)

/-- `AddNodeSymbol` (lines 93-100): the returned pointer and the table
afterwards. -/
def AddNodeSymbol (symtab : List Symbol) (n : String) : Option Symbol × List Symbol :=
  if LookupSymbol symtab n = false then
    let rv := Symbol.Factory Kind.NODE n
    (some rv, Append symtab [rv])
  else (none, symtab)

/-- One call on the symbol table. -/
inductive SymCall where
  | addType (n : String)
  | addNode (n : String)
  | lookup (n : String)
  | get (n : String)
  deriving DecidableEq, Repr

/-- The table after one call: `LookupSymbol` and `GetSymbol` only read it. -/
def SymCall.run (symtab : List Symbol) : SymCall → List Symbol
  | SymCall.addType n => (AddTypeSymbol symtab n).2
  | SymCall.addNode n => (AddNodeSymbol symtab n).2
  | SymCall.lookup _ => symtab
  | SymCall.get _ => symtab

/-- The table after a sequence of calls, made in order. -/
def runCalls (symtab : List Symbol) (calls : List SymCall) : List Symbol :=
  calls.foldl SymCall.run symtab

/-! ## `cpp_EmitAttributes` (`emit-cpp.cc`, lines 287-320) -/

/-- The body of the loop of `cpp_EmitAttributes` (lines 292-318) for one
attribute. -/
def emitAttribute (os : String) (a : Attribute) : String :=
  let os1 := os ++ "\t//" ++ "\n"
    ++ "\t// -- The " ++ a.name ++ " attribute" ++ "\n"
    ++ "\t//---------------------------------------------------------------------------------"
    ++ "\n"
  let os2 :=
    if a.flags &&& PUBLIC ≠ 0 then os1 ++ "public:" ++ "\n"
    else if a.flags &&& PROTECTED ≠ 0 then os1 ++ "protected:" ++ "\n"
    else os1 ++ "private:" ++ "\n"
  let os3 := os2 ++ "\t" ++ (if a.flags &&& STATIC ≠ 0 then "static " else "")
    ++ a.type.name ++ " " ++ (if a.type.kind = Kind.NODE then "*" else "") ++ a.name ++ ";"
    ++ "\n" ++ "\n"
  if a.flags &&& NOINLINES ≠ 0 then os3
  else
    os3 ++ "public:" ++ "\n"
      ++ "\t" ++ a.type.name ++ " " ++ (if a.type.kind = Kind.NODE then "*" else "")
      ++ "Get_" ++ a.name ++ "(void) \x7b return " ++ a.name ++ "; \x7d" ++ "\n"
      ++ "\tvoid Set_" ++ a.name ++ "(" ++ a.type.name ++ " "
      ++ (if a.type.kind = Kind.NODE then "*" else "") ++ "val) \x7b "
      ++ a.name ++ " = val; \x7d" ++ "\n" ++ "\n"

/-- `cpp_EmitAttributes` (lines 287-320). -/
def cpp_EmitAttributes : String → List Attribute → String
  | os, [] => os
  | os, a :: al => cpp_EmitAttributes (emitAttribute os a) al

/-! ## The remaining emitters (`emit-cpp.cc`) -/

/-- `cpp_EmitHeader` (lines 52-66); `outputFile` and `curr_file` are the two
globals it reads.  `curr_file` is a `char *`, null (`none`) as long as no file
has been opened (`ast-cc.cc`, lines 323-324).  The result is the stream and
whether it is still good: writing a null `char *` (line 60) puts the stream in
the failed state, and a failed stream takes nothing more, the rest of the
header included. -/
def cpp_EmitHeader (os : String) (outputFile : String) (curr_file : Option String) :
    String × Bool :=
  let os1 := os ++ "//===============================================================================================" ++ "\n"
    ++ "//" ++ "\n"
    ++ "// " ++ outputFile ++ " -- The defined nodes for the Abstract Syntax Tree" ++ "\n"
    ++ "//" ++ "\n"
    ++ "// This file is automatically generated using `ast-cc` against the source file "
  match curr_file with
  | none => (os1, false)
  | some cf =>
    (os1 ++ cf ++ "." ++ "\n"
      ++ "//" ++ "\n"
      ++ "// Do not modify this file directly as your changes will likely be lost." ++ "\n"
      ++ "//" ++ "\n"
      ++ "//===============================================================================================" ++ "\n"
      ++ "\n" ++ "\n", true)

/-- The loop of `cpp_EmitForwards` (lines 80-86). -/
def forwardsLoop : List Symbol → String → String
  | [], os => os
  | sym :: syms, os =>
    if sym.kind = Kind.NODE then forwardsLoop syms (os ++ "class " ++ sym.name ++ ";" ++ "\n")
    else forwardsLoop syms os

/-- `cpp_EmitForwards` (lines 72-89). -/
def cpp_EmitForwards (os : String) (symtab : List Symbol) : String :=
  let os1 := os ++ "//-----------------------------------------------------------------------------------------------" ++ "\n"
    ++ "// The following are forward declarations for the nodes that are defined in the source file"
    ++ "\n"
    ++ "//-----------------------------------------------------------------------------------------------" ++ "\n"
  forwardsLoop symtab os1 ++ "\n" ++ "\n"

/-- The loop of `cpp_EmitIncludes` (lines 103-105). -/
def includesLoop : List String → String → String
  | [], os => os
  | l :: ls, os => includesLoop ls (os ++ "#include " ++ l ++ "\n")

/-- `cpp_EmitIncludes` (lines 95-108). -/
def cpp_EmitIncludes (os : String) (includes : List String) : String :=
  let os1 := os ++ "//-----------------------------------------------------------------------------------------------" ++ "\n"
    ++ "// These include files are specified in the source file" ++ "\n"
    ++ "//-----------------------------------------------------------------------------------------------" ++ "\n"
  includesLoop includes os1 ++ "\n" ++ "\n"

/-- The loop of `cpp_EmitNodeTypes` (lines 123-128). -/
def nodeTypesLoop : List Node → String → String
  | [], os => os
  | n :: nl, os =>
    if n.flags &&& ABSTRACT ≠ 0 then nodeTypesLoop nl os
    else nodeTypesLoop nl (os ++ "\tNODE_TYPE_" ++ n.name.name ++ "," ++ "\n")

/-- `cpp_EmitNodeTypes` (lines 114-132). -/
def cpp_EmitNodeTypes (os : String) (nodes : List Node) : String :=
  let os1 := os ++ "//-----------------------------------------------------------------------------------------------" ++ "\n"
    ++ "// This enumeration is used to identify the types of nodes" ++ "\n"
    ++ "//-----------------------------------------------------------------------------------------------" ++ "\n"
  let os2 := os1 ++ "typedef enum \x7b" ++ "\n"
  nodeTypesLoop nodes os2 ++ "\x7d ASTNodeType;" ++ "\n" ++ "\n"

/-- `cpp_EmitDestructor` (lines 273-281). -/
def cpp_EmitDestructor (os : String) (node : Node) : String :=
  os ++ "\t//" ++ "\n"
    ++ "\t// -- The " ++ node.name.name ++ " destructor" ++ "\n"
    ++ "\t//--------------------------------------------------------------------------------" ++ "\n"
    ++ "public:" ++ "\n"
    ++ "\tvirtual ~" ++ node.name.name ++ "(void) \x7b \x7d" ++ "\n" ++ "\n"

/-- The parameter loop of `cpp_EmitMethods` (lines 351-358); the state is the
stream and the local `needComma`. -/
def methParmsLoop : List Parameter → String × Bool → String × Bool
  | [], st => st
  | p :: pl, st =>
    let os1 := if st.2 then st.1 ++ ", " else st.1
    let os2 := os1 ++ p.type.name ++ " " ++ (if p.type.kind = Kind.NODE then "*" else "")
      ++ p.name
    methParmsLoop pl (os2, true)

/-- The body of the loop of `cpp_EmitMethods` (lines 331-364) for one
method. -/
def emitMethod (os : String) (m : Method) : String :=
  let os1 := os ++ "\t//" ++ "\n"
    ++ "\t// -- The " ++ m.name ++ " method" ++ "\n"
    ++ "\t//---------------------------------------------------------------------------------"
    ++ "\n"
  let os2 :=
    if m.flags &&& PRIVATE ≠ 0 then os1 ++ "private:" ++ "\n"
    else if m.flags &&& PROTECTED ≠ 0 then os1 ++ "protected:" ++ "\n"
    else os1 ++ "public:" ++ "\n"
  let os3 := os2 ++ (if m.flags &&& STATIC ≠ 0 then "\tstatic " else "\tvirtual ")
    ++ m.type.name ++ " " ++ (if m.type.kind = Kind.NODE then "*" else "") ++ m.name ++ "("
  let os4 :=
    if m.parms.length = 0 then os3 ++ "void"
    else (methParmsLoop m.parms (os3, false)).1
  let os5 := os4 ++ ")"
  if m.flags &&& ABSTRACT ≠ 0 then os5 ++ " = 0;" ++ "\n" ++ "\n"
  else if m.flags &&& EXTERNAL ≠ 0 then os5 ++ ";" ++ "\n" ++ "\n"
  else os5 ++ " " ++ m.code ++ "\n" ++ "\n"

/-- `cpp_EmitMethods` (lines 326-366). -/
def cpp_EmitMethods : String → List Method → String
  | os, [] => os
  | os, m :: ml => cpp_EmitMethods (emitMethod os m) ml

/-- `cpp_EmitEmptyFunc` (lines 372-380). -/
def cpp_EmitEmptyFunc (os : String) (node : Node) : String :=
  os ++ "\t//" ++ "\n"
    ++ "\t// -- The " ++ node.name.name ++ " static empty value function" ++ "\n"
    ++ "\t//---------------------------------------------------------------------------------"
    ++ "\n"
    ++ "public:" ++ "\n"
    ++ "\tstatic " ++ node.name.name ++ " *Empty(void) \x7b return NULL; \x7d" ++ "\n" ++ "\n"

/-- `cpp_EmitGetType` (lines 419-430). -/
def cpp_EmitGetType (os : String) (node : Node) : String :=
  let os1 := os ++ "\t//" ++ "\n"
    ++ "\t// -- The " ++ node.name.name ++ " get node type function" ++ "\n"
    ++ "\t//---------------------------------------------------------------------------------"
    ++ "\n"
    ++ "public:" ++ "\n"
    ++ "\tvirtual ASTNodeType _GetType(void) const "
  if node.flags &&& ABSTRACT ≠ 0 then os1 ++ " = 0;" ++ "\n" ++ "\n"
  else os1 ++ "\x7b return NODE_TYPE_" ++ node.name.name ++ "; \x7d" ++ "\n" ++ "\n"

/-- `cpp_EmitGetTypeString` (lines 436-447). -/
def cpp_EmitGetTypeString (os : String) (node : Node) : String :=
  let os1 := os ++ "\t//" ++ "\n"
    ++ "\t// -- The " ++ node.name.name ++ " get node type as string function" ++ "\n"
    ++ "\t//---------------------------------------------------------------------------------"
    ++ "\n"
    ++ "public:" ++ "\n"
    ++ "\tvirtual const char *_GetTypeString(void) const "
  if node.flags &&& ABSTRACT ≠ 0 then os1 ++ " = 0;" ++ "\n" ++ "\n"
  else os1 ++ "\x7b return \"" ++ node.name.name ++ "\"; \x7d" ++ "\n" ++ "\n"

/-- `cpp_EmitNodeContents` (lines 463-473), for the node at position `p`. -/
def cpp_EmitNodeContents (nodes : List Node) (fuel : Nat) (os : String) (p : Nat) :
    Option String :=
  match nodes[p]? with
  | none => none
  | some node =>
    match cpp_EmitConstructor nodes fuel os p with
    | none => none
    | some os1 =>
      let os2 := cpp_EmitDestructor os1 node
      let os3 := cpp_EmitAttributes os2 node.attrs
      let os4 := cpp_EmitMethods os3 node.methods
      let os5 := cpp_EmitEmptyFunc os4 node
      match cpp_EmitFactoryFunc nodes fuel os5 p with
      | none => none
      | some os6 =>
        let os7 := cpp_EmitGetType os6 node
        some (cpp_EmitGetTypeString os7 node)

/-- The body of the loop of `cpp_EmitNodes` (lines 489-504) for the node `n`
at position `p`. -/
def emitClass (nodes : List Node) (fuel : Nat) (os : String) (p : Nat) (n : Node) :
    Option String :=
  let os1 := os ++ "//-----------------------------------------------------------------------------------------------" ++ "\n"
    ++ "// The " ++ n.name.name ++ " node" ++ "\n"
    ++ "//-----------------------------------------------------------------------------------------------" ++ "\n"
    ++ "class " ++ n.name.name
  let os2 : Option String :=
    match n.parent with
    | none => some os1
    | some q =>
      match nodes[q]? with
      | none => none
      | some par => some (os1 ++ " : public " ++ par.name.name)
  match os2 with
  | none => none
  | some os3 =>
    match cpp_EmitNodeContents nodes fuel (os3 ++ " \x7b" ++ "\n") p with
    | none => none
    | some os4 => some (os4 ++ "\x7d;" ++ "\n" ++ "\n" ++ "\n")

/-- The loop of `cpp_EmitNodes` (lines 488-505): `rest` is what is left of
the node list and `p` the position of its first node. -/
def nodesLoop (nodes : List Node) (fuel : Nat) : List Node → Nat → String → Option String
  | [], _, os => some os
  | n :: rest, p, os =>
    match emitClass nodes fuel os p n with
    | none => none
    | some os1 => nodesLoop nodes fuel rest (p + 1) os1

/-- `cpp_EmitNodes` (lines 479-506). -/
def cpp_EmitNodes (nodes : List Node) (fuel : Nat) (os : String) : Option String :=
  let os1 := os ++ "//-----------------------------------------------------------------------------------------------" ++ "\n"
    ++ "// now to emit each of the nodes in turn" ++ "\n"
    ++ "//-----------------------------------------------------------------------------------------------" ++ "\n"
    ++ "\n" ++ "\n"
  nodesLoop nodes fuel nodes 0 os1

/-- `cpp_Emit` (lines 523-537): the text written to the output file.  When
`cpp_EmitHeader` has left the stream in the failed state, the emitters after
it run all the same but nothing they write reaches the file, which then holds
what the header had written.  The ending code is the last thing written; a
null `endingCode` is the empty text of the model. -/
def cpp_Emit (m : Model) (outputFile : String) (curr_file : Option String) (fuel : Nat) :
    Option String :=
  let h := cpp_EmitHeader "" outputFile curr_file
  let os2 := cpp_EmitForwards h.1 m.symtab
  let os3 := cpp_EmitNodeTypes os2 m.nodes
  let os4 := cpp_EmitIncludes os3 m.includes
  match cpp_EmitNodes m.nodes fuel os4 with
  | none => none
  | some os5 => if h.2 then some (os5 ++ m.endingCode) else some h.1

/-! ## The driver (`ast-cc.cc`, lines 331-338) -/

/-- What a run of `main` leaves behind: the exit code and the output file
(`none` when `cpp_Emit` was not called). -/
structure RunResult where
  exit : Int
  emitted : Option String
  deriving DecidableEq, Repr

/-- The part of `main` after the parse loop (lines 331-338); `parse_error`
is the error flag of the front end. -/
def mainAfterParse (parse_error : Int) (m : Model) (outputFile : String)
    (curr_file : Option String) (fuel : Nat) : Option RunResult :=
  if parse_error ≠ 0 then some { exit := 1, emitted := none }
  else
    let r := Semant m
    if r.rv = false then some { exit := 1, emitted := none }
    else
      match cpp_Emit r.model outputFile curr_file fuel with
      | none => none
      | some out => some { exit := 0, emitted := some out }

/-! ## The argument loop of the driver (`ast-cc.cc`, lines 316-329) -/

/-- What the argument loop of `main` leaves behind: the local `outfile`
(`none` for `NULL`), the globals `outputFile` and `curr_file`, the files
`yyparse` has run on, in order, and what was written to `std::cerr`. -/
structure ArgState where
  outfile : Option String
  outputFile : String
  curr_file : Option String
  parsed : List String
  cerr : List String
  deriving DecidableEq, Repr

/-- The state before the loop: `outfile` is `NULL` (line 301) and
`outputFile` is `ast-nodes.hh` (line 74). -/
def argStart : ArgState :=
  { outfile := none, outputFile := "ast-nodes.hh", curr_file := none, parsed := [], cerr := [] }

/-- The argument loop of `main` (lines 316-329); the list holds the arguments
from `argv[i]` on.  `openBuffer` and `yyparse` are the two functions of the
front end, given by what they return for a file.  The loop ends at the
`break` of line 327.  `none` stands for `-o` as the last argument: `argv[argc]`
is a null pointer and `std::string(outfile)` has no defined value. -/
def argLoop (openBuffer yyparse : String → Int) : List String → ArgState → Option ArgState
  | [], s => some s
  | a :: rest, s =>
    if a = "-o" ∧ s.outfile = none then
      match rest with
      | [] => none
      | v :: rest2 =>
        argLoop openBuffer yyparse rest2 { s with outfile := some v, outputFile := v }
    else if openBuffer a ≠ 0 then
      let s1 := { s with curr_file := some a, parsed := s.parsed ++ [a] }
      if yyparse a ≠ 0 then
        some { s1 with cerr := s1.cerr ++ ["ERROR parsing the ast source" ++ "\n"] }
      else some s1
    else argLoop openBuffer yyparse rest s

/-- The argument loop on the whole command line `argv`, program name
first. -/
def parseArguments (openBuffer yyparse : String → Int) (argv : List String) :
    Option ArgState :=
  argLoop openBuffer yyparse (argv.drop 1) argStart

/-! ## The first variant of the compiler (`src/ast-cc.cc`, `src/ast-cc.h`)

The declarations of this variant live in the namespace `Legacy`.  Its lists
(`FeatureList`, `NodeList`) are chains of cells linked by `prev`: a chain is a
Lean list whose head is the cell at hand (the declaration made last) and
whose tail is the chain behind `prev`.  A `Node *` is the number of cells
behind the cell of the node, that is the position of the node in declaration
order. -/

namespace Legacy

def OPT_NONE : Nat := 0
def OPT_NO_INIT : Nat := 1
def OPT_NO_INLINES : Nat := 2
def OPT_VIRTUAL : Nat := 16
def OPT_EXTERNAL : Nat := 32
def OPT_ABSTRACT : Nat := 128

/-- The three classes derived from `Feature` (`ast-cc.h`, lines 68-186);
`code` of a `Func` may be a null pointer. -/
inductive Feature where
  | Attr (type name : String) (opts : Nat) (dft : String)
  | Factory (type : String)
  | Func (spec : String) (code : Option String) (opts : Nat)
  deriving DecidableEq, Repr

/-- The class `Node` (`ast-cc.h`, lines 223-283).  The member `hasInitParms`
is used by `Node::EmitCode` (lines 430 and 444) and is not declared in the
header at hand; it is taken as one more boolean member. -/
structure Node where
  parent : Option Nat
  name : String
  inherits : Option String
  opt : Nat
  feats : List Feature
  factType : Option String
  hasInitParms : Bool
  deriving DecidableEq, Repr

/-- The node a `Node *` points to, in the chain `l`. -/
def deref : List Node → Nat → Option Node
  | [], _ => none
  | c :: prev, p => if p = prev.length then some c else deref prev p

/-- The chain `l` with the node behind the pointer `p` replaced by `f` of
it. -/
def update (f : Node → Node) : List Node → Nat → List Node
  | [], _ => []
  | c :: prev, p => if p = prev.length then f c :: prev else c :: update f prev p

/-- `NodeList::FindNodeByName` (lines 242-248), called on the cell at the
head of the chain. -/
def FindNodeByName : List Node → Option String → Option Nat
  | _, none => none
  | [], some _ => none
  | c :: prev, some n =>
    if c.name = n then some prev.length
    else
      match prev with
      | [] => none
      | d :: prev2 => FindNodeByName (d :: prev2) (some n)

/-- `NodeList::BuildParents` (lines 250-255), called on the cell at the head
of the chain: the chain afterwards. -/
def BuildParents : List Node → List Node
  | [] => []
  | c :: prev =>
    let prev1 := BuildParents prev
    { c with parent := FindNodeByName (c :: prev1) c.inherits } :: prev1

/-- `Feature::IsFactory`, also the test `GetNodeType() == NODE_Factory`. -/
def Feature.IsFactory : Feature → Bool
  | Feature.Factory _ => true
  | _ => false

/-- `Feature::GetAttrCount` (`ast-cc.h`, lines 101, 137, 180). -/
def Feature.GetAttrCount : Feature → Nat
  | Feature.Attr _ _ opts _ => if opts &&& OPT_NO_INIT ≠ 0 then 0 else 1
  | _ => 0

/-- `Feature::NeedsColon` (`ast-cc.h`, lines 106, 142, 185). -/
def Feature.NeedsColon : Feature → Bool
  | Feature.Attr _ _ _ _ => true
  | _ => false

/-- `Feature::EmitAttrsAsFormal` (`Attr`: lines 263-272): the stream and the
returned count. -/
def Feature.EmitAttrsAsFormal : Feature → String × Nat → String × Nat
  | Feature.Attr type _ opts _, st =>
    if opts &&& OPT_NO_INIT ≠ 0 then st
    else
      let os1 := if st.2 ≠ 0 then st.1 ++ ", " else st.1
      let vars := st.2 + 1
      (os1 ++ type ++ " " ++ "__" ++ toString vars ++ "__", vars)
  | _, st => st

/-- `FeatureList::EmitAttrsAsFormal` (lines 343-348). -/
def FeatureList.EmitAttrsAsFormal : List Feature → String × Nat → String × Nat
  | [], st => st
  | feat :: prev, st => feat.EmitAttrsAsFormal (FeatureList.EmitAttrsAsFormal prev st)

/-- `FeatureList::GetLocalAttrCount` (lines 361-367). -/
def FeatureList.GetLocalAttrCount : List Feature → Nat
  | [] => 0
  | feat :: prev => FeatureList.GetLocalAttrCount prev + feat.GetAttrCount

/-- `FeatureList::NeedsColon` (lines 274-279). -/
def FeatureList.NeedsColon : List Feature → Bool
  | [] => false
  | feat :: prev => FeatureList.NeedsColon prev || feat.NeedsColon

/-- `Feature::EmitConstruct` (`Attr`: lines 324-334): the stream, the global
`prtComma` and the returned number. -/
def Feature.EmitConstruct : Feature → String × Bool × Nat → String × Bool × Nat
  | Feature.Attr _ name opts dft, st =>
    let os1 := if st.2.1 then st.1 ++ ", " else st.1
    let os2 := os1 ++ name ++ "("
    if opts &&& OPT_NO_INIT ≠ 0 then (os2 ++ dft ++ ")", true, st.2.2)
    else (os2 ++ "__" ++ toString st.2.2 ++ "__" ++ ")", true, st.2.2 + 1)
  | _, st => st

/-- `FeatureList::EmitConstruct` (lines 336-341). -/
def FeatureList.EmitConstruct : List Feature → String × Bool × Nat → String × Bool × Nat
  | [], st => st
  | feat :: prev, st => feat.EmitConstruct (FeatureList.EmitConstruct prev st)

/-- `Feature::EmitAttrCode` (`Attr`: lines 313-316). -/
def Feature.EmitAttrCode : Feature → String → String
  | Feature.Attr type name _ _, os => os ++ "    " ++ type ++ " " ++ name ++ ";" ++ "\n"
  | _, os => os

/-- `FeatureList::EmitAttrCode` (lines 318-322). -/
def FeatureList.EmitAttrCode : List Feature → String → String
  | [], os => os
  | feat :: prev, os => feat.EmitAttrCode (FeatureList.EmitAttrCode prev os)

/-- `Feature::EmitAttrInline` (`Attr`: lines 297-305). -/
def Feature.EmitAttrInline : Feature → String → String
  | Feature.Attr type name opts _, os =>
    if opts &&& OPT_NO_INLINES ≠ 0 then os
    else
      os ++ "    virtual " ++ type ++ " Get_" ++ name ++ "(void) const \x7b return " ++ name
        ++ "; \x7d" ++ "\n"
        ++ "    virtual void Set_" ++ name ++ "(" ++ type ++ " __val__) \x7b " ++ name
        ++ " = __val__; \x7d" ++ "\n"
  | _, os => os

/-- `FeatureList::EmitAttrInline` (lines 307-311). -/
def FeatureList.EmitAttrInline : List Feature → String → String
  | [], os => os
  | feat :: prev, os => feat.EmitAttrInline (FeatureList.EmitAttrInline prev os)

/-- `Feature::EmitMethod` (`Func`: lines 281-289). -/
def Feature.EmitMethod : Feature → String → String
  | Feature.Func spec code opts, os =>
    let os1 := os ++ "    virtual " ++ spec
    if opts &&& OPT_VIRTUAL ≠ 0 then os1 ++ " = 0;" ++ "\n"
    else if opts &&& OPT_EXTERNAL ≠ 0 then os1 ++ ";" ++ "\n"
    else
      match code with
      | some c => os1 ++ " " ++ c ++ "\n"
      | none => os1 ++ ";" ++ "\n"
  | _, os => os

/-- `FeatureList::EmitMethod` (lines 291-295). -/
def FeatureList.EmitMethod : List Feature → String → String
  | [], os => os
  | feat :: prev, os => feat.EmitMethod (FeatureList.EmitMethod prev os)

/-- The loop of `Node::GetReturnType` (lines 373-380): the type of the first
`Factory` feature met from the head of the chain. -/
def returnTypeLoop : List Feature → Option String
  | [] => none
  | Feature.Factory type :: _ => some type
  | _ :: prev => returnTypeLoop prev

/-- `Node::GetReturnType` (lines 369-383). -/
def Node.GetReturnType (n : Node) : String :=
  match returnTypeLoop n.feats with
  | some type => type
  | none => n.name

/-- `Node::EmitAttrsAsFormal` (lines 350-359), called on the node behind the
pointer `p`: the stream and the returned count. -/
def Node.EmitAttrsAsFormal (l : List Node) : Nat → String → Nat → Option (String × Nat)
  | 0, _, _ => none
  | fuel + 1, os, p =>
    match deref l p with
    | none => none
    | some node =>
      match node.parent with
      | none => some (FeatureList.EmitAttrsAsFormal node.feats (os, 0))
      | some q =>
        match Node.EmitAttrsAsFormal l fuel os q with
        | none => none
        | some st => some (FeatureList.EmitAttrsAsFormal node.feats st)

/-- The two loops `for (int i = 1; i <= n; i ++)` of `Node::EmitCode` (lines
411-414 and 435-438); `k` counts the rounds left and `i` is the loop
variable. -/
def numberedArgs : Nat → Nat → String → String
  | 0, _, os => os
  | k + 1, i, os =>
    let os1 := if i ≠ 1 then os ++ ", " else os
    numberedArgs k (i + 1) (os1 ++ "__" ++ toString i ++ "__")

/-- What `Node::EmitCode` leaves behind: the stream, the global `prtComma`
and the member `hasInitParms` of the node. -/
structure EmitResult where
  os : String
  prtComma : Bool
  hasInitParms : Bool
  deriving DecidableEq, Repr

/-- The second part of `Node::EmitCode` (lines 429-468), from the `) ` that
closes the parameter list of the constructor on, for the node `node` with the
resolved parent `parent`; `vars` is the local variable of that name and `os6`
the stream so far.  The global `prtComma` is written (line 443) before it is
read, so its value on entry is no argument. -/
def Node.EmitCodeRest (node : Node) (parent : Option Node) (vars : Nat) (os6 : String) :
    EmitResult :=
  let parentInit : Bool :=
    match parent with
    | some pn => pn.hasInitParms
    | none => false
  let os7 :=
    if FeatureList.NeedsColon node.feats || parentInit then os6 ++ ": " else os6
  let inh : Nat :=
    match parent with
    | some pn => FeatureList.GetLocalAttrCount pn.feats
    | none => 0
  let os8 :=
    match parent with
    | some pn =>
      if inh ≠ 0 then numberedArgs inh 1 (os7 ++ pn.name ++ "(") ++ ")" else os7
    | none => os7
  let os9 := if inh ≠ 0 ∧ (vars : Int) - (inh : Int) ≠ 0 then os8 ++ ", " else os8
  let st10 := FeatureList.EmitConstruct node.feats (os9, false, inh + 1)
  let hip : Bool :=
    if node.feats ≠ [] ∧ st10.2.2 > inh + 1 then true else node.hasInitParms
  let prt : Bool := if node.feats ≠ [] then st10.2.1 else false
  let os10 := if node.feats ≠ [] then st10.1 else os9
  let os11 := os10 ++ " \x7b \x7d" ++ "\n" ++ "\n"
    ++ "protected:" ++ "\n"
  let os12 := FeatureList.EmitAttrCode node.feats os11 ++ "\n"
    ++ "public:" ++ "\n"
  let os13 := FeatureList.EmitAttrInline node.feats os12 ++ "\n"
  let os14 := FeatureList.EmitMethod node.feats os13
  { os := os14 ++ "\x7d;" ++ "\n" ++ "\n", prtComma := prt, hasInitParms := hip }

/-- `Node::EmitCode` (lines 385-469), called on the node behind the pointer
`p`: the lines 385-428 here, the rest in `Node.EmitCodeRest`. -/
def Node.EmitCode (l : List Node) (fuel : Nat) (os : String) (p : Nat) :
    Option EmitResult :=
  match deref l p with
  | none => none
  | some node =>
    let par : Option (Option Node) :=
      match node.parent with
      | none => some none
      | some q =>
        match deref l q with
        | none => none
        | some pn => some (some pn)
    match par with
    | none => none
    | some parent =>
      let os1 := os ++ "class " ++ node.name
      let os2 :=
        match parent with
        | some pn => os1 ++ " : public " ++ pn.name
        | none => os1
      let os3 := os2 ++ " \x7b" ++ "\n"
        ++ "public:" ++ "\n"
        ++ "    static " ++ node.GetReturnType ++ " *empty(void) \x7b return ("
        ++ node.GetReturnType ++ " *)0; \x7d" ++ "\n"
      let fact : Option (String × Nat) :=
        if node.opt &&& OPT_ABSTRACT ≠ 0 then
          some (os3, FeatureList.GetLocalAttrCount node.feats)
        else
          match Node.EmitAttrsAsFormal l fuel
              (os3 ++ "    static " ++ node.GetReturnType ++ " *factory(") p with
          | none => none
          | some st =>
            some (numberedArgs st.2 1 (st.1 ++ ") \x7b return new " ++ node.name ++ "(")
              ++ "); \x7d" ++ "\n" ++ "\n", st.2)
      match fact with
      | none => none
      | some (os4, vars) =>
        let os5 := os4
          ++ "    virtual AstNodeType Get_AstNodeType(void) const \x7b return NODE_"
          ++ node.name ++ "; \x7d" ++ "\n" ++ "\n"
          ++ "protected:" ++ "\n"
          ++ "    explicit " ++ node.name ++ "("
        match Node.EmitAttrsAsFormal l fuel os5 p with
        | none => none
        | some st6 => some (Node.EmitCodeRest node parent vars (st6.1 ++ ") "))

/-- `NodeList::EmitCode` (lines 257-261), called on the cell at the head of
the first list; the state is the whole chain, whose nodes carry the member
`hasInitParms`, and the stream. -/
def NodeList.EmitCode (fuel : Nat) : List Node → List Node × String → Option (List Node × String)
  | [], st => some st
  | _ :: prev, st =>
    match NodeList.EmitCode fuel prev st with
    | none => none
    | some st1 =>
      match Node.EmitCode st1.1 fuel st1.2 prev.length with
      | none => none
      | some r =>
        some (update (fun n => { n with hasInitParms := r.hasInitParms }) st1.1 prev.length,
          r.os)

end Legacy

/-! ## Vocabulary of the properties of the emitters -/

/-- The texts of a list, one after the other. -/
def concatAll : List String → String
  | [] => ""
  | x :: rest => x ++ concatAll rest

/-- The texts of a list, separated by `sep`. -/
def joinWith (sep : String) : List String → String
  | [] => ""
  | [x] => x
  | x :: y :: rest => x ++ sep ++ joinWith sep (y :: rest)

/-- What `cpp_EmitNodeTypes` writes before the tags. -/
def nodeTypesHead : String :=
  "//-----------------------------------------------------------------------------------------------" ++ "\n"
    ++ "// This enumeration is used to identify the types of nodes" ++ "\n"
    ++ "//-----------------------------------------------------------------------------------------------" ++ "\n"
    ++ "typedef enum \x7b" ++ "\n"

/-- What `cpp_EmitForwards` writes before the declarations. -/
def forwardsHead : String :=
  "//-----------------------------------------------------------------------------------------------" ++ "\n"
    ++ "// The following are forward declarations for the nodes that are defined in the source file"
    ++ "\n"
    ++ "//-----------------------------------------------------------------------------------------------" ++ "\n"

/-- What `cpp_EmitHeader` writes up to the name of the source file. -/
def headerStub (outputFile : String) : String :=
  "//===============================================================================================" ++ "\n"
    ++ "//" ++ "\n"
    ++ "// " ++ outputFile ++ " -- The defined nodes for the Abstract Syntax Tree" ++ "\n"
    ++ "//" ++ "\n"
    ++ "// This file is automatically generated using `ast-cc` against the source file "

/-- The whole header comment, for the source file `source`. -/
def headerText (outputFile source : String) : String :=
  headerStub outputFile ++ source ++ "." ++ "\n"
    ++ "//" ++ "\n"
    ++ "// Do not modify this file directly as your changes will likely be lost." ++ "\n"
    ++ "//" ++ "\n"
    ++ "//===============================================================================================" ++ "\n"
    ++ "\n" ++ "\n"

/-- What `cpp_EmitIncludes` writes before the directives. -/
def includesHead : String :=
  "//-----------------------------------------------------------------------------------------------" ++ "\n"
    ++ "// These include files are specified in the source file" ++ "\n"
    ++ "//-----------------------------------------------------------------------------------------------" ++ "\n"

/-- What `cpp_EmitNodes` writes before the classes. -/
def nodesHead : String :=
  "//-----------------------------------------------------------------------------------------------" ++ "\n"
    ++ "// now to emit each of the nodes in turn" ++ "\n"
    ++ "//-----------------------------------------------------------------------------------------------" ++ "\n"
    ++ "\n" ++ "\n"

/-- The banner `cpp_EmitMethods` writes before a method. -/
def methodBanner (m : Method) : String :=
  "\t//" ++ "\n"
    ++ "\t// -- The " ++ m.name ++ " method" ++ "\n"
    ++ "\t//---------------------------------------------------------------------------------"
    ++ "\n"

/-- The access label `cpp_EmitMethods` writes for a method (lines 340-342). -/
def methodVisLabel (m : Method) : String :=
  if m.flags &&& PRIVATE ≠ 0 then "private:" ++ "\n"
  else if m.flags &&& PROTECTED ≠ 0 then "protected:" ++ "\n"
  else "public:" ++ "\n"

/-- The declaration of one parameter of a method. -/
def methParmText (p : Parameter) : String :=
  p.type.name ++ " " ++ (if p.type.kind = Kind.NODE then "*" else "") ++ p.name

/-- The signature of a method: return type, name and parameter list. -/
def methodSignature (m : Method) : String :=
  m.type.name ++ " " ++ (if m.type.kind = Kind.NODE then "*" else "") ++ m.name ++ "("
    ++ (if m.parms.length = 0 then "void" else joinWith ", " (m.parms.map methParmText))
    ++ ")"

/-- The text of the constructor of `n`, whose parent chain is `pchain`. -/
def ctorText (pchain : List Node) (n : Node) : String :=
  ctorHead n ++ formalsText (chainInitAttrs (pchain ++ [n])) ++ ")"
    ++ ctorInitText pchain n ++ " \x7b \x7d" ++ "\n" ++ "\n"

/-- The text of the Factory function of `n`, whose parent chain is `pchain`:
nothing for an abstract node. -/
def factoryText (pchain : List Node) (n : Node) : String :=
  if n.flags &&& ABSTRACT ≠ 0 then ""
  else
    factoryHead n ++ formalsText (chainInitAttrs (pchain ++ [n])) ++ ")"
      ++ " \x7b return new " ++ n.name.name ++ "("
      ++ joinSep ((chainInitAttrs (pchain ++ [n])).map argText)
      ++ "); \x7d" ++ "\n" ++ "\n"

/-- The text of the class members of `n`, in the order of
`cpp_EmitNodeContents`. -/
def contentsText (pchain : List Node) (n : Node) : String :=
  ctorText pchain n ++ cpp_EmitDestructor "" n ++ cpp_EmitAttributes "" n.attrs
    ++ cpp_EmitMethods "" n.methods ++ cpp_EmitEmptyFunc "" n ++ factoryText pchain n
    ++ cpp_EmitGetType "" n ++ cpp_EmitGetTypeString "" n

/-- The text of the class of `n`, whose parent chain is `pchain`. -/
def classText (pchain : List Node) (n : Node) : String :=
  "//-----------------------------------------------------------------------------------------------" ++ "\n"
    ++ "// The " ++ n.name.name ++ " node" ++ "\n"
    ++ "//-----------------------------------------------------------------------------------------------" ++ "\n"
    ++ "class " ++ n.name.name
    ++ (match pchain.getLast? with
        | none => ""
        | some par => " : public " ++ par.name.name)
    ++ " \x7b" ++ "\n"
    ++ contentsText pchain n
    ++ "\x7d;" ++ "\n" ++ "\n" ++ "\n"

/-- The tags of the enumeration, in the order `cpp_EmitNodeTypes` writes
them. -/
def enumTags (nodes : List Node) : List String :=
  (nodes.filter (fun n => n.flags &&& ABSTRACT = 0)).map (fun n => "NODE_TYPE_" ++ n.name.name)

/-- The tag the accessor `_GetType` of the class of `n` returns: none for a
pure virtual accessor. -/
def returnedTag (n : Node) : Option String :=
  if n.flags &&& ABSTRACT ≠ 0 then none else some ("NODE_TYPE_" ++ n.name.name)

/-- What `cpp_EmitGetType` writes before the body of the accessor. -/
def getTypeHead (n : Node) : String :=
  "\t//" ++ "\n"
    ++ "\t// -- The " ++ n.name.name ++ " get node type function" ++ "\n"
    ++ "\t//---------------------------------------------------------------------------------"
    ++ "\n"
    ++ "public:" ++ "\n"
    ++ "\tvirtual ASTNodeType _GetType(void) const "

namespace Legacy

/-- `IsPath l ptr path`: following the parent links from `ptr` in the chain
`l` visits exactly the nodes of `path`, the starting node first, and then
reaches a null parent. -/
def IsPath (l : List Node) : Option Nat → List Node → Prop
  | none, [] => True
  | some p, n :: rest => deref l p = some n ∧ IsPath l n.parent rest
  | none, _ :: _ => False
  | some _, [] => False

/-- The clause `: public <parent>` of a class whose resolved parent is
`parent`. -/
def parentClause (parent : Option Node) : String :=
  match parent with
  | some pn => " : public " ++ pn.name
  | none => ""

/-- The chain, the node declared last first, of the nodes `A` (inherits
`B`) and `B`, with `A` declared first. -/
def forwardChain : List Node :=
  [{ parent := none, name := "B", inherits := none, opt := OPT_NONE, feats := [],
      factType := none, hasInitParms := false },
   { parent := none, name := "A", inherits := some "B", opt := OPT_NONE, feats := [],
      factType := none, hasInitParms := false }]

/-- The node `Expression` of the sample in `ast-cc.cc` (lines 34-41). -/
def exprNode : Node :=
  { parent := none, name := "Expression", inherits := none, opt := OPT_ABSTRACT,
    feats := [Feature.Func "void print(ostream &s)" (some "\x7b s << file; \x7d") OPT_NONE,
              Feature.Func "void semant(void)" none OPT_VIRTUAL,
              Feature.Attr "int" "type" OPT_NO_INIT "0",
              Feature.Attr "string" "file" OPT_NONE "",
              Feature.Attr "int" "line_no" OPT_NONE ""],
    factType := none, hasInitParms := false }

/-- The node `ID` of the sample in `ast-cc.cc` (lines 43-49), with
`$factory Expression`. -/
def idNode : Node :=
  { parent := none, name := "ID", inherits := some "Expression", opt := OPT_NONE,
    feats := [Feature.Func "Symbol *GetSymbol(void)" (some "\x7b return 0; \x7d") OPT_NONE,
              Feature.Func "void semant(void)" none OPT_EXTERNAL,
              Feature.Attr "string" "id_string" OPT_NO_INLINES "",
              Feature.Factory "Expression"],
    factType := none, hasInitParms := false }

/-- One node `A` that names itself as its parent. -/
def selfChain : List Node :=
  [{ parent := none, name := "A", inherits := some "A", opt := OPT_NONE, feats := [],
      factType := none, hasInitParms := false }]

/-- Three nodes, the node declared last first: `G` with the attribute `a`,
`P` (inherits `G`) with the attribute `b`, `N` (inherits `P`) with the
attribute `c`. -/
def depthChain : List Node :=
  [{ parent := none, name := "N", inherits := some "P", opt := OPT_NONE,
      feats := [Feature.Attr "int" "c" OPT_NONE ""], factType := none, hasInitParms := false },
   { parent := none, name := "P", inherits := some "G", opt := OPT_NONE,
      feats := [Feature.Attr "int" "b" OPT_NONE ""], factType := none, hasInitParms := false },
   { parent := none, name := "G", inherits := none, opt := OPT_NONE,
      feats := [Feature.Attr "int" "a" OPT_NONE ""], factType := none, hasInitParms := false }]

/-- The chain of the sample: `Expression` declared first, then `ID`. -/
def sampleChain : List Node := [idNode, exprNode]

end Legacy

/-! ## Vocabulary of the properties of the validator -/

/-- The state in which `Semant` starts: `rv` true, nothing reported. -/
def cleanState : SemState := { rv := true, err := [] }

/-- The state after the diagnostics `d` are reported from `s`: `rv` is
cleared when `d` is not empty. -/
def SemState.add (s : SemState) (d : List String) : SemState :=
  { rv := s.rv && d.isEmpty, err := s.err ++ d }

/-- A step of the validator that, from any state, reports the same
diagnostics as from the clean state. -/
def Frame (f : SemState → SemState) : Prop :=
  ∀ s, f s = s.add (f cleanState).err

/-- The diagnostics of each element of a list, checked together with the
elements after it, in list order. -/
def eachWithRest {α : Type} (f : α → List α → List String) : List α → List String
  | [] => []
  | x :: rest => f x rest ++ eachWithRest f rest

/-- What the include check reports for the entry `x` followed by `rest`. -/
def includeDiags (x : String) (rest : List String) : List String :=
  (inclInner x rest cleanState).err

/-- What the duplicate-name check reports for the attribute `a` of `n`
followed by the attributes `rest`. -/
def attrDupDiags (n : Node) (a : Attribute) (rest : List Attribute) : List String :=
  (attrDupLoop n a rest cleanState).err

/-- What the method-name check reports for the attribute `a` of `n`. -/
def attrMethDiags (n : Node) (a : Attribute) : List String :=
  (attrMethLoop n a n.methods cleanState).err

/-- What the visibility check reports for the attribute `a` of `n`. -/
def attrVisDiags (n : Node) (a : Attribute) : List String :=
  (attrVisCheck n (attrDefaultVis a a.flags) a.flags cleanState).err

/-- Everything the attribute loop reports for the attribute `a` of `n`
followed by the attributes `rest`. -/
def attrDiags (n : Node) (a : Attribute) (rest : List Attribute) : List String :=
  attrDupDiags n a rest ++ attrMethDiags n a ++ attrVisDiags n a

/-- Everything the method loop reports for the method `meth` followed by the
methods `rest`. -/
def methDiags (meth : Method) (rest : List Method) : List String :=
  (methCodeCheck meth (sigLoop meth rest (true, cleanState)).2).1.err

/-- Everything the node loop reports for the node `n`. -/
def nodeDiags (n : Node) : List String :=
  eachWithRest (attrDiags n) n.attrs ++ eachWithRest methDiags n.methods

/-- What the signature check reports for the method `meth` followed by the
methods `rest`. -/
def sigDiags (meth : Method) (rest : List Method) : List String :=
  (sigLoop meth rest (true, cleanState)).2.err

/-- What the check of code against `EXTERNAL` reports for the method
`meth`. -/
def codeDiags (meth : Method) : List String :=
  (methCodeCheck meth cleanState).1.err

/-- Two methods with equal names, equal parameter counts and pairwise
identical parameter types. -/
def SameSignature (m1 m2 : Method) : Prop :=
  m1.name = m2.name ∧ m1.parms.length = m2.parms.length
    ∧ ∀ pc ∈ m1.parms.zip m2.parms, pc.1.type = pc.2.type

instance (m1 m2 : Method) : Decidable (SameSignature m1 m2) := by
  unfold SameSignature
  infer_instance

/-- Exactly one of `PUBLIC`, `PROTECTED`, `PRIVATE` is set in `f`. -/
def OneVisibility (f : Nat) : Prop :=
  (f &&& PUBLIC ≠ 0 ∧ f &&& PROTECTED = 0 ∧ f &&& PRIVATE = 0)
  ∨ (f &&& PUBLIC = 0 ∧ f &&& PROTECTED ≠ 0 ∧ f &&& PRIVATE = 0)
  ∨ (f &&& PUBLIC = 0 ∧ f &&& PROTECTED = 0 ∧ f &&& PRIVATE ≠ 0)

instance (f : Nat) : Decidable (OneVisibility f) := by
  unfold OneVisibility
  infer_instance

/-- The one diagnostic per pair of visibility flags present in `f`, in the
order of the checks. -/
def visPairDiags (n : Node) (a : Attribute) (f : Nat) : List String :=
  (if f &&& PUBLIC ≠ 0 ∧ f &&& PROTECTED ≠ 0 then
    ["Error: Cannot specify both PUBLIC and PROTECTED on attribute " ++ a.name
      ++ " in class " ++ n.name.name ++ "\n"] else [])
  ++ (if f &&& PUBLIC ≠ 0 ∧ f &&& PRIVATE ≠ 0 then
    ["Error: Cannot specify both PUBLIC and PRIVATE on attribute " ++ a.name
      ++ " in class " ++ n.name.name ++ "\n"] else [])
  ++ (if f &&& PROTECTED ≠ 0 ∧ f &&& PRIVATE ≠ 0 then
    ["Error: Cannot specify both PROTECTED and PRIVATE on attribute " ++ a.name
      ++ " in class " ++ n.name.name ++ "\n"] else [])

/-- The banner `cpp_EmitAttributes` writes before an attribute. -/
def attrBanner (a : Attribute) : String :=
  "\t//" ++ "\n"
    ++ "\t// -- The " ++ a.name ++ " attribute" ++ "\n"
    ++ "\t//---------------------------------------------------------------------------------"
    ++ "\n"

/-- The declaration of an attribute and, unless `NOINLINES` is set, its two
accessors. -/
def attrMembers (a : Attribute) : String :=
  "\t" ++ (if a.flags &&& STATIC ≠ 0 then "static " else "")
    ++ a.type.name ++ " " ++ (if a.type.kind = Kind.NODE then "*" else "") ++ a.name ++ ";"
    ++ "\n" ++ "\n"
    ++ (if a.flags &&& NOINLINES ≠ 0 then ""
      else
        "public:" ++ "\n"
          ++ "\t" ++ a.type.name ++ " " ++ (if a.type.kind = Kind.NODE then "*" else "")
          ++ "Get_" ++ a.name ++ "(void) \x7b return " ++ a.name ++ "; \x7d" ++ "\n"
          ++ "\tvoid Set_" ++ a.name ++ "(" ++ a.type.name ++ " "
          ++ (if a.type.kind = Kind.NODE then "*" else "") ++ "val) \x7b "
          ++ a.name ++ " = val; \x7d" ++ "\n" ++ "\n")

/-- The access label `cpp_EmitAttributes` writes for an attribute (lines
301-303). -/
def visLabel (a : Attribute) : String :=
  if a.flags &&& PUBLIC ≠ 0 then "public:" ++ "\n"
  else if a.flags &&& PROTECTED ≠ 0 then "protected:" ++ "\n"
  else "private:" ++ "\n"

/-! ## More sample models -/

/-- A model whose include list names `<cstdio>` twice. -/
def dupInclModel : Model :=
  { includes := ["<cstdio>", "\"cstdio\"", "<cstdio>"], symtab := [], nodes := [],
    endingCode := "" }

/-- A node that declares the attribute name `x` twice. -/
def dupAttrNode : Node :=
  { flags := NONE, parent := none, name := { name := "Pair", kind := Kind.NODE },
    methods := [],
    attrs := [{ flags := PUBLIC, type := tInteger, name := "x", code := "" },
              { flags := PUBLIC, type := tString, name := "x", code := "" }] }

/-- One node, `dupAttrNode`. -/
def dupAttrModel : Model :=
  { includes := [], symtab := [], nodes := [dupAttrNode], endingCode := "" }

/-- A node with the attribute `size` and the method `size`. -/
def clashNode : Node :=
  { flags := NONE, parent := none, name := { name := "Box", kind := Kind.NODE },
    methods := [{ flags := PUBLIC, type := tInteger, name := "size", parms := [],
                  code := "\x7b return 0; \x7d" }],
    attrs := [{ flags := PUBLIC, type := tInteger, name := "size", code := "" }] }

/-- One node, `clashNode`. -/
def clashModel : Model :=
  { includes := [], symtab := [], nodes := [clashNode], endingCode := "" }

/-- An attribute flagged both `PUBLIC` and `PRIVATE`. -/
def twoVisAttr : Attribute :=
  { flags := PUBLIC ||| PRIVATE, type := tInteger, name := "depth", code := "" }

/-- A node whose only attribute is `twoVisAttr`. -/
def twoVisNode : Node :=
  { flags := NONE, parent := none, name := { name := "Tree", kind := Kind.NODE },
    methods := [], attrs := [twoVisAttr] }

/-- One node, `twoVisNode`. -/
def twoVisModel : Model :=
  { includes := [], symtab := [], nodes := [twoVisNode], endingCode := "" }

/-- A method `String compute(String w)` with an inline body. -/
def computeStrMeth : Method :=
  { flags := PUBLIC, type := tString, name := "compute",
    parms := [{ type := tString, name := "w" }], code := "\x7b return w; \x7d" }

/-- One node with the methods `compute(Integer)` and `compute(String)`. -/
def overloadModel : Model :=
  { includes := [], symtab := [tInteger, tString, { name := "Calc", kind := Kind.NODE }],
    nodes := [{ flags := NONE, parent := none, name := { name := "Calc", kind := Kind.NODE },
                methods := [computeMeth, computeStrMeth], attrs := [] }],
    endingCode := "" }

/-- The globals as `main` sets them up before the argument loop (`ast-cc.cc`,
lines 307-309): the abstract node `Common`, its symbol and the type `void`. -/
def startModel : Model :=
  { includes := [],
    symtab := [{ name := "Common", kind := Kind.NODE }, { name := "void", kind := Kind.TYPE }],
    nodes := [commonNode], endingCode := "" }

/-- The nodes `Common` and `Leaf` as a model. -/
def leafModel : Model :=
  { includes := [], symtab := [], nodes := leafNodes, endingCode := "" }

/-! ## The validator: the result only goes from true to false -/

theorem or_EXTERNAL_and (f : Nat) : (f ||| EXTERNAL) &&& EXTERNAL ≠ 0 := by
  intro h
  have h1 := congrArg (fun x => Nat.testBit x 7) h
  have h7 : Nat.testBit EXTERNAL 7 = true := by decide
  simp [Nat.testBit_and, Nat.testBit_or, h7] at h1

theorem and_cNot_EXTERNAL (f : Nat) : f &&& cNot EXTERNAL = 0 := by
  have : cNot EXTERNAL = 0 := by decide
  rw [this]; simp

theorem error_rv (s : SemState) (msg : String) : (s.error msg).rv = false := rfl

theorem inclInner_rv (x : String) (l : List String) (s : SemState) (h : s.rv = false) :
    (inclInner x l s).rv = false := by
  induction l generalizing s with
  | nil => simpa [inclInner] using h
  | cons c rest ih =>
    simp only [inclInner]
    split
    · exact ih _ (error_rv _ _)
    · exact ih _ h

theorem inclLoop_rv (l : List String) (s : SemState) (h : s.rv = false) :
    (inclLoop l s).rv = false := by
  induction l generalizing s with
  | nil => simpa [inclLoop] using h
  | cons c rest ih =>
    simp only [inclLoop]
    exact ih _ (inclInner_rv _ _ _ h)

theorem attrDupLoop_rv (n : Node) (a : Attribute) (l : List Attribute) (s : SemState)
    (h : s.rv = false) : (attrDupLoop n a l s).rv = false := by
  induction l generalizing s with
  | nil => simpa [attrDupLoop] using h
  | cons c rest ih =>
    simp only [attrDupLoop]
    split
    · exact ih _ (error_rv _ _)
    · exact ih _ h

theorem attrMethLoop_rv (n : Node) (a : Attribute) (l : List Method) (s : SemState)
    (h : s.rv = false) : (attrMethLoop n a l s).rv = false := by
  induction l generalizing s with
  | nil => simpa [attrMethLoop] using h
  | cons c rest ih =>
    simp only [attrMethLoop]
    split
    · exact ih _ (error_rv _ _)
    · exact ih _ h

theorem attrVisCheck_rv (n : Node) (a : Attribute) (f : Nat) (s : SemState)
    (h : s.rv = false) : (attrVisCheck n a f s).rv = false := by
  unfold attrVisCheck
  simp only
  split_ifs <;> first | exact error_rv _ _ | exact h

theorem attrLoop_rv (n : Node) (l : List Attribute) (s : SemState) (h : s.rv = false) :
    (attrLoop n l s).1.rv = false := by
  induction l generalizing s with
  | nil => simpa [attrLoop] using h
  | cons c rest ih =>
    simp only [attrLoop]
    exact ih _ (attrVisCheck_rv _ _ _ _ (attrMethLoop_rv _ _ _ _ (attrDupLoop_rv _ _ _ _ h)))

theorem sigLoop_rv (meth : Method) (l : List Method) (st : Bool × SemState)
    (h : st.2.rv = false) : (sigLoop meth l st).2.rv = false := by
  induction l generalizing st with
  | nil => simpa [sigLoop] using h
  | cons c rest ih =>
    simp only [sigLoop]
    split_ifs
    · exact ih _ (error_rv _ _)
    · exact ih _ h
    · exact ih _ h
    · exact ih _ h

theorem methCodeCheck_rv (meth : Method) (s : SemState) (h : s.rv = false) :
    (methCodeCheck meth s).1.rv = false := by
  unfold methCodeCheck
  simp only
  split_ifs <;> first | exact error_rv _ _ | exact h

theorem methLoop_rv (l : List Method) (s : SemState) (h : s.rv = false) :
    (methLoop l s).1.rv = false := by
  induction l generalizing s with
  | nil => simpa [methLoop] using h
  | cons c rest ih =>
    simp only [methLoop]
    exact ih _ (methCodeCheck_rv _ _ (sigLoop_rv _ _ _ h))

theorem semantNode_rv (n : Node) (s : SemState) (h : s.rv = false) :
    (semantNode n s).1.rv = false := by
  simp only [semantNode]
  exact methLoop_rv _ _ (attrLoop_rv _ _ _ h)

theorem nodeLoop_rv (l : List Node) (s : SemState) (h : s.rv = false) :
    (nodeLoop l s).1.rv = false := by
  induction l generalizing s with
  | nil => simpa [nodeLoop] using h
  | cons c rest ih =>
    simp only [nodeLoop]
    exact ih _ (semantNode_rv _ _ h)

/-- What line 283 (and nothing else) does to a method. -/
theorem methCodeCheck_snd (meth : Method) (s : SemState) :
    (methCodeCheck meth s).2 = if meth.code = "" then meth.Set_Flag EXTERNAL else meth := by
  unfold methCodeCheck
  by_cases hc : meth.code = ""
  · simp [hc, and_cNot_EXTERNAL, Method.Set_Flag]
  · simp [hc]
    split_ifs <;> simp [hc]

theorem methCodeCheck_external (meth : Method) (s : SemState)
    (hc : meth.code ≠ "") (hf : meth.flags &&& EXTERNAL ≠ 0) :
    (methCodeCheck meth s).1.rv = false := by
  unfold methCodeCheck
  simp [hc, hf, error_rv]

theorem methLoop_snd (l : List Method) (s : SemState) :
    (methLoop l s).2
      = l.map (fun meth => if meth.code = "" then meth.Set_Flag EXTERNAL else meth) := by
  induction l generalizing s with
  | nil => simp [methLoop]
  | cons c rest ih =>
    simp only [methLoop, List.map_cons, ih, methCodeCheck_snd]

theorem attrLoop_snd (n : Node) (l : List Attribute) (s : SemState) :
    (attrLoop n l s).2 = l.map (fun a => attrDefaultVis a a.flags) := by
  induction l generalizing s with
  | nil => simp [attrLoop]
  | cons c rest ih =>
    simp only [attrLoop, List.map_cons, ih]

theorem semantNode_snd (n : Node) (s : SemState) :
    (semantNode n s).2
      = { n with
          attrs := n.attrs.map (fun a => attrDefaultVis a a.flags),
          methods := n.methods.map
            (fun meth => if meth.code = "" then meth.Set_Flag EXTERNAL else meth) } := by
  simp only [semantNode, attrLoop_snd, methLoop_snd]

theorem nodeLoop_snd (l : List Node) (s : SemState) :
    (nodeLoop l s).2 = l.map (fun n => (semantNode n s).2) := by
  induction l generalizing s with
  | nil => simp [nodeLoop]
  | cons c rest ih =>
    simp only [nodeLoop, List.map_cons, ih, semantNode_snd]

theorem methLoop_external (l : List Method) (s : SemState) (meth : Method)
    (hm : meth ∈ l) (hc : meth.code ≠ "") (hf : meth.flags &&& EXTERNAL ≠ 0) :
    (methLoop l s).1.rv = false := by
  induction l generalizing s with
  | nil => simp at hm
  | cons c rest ih =>
    simp only [methLoop]
    rcases List.mem_cons.mp hm with h | h
    · subst h
      exact methLoop_rv _ _ (methCodeCheck_external _ _ hc hf)
    · exact ih _ h

theorem nodeLoop_external (l : List Node) (s : SemState) (n : Node) (meth : Method)
    (hn : n ∈ l) (hm : meth ∈ n.methods) (hc : meth.code ≠ "")
    (hf : meth.flags &&& EXTERNAL ≠ 0) :
    (nodeLoop l s).1.rv = false := by
  induction l generalizing s with
  | nil => simp at hn
  | cons c rest ih =>
    simp only [nodeLoop]
    rcases List.mem_cons.mp hn with h | h
    · subst h
      apply nodeLoop_rv
      simp only [semantNode]
      exact methLoop_external _ _ meth hm hc hf
    · exact ih _ h

/-! ## The claims on `Semant` -/

/-- C10: for every model containing a method that has the EXTERNAL flag and
non-empty code, `Semant` returns false. -/
theorem Semant_external_with_code (m : Model) (n : Node) (meth : Method)
    (hn : n ∈ m.nodes) (hm : meth ∈ n.methods)
    (hc : meth.code ≠ "") (hf : meth.flags &&& EXTERNAL ≠ 0) :
    (Semant m).rv = false := by
  simp only [Semant]
  exact nodeLoop_external _ _ n meth hn hm hc hf

theorem Semant_external_with_code_witness :
    extCodeNode ∈ extCodeModel.nodes ∧ extCodeMeth ∈ extCodeNode.methods
    ∧ extCodeMeth.code ≠ "" ∧ extCodeMeth.flags &&& EXTERNAL ≠ 0
    ∧ (Semant extCodeModel).rv = false :=
  ⟨by decide, by decide, by decide, by decide,
    Semant_external_with_code extCodeModel extCodeNode extCodeMeth (by decide) (by decide)
      (by decide) (by decide)⟩

/-- C9: after `Semant` returns, with either result, every method of every
node whose code is empty has the EXTERNAL flag set, whatever its flags were
before the call; the code texts of the methods are those of before the
call. -/
theorem Semant_empty_code_external (m : Model) (n : Node) (meth : Method)
    (hn : n ∈ (Semant m).model.nodes) (hm : meth ∈ n.methods) (hc : meth.code = "") :
    meth.flags &&& EXTERNAL ≠ 0
    ∧ (Semant m).model.nodes.map (fun n => n.methods.map Method.code)
        = m.nodes.map (fun n => n.methods.map Method.code) := by
  constructor
  · simp only [Semant, nodeLoop_snd, List.mem_map] at hn
    obtain ⟨n0, _, rfl⟩ := hn
    simp only [semantNode_snd, List.mem_map] at hm
    obtain ⟨m0, _, rfl⟩ := hm
    by_cases h0 : m0.code = ""
    · simp only [h0, if_true, Method.Set_Flag]
      exact or_EXTERNAL_and _
    · simp [h0] at hc
  · simp only [Semant, nodeLoop_snd, List.map_map]
    apply List.map_congr_left
    intro n _
    simp only [Function.comp, semantNode_snd, List.map_map]
    apply List.map_congr_left
    intro meth _
    simp only [Function.comp]
    split <;> rfl

theorem Semant_empty_code_external_witness :
    ({ noCodeNode with methods := [evalMeth.Set_Flag EXTERNAL] } : Node)
      ∈ (Semant noCodeModel).model.nodes
    ∧ evalMeth.Set_Flag EXTERNAL
      ∈ ({ noCodeNode with methods := [evalMeth.Set_Flag EXTERNAL] } : Node).methods
    ∧ (evalMeth.Set_Flag EXTERNAL).code = ""
    ∧ (evalMeth.Set_Flag EXTERNAL).flags &&& EXTERNAL ≠ 0
    ∧ (Semant noCodeModel).model.nodes.map (fun n => n.methods.map Method.code)
        = noCodeModel.nodes.map (fun n => n.methods.map Method.code) :=
  ⟨by decide, by decide, rfl,
    Semant_empty_code_external noCodeModel
      { noCodeNode with methods := [evalMeth.Set_Flag EXTERNAL] }
      (evalMeth.Set_Flag EXTERNAL) (by decide) (by decide) rfl⟩

/-- C7, at the failing input: the node of `dupSigModel` declares
`compute(Integer)` twice, with `other()` between the two declarations, and
`Semant` returns true without a diagnostic.  The flag `same` cleared by the
comparison with `other` is still false when the second `compute` is
compared. -/
theorem Semant_dup_signature_missed :
    dupSigModel.nodes.map (fun n => n.methods.map (fun m => (m.name, m.parms.map Parameter.type)))
      = [[("compute", [tInteger]), ("other", []), ("compute", [tInteger])]]
    ∧ (Semant dupSigModel).rv = true ∧ (Semant dupSigModel).err = [] := by
  decide

/-- C8, at the failing input: the only method of `noCodeModel` has empty code
and no EXTERNAL flag, and `Semant` returns true without a diagnostic (the test
of line 276, `flags & !EXTERNAL`, is `flags & 0`); the method leaves with
EXTERNAL set. -/
theorem Semant_no_code_not_reported :
    noCodeModel.nodes.map (fun n => n.methods.map (fun m => (m.code, m.flags &&& EXTERNAL)))
      = [[("", 0)]]
    ∧ (Semant noCodeModel).rv = true ∧ (Semant noCodeModel).err = []
    ∧ (Semant noCodeModel).model.nodes.map (fun n => n.methods.map Method.flags)
      = [[EXTERNAL]] := by
  decide

/-! ## Separated lists -/

theorem joinSep_snoc (pre : List String) (x : String) :
    joinSep (pre ++ [x]) = if pre.isEmpty then x else joinSep pre ++ listSep ++ x := by
  induction pre with
  | nil => simp [joinSep]
  | cons a t ih =>
    cases t with
    | nil => simp [joinSep]
    | cons b t2 =>
      have h : joinSep (b :: (t2 ++ [x])) = joinSep (b :: t2) ++ listSep ++ x := by
        simpa using ih
      have e1 : joinSep (a :: b :: t2 ++ [x])
          = a ++ listSep ++ joinSep (b :: (t2 ++ [x])) := rfl
      have e2 : joinSep (a :: b :: t2) = a ++ listSep ++ joinSep (b :: t2) := rfl
      rw [e1, h, e2]
      simp [String.append_assoc]

/-- The common shape of the three argument loops: items are skipped when
`NOINIT` is set and separated by `listSep` otherwise. -/
theorem sepLoop_spec (L : List Attribute → String × Bool → String × Bool)
    (f : Attribute → String)
    (hnil : ∀ st, L [] st = st)
    (hskip : ∀ a al st, a.flags &&& NOINIT ≠ 0 → L (a :: al) st = L al st)
    (hstep : ∀ a al st, ¬ (a.flags &&& NOINIT ≠ 0) →
      L (a :: al) st = L al ((if st.2 then st.1 ++ listSep else st.1) ++ f a, true))
    (al : List Attribute) (pre : List String) (os : String) :
    L al (os ++ joinSep pre, !pre.isEmpty)
      = (os ++ joinSep (pre ++ (al.filter (fun a => a.flags &&& NOINIT = 0)).map f),
          !(pre ++ (al.filter (fun a => a.flags &&& NOINIT = 0)).map f).isEmpty) := by
  induction al generalizing pre with
  | nil => simp [hnil]
  | cons a al ih =>
    by_cases h : a.flags &&& NOINIT ≠ 0
    · rw [hskip _ _ _ h, ih]
      have h2 : ¬ (a.flags &&& NOINIT = 0) := h
      simp [List.filter_cons, h2]
    · rw [hstep _ _ _ h]
      have h2 : a.flags &&& NOINIT = 0 := not_not.mp h
      have key : (if (os ++ joinSep pre, !pre.isEmpty).2 = true
            then (os ++ joinSep pre, !pre.isEmpty).1 ++ listSep
            else (os ++ joinSep pre, !pre.isEmpty).1) ++ f a
          = os ++ joinSep (pre ++ [f a]) := by
        rw [joinSep_snoc]
        cases pre with
        | nil => simp [joinSep]
        | cons b t => simp [String.append_assoc]
      have hb : true = !(pre ++ [f a]).isEmpty := by simp
      rw [key, hb, ih (pre ++ [f a])]
      simp [List.filter_cons, h2]

theorem ctorParmsLoop_spec (al : List Attribute) (pre : List String) (os : String) :
    ctorParmsLoop al (os ++ joinSep pre, !pre.isEmpty)
      = (os ++ joinSep (pre ++ (al.filter (fun a => a.flags &&& NOINIT = 0)).map parmText),
          !(pre ++ (al.filter (fun a => a.flags &&& NOINIT = 0)).map parmText).isEmpty) := by
  apply sepLoop_spec
  · intro st; simp [ctorParmsLoop]
  · intro a al st h; simp [ctorParmsLoop, h]
  · intro a al st h
    simp only [ctorParmsLoop, h, if_false, parmText, listSep]
    split <;> simp only [String.append_assoc]

theorem ctorArgsLoop_spec (al : List Attribute) (pre : List String) (os : String) :
    ctorArgsLoop al (os ++ joinSep pre, !pre.isEmpty)
      = (os ++ joinSep (pre ++ (al.filter (fun a => a.flags &&& NOINIT = 0)).map argText),
          !(pre ++ (al.filter (fun a => a.flags &&& NOINIT = 0)).map argText).isEmpty) := by
  apply sepLoop_spec
  · intro st; simp [ctorArgsLoop]
  · intro a al st h; simp [ctorArgsLoop, h]
  · intro a al st h
    simp only [ctorArgsLoop, h, if_false, argText, listSep]
    split <;> simp only [String.append_assoc]

theorem ctorBaseLoop_spec (al : List Attribute) (pre : List String) (os : String) :
    ctorBaseLoop al (os ++ joinSep pre, !pre.isEmpty)
      = (os ++ joinSep (pre ++ (al.filter (fun a => a.flags &&& NOINIT = 0)).map argText),
          !(pre ++ (al.filter (fun a => a.flags &&& NOINIT = 0)).map argText).isEmpty) := by
  apply sepLoop_spec
  · intro st; simp [ctorBaseLoop]
  · intro a al st h; simp [ctorBaseLoop, h]
  · intro a al st h
    simp only [ctorBaseLoop, h, if_false, argText, listSep]
    split <;> simp only [String.append_assoc]

/-! ## Walking the parent chain -/

theorem chainInitAttrs_snoc (chain : List Node) (n : Node) :
    chainInitAttrs (chain ++ [n]) = chainInitAttrs chain ++ ownInitAttrs n := by
  simp [chainInitAttrs]

theorem chainInitAttrs_nil : chainInitAttrs [] = [] := rfl

theorem IsPath_none (nodes : List Node) (path : List Node) :
    IsPath nodes none path ↔ path = [] := by
  cases path <;> simp [IsPath]

theorem isEmpty_map {α β : Type} (f : α → β) (l : List α) :
    (l.map f).isEmpty = l.isEmpty := by
  cases l <;> rfl

/-- The common shape of the three recursive emitters: the parent first, then
the own attributes. -/
theorem sepWalk_spec (nodes : List Node)
    (W : Nat → String → Option Nat → Option (String × Bool))
    (L : List Attribute → String × Bool → String × Bool) (f : Attribute → String)
    (hL : ∀ al pre os, L al (os ++ joinSep pre, !pre.isEmpty)
      = (os ++ joinSep (pre ++ (al.filter (fun a => a.flags &&& NOINIT = 0)).map f),
          !(pre ++ (al.filter (fun a => a.flags &&& NOINIT = 0)).map f).isEmpty))
    (hnull : ∀ fuel os, W fuel os none = some (os, false))
    (hstep : ∀ fuel os p node, nodes[p]? = some node →
      W (fuel + 1) os (some p) = (W fuel os node.parent).map (L node.attrs))
    (path : List Node) (ptr : Option Nat) (fuel : Nat) (os : String)
    (hp : IsPath nodes ptr path) (hf : path.length ≤ fuel) :
    W fuel os ptr
      = some (os ++ joinSep ((chainInitAttrs path.reverse).map f),
          !(chainInitAttrs path.reverse).isEmpty) := by
  induction path generalizing ptr fuel with
  | nil =>
    cases ptr with
    | none => simp [hnull, chainInitAttrs, joinSep]
    | some p => simp [IsPath] at hp
  | cons n rest ih =>
    cases ptr with
    | none => simp [IsPath] at hp
    | some p =>
      obtain ⟨hn, hrest⟩ := hp
      cases fuel with
      | zero => simp at hf
      | succ fuel =>
        have hf2 : rest.length ≤ fuel := by simpa using hf
        rw [hstep fuel os p n hn, ih n.parent fuel hrest hf2]
        have hb : (!(chainInitAttrs rest.reverse).isEmpty)
            = !((chainInitAttrs rest.reverse).map f).isEmpty := by rw [isEmpty_map]
        simp only [Option.map_some', hb, hL, List.reverse_cons, chainInitAttrs_snoc,
          ownInitAttrs, ← List.map_append, isEmpty_map]

theorem cpp_EmitConstructorParms_path (nodes : List Node) (path : List Node)
    (ptr : Option Nat) (fuel : Nat) (os : String)
    (hp : IsPath nodes ptr path) (hf : path.length ≤ fuel) :
    cpp_EmitConstructorParms nodes fuel os ptr
      = some (os ++ joinSep ((chainInitAttrs path.reverse).map parmText),
          !(chainInitAttrs path.reverse).isEmpty) := by
  apply sepWalk_spec nodes (cpp_EmitConstructorParms nodes) ctorParmsLoop parmText
    ctorParmsLoop_spec _ _ path ptr fuel os hp hf
  · intro fuel os; cases fuel <;> simp [cpp_EmitConstructorParms]
  · intro fuel os p node h
    simp only [cpp_EmitConstructorParms, h]
    cases cpp_EmitConstructorParms nodes fuel os node.parent <;> rfl

theorem cpp_EmitConstructorArgs_path (nodes : List Node) (path : List Node)
    (ptr : Option Nat) (fuel : Nat) (os : String)
    (hp : IsPath nodes ptr path) (hf : path.length ≤ fuel) :
    cpp_EmitConstructorArgs nodes fuel os ptr
      = some (os ++ joinSep ((chainInitAttrs path.reverse).map argText),
          !(chainInitAttrs path.reverse).isEmpty) := by
  apply sepWalk_spec nodes (cpp_EmitConstructorArgs nodes) ctorArgsLoop argText
    ctorArgsLoop_spec _ _ path ptr fuel os hp hf
  · intro fuel os; cases fuel <;> simp [cpp_EmitConstructorArgs]
  · intro fuel os p node h
    simp only [cpp_EmitConstructorArgs, h]
    cases cpp_EmitConstructorArgs nodes fuel os node.parent <;> rfl

theorem cpp_EmitConstructorBase_path (nodes : List Node) (path : List Node)
    (ptr : Option Nat) (fuel : Nat) (os : String)
    (hp : IsPath nodes ptr path) (hf : path.length ≤ fuel) :
    cpp_EmitConstructorBase nodes fuel os ptr
      = some (os ++ joinSep ((chainInitAttrs path.reverse).map argText),
          !(chainInitAttrs path.reverse).isEmpty) := by
  apply sepWalk_spec nodes (cpp_EmitConstructorBase nodes) ctorBaseLoop argText
    ctorBaseLoop_spec _ _ path ptr fuel os hp hf
  · intro fuel os; cases fuel <;> simp [cpp_EmitConstructorBase]
  · intro fuel os p node h
    simp only [cpp_EmitConstructorBase, h]
    cases cpp_EmitConstructorBase nodes fuel os node.parent <;> rfl

theorem parmCountLoop_eq (al : List Attribute) (rv : Nat) :
    parmCountLoop al rv = rv + (al.filter (fun a => a.flags &&& NOINIT = 0)).length := by
  induction al generalizing rv with
  | nil => simp [parmCountLoop]
  | cons a al ih =>
    by_cases h : a.flags &&& NOINIT = 0
    · simp [parmCountLoop, h, ih, List.filter_cons]; omega
    · simp [parmCountLoop, h, ih, List.filter_cons]

theorem GetParmCount_path (nodes : List Node) (path : List Node) (p : Nat) (fuel : Nat)
    (hp : IsPath nodes (some p) path) (hf : path.length ≤ fuel) :
    GetParmCount nodes fuel p = some (chainInitAttrs path.reverse).length := by
  induction path generalizing p fuel with
  | nil => simp [IsPath] at hp
  | cons n rest ih =>
    obtain ⟨hn, hrest⟩ := hp
    cases fuel with
    | zero => simp at hf
    | succ fuel =>
      have hf2 : rest.length ≤ fuel := by simpa using hf
      simp only [GetParmCount, hn]
      cases hpar : n.parent with
      | none =>
        rw [hpar] at hrest
        have : rest = [] := (IsPath_none nodes rest).mp hrest
        subst this
        simp [parmCountLoop_eq, chainInitAttrs, ownInitAttrs]
      | some q =>
        rw [hpar] at hrest
        simp only [ih q fuel hrest hf2, parmCountLoop_eq, List.reverse_cons,
          chainInitAttrs_snoc, ownInitAttrs, List.length_append]

theorem chainInitAttrs_length (chain : List Node) :
    (chainInitAttrs chain).length = (chain.map (fun n => (ownInitAttrs n).length)).sum := by
  induction chain with
  | nil => rfl
  | cons n rest ih =>
    simp [chainInitAttrs, List.length_flatten, Function.comp_def]

/-! ## The constructor and the Factory function -/

theorem joinSep_cons (x : String) (l : List String) :
    joinSep (x :: l) = if l.isEmpty then x else x ++ listSep ++ joinSep l := by
  cases l <;> simp [joinSep]

theorem ctorInitLoop_spec (al : List Attribute) (pre : List String) (os : String) :
    ctorInitLoop al (os ++ joinSep pre, !pre.isEmpty)
      = (os ++ joinSep (pre ++ al.map initText), !(pre ++ al.map initText).isEmpty) := by
  induction al generalizing pre with
  | nil => simp [ctorInitLoop]
  | cons a al ih =>
    have key : (if a.flags &&& NOINIT ≠ 0
          then (if (os ++ joinSep pre, !pre.isEmpty).2 = true
            then (os ++ joinSep pre, !pre.isEmpty).1 ++ "," ++ "\n" ++ "\t\t"
            else (os ++ joinSep pre, !pre.isEmpty).1) ++ a.name ++ "(" ++ a.code
          else (if (os ++ joinSep pre, !pre.isEmpty).2 = true
            then (os ++ joinSep pre, !pre.isEmpty).1 ++ "," ++ "\n" ++ "\t\t"
            else (os ++ joinSep pre, !pre.isEmpty).1) ++ a.name ++ "(" ++ "__init__" ++ a.name)
          ++ ")"
        = os ++ joinSep (pre ++ [initText a]) := by
      rw [joinSep_snoc]
      cases pre with
      | nil =>
        split <;>
          simp only [joinSep, initText, String.append_assoc, String.append_empty, ne_eq,
            List.isEmpty_nil, Bool.not_true, Bool.false_eq_true, if_false, if_true,
            not_true_eq_false, not_false_eq_true, *]
      | cons b t =>
        split <;>
          simp only [initText, listSep, String.append_assoc, List.isEmpty_cons, ne_eq,
            Bool.not_false, Bool.false_eq_true, if_false, if_true, not_true_eq_false,
            not_false_eq_true, *]
    have hb : true = !(pre ++ [initText a]).isEmpty := by simp
    simp only [ctorInitLoop]
    rw [key, hb, ih (pre ++ [initText a])]
    simp

theorem getLast?_reverse_cons (n : Node) (rest : List Node) :
    (n :: rest).reverse.getLast? = some n := by
  simp

theorem ctorBaseCall_path (nodes : List Node) (path : List Node) (ptr : Option Nat)
    (fuel : Nat) (os : String) (hp : IsPath nodes ptr path) (hf : path.length ≤ fuel) :
    ctorBaseCall nodes fuel os ptr
      = some (os ++ joinSep (baseCallItems path.reverse),
          !(baseCallItems path.reverse).isEmpty) := by
  cases ptr with
  | none =>
    have : path = [] := (IsPath_none nodes path).mp hp
    subst this
    simp [ctorBaseCall, baseCallItems, joinSep]
  | some q =>
    cases path with
    | nil => simp [IsPath] at hp
    | cons par rest =>
      have hq : nodes[q]? = some par := hp.1
      have hbase := cpp_EmitConstructorBase_path nodes (par :: rest) (some q) fuel
        (os ++ par.name.name ++ "(") hp hf
      simp only [ctorBaseCall, hq, hbase]
      simp only [baseCallItems, getLast?_reverse_cons, joinSep, List.isEmpty_cons,
        Bool.not_false, String.append_assoc]

theorem GetAttrCount_path (nodes : List Node) (n : Node) (rest : List Node) (p : Nat)
    (fuel : Nat) (hp : IsPath nodes (some p) (n :: rest)) (hf : rest.length ≤ fuel) :
    GetAttrCount nodes fuel p = some ((chainInitAttrs rest.reverse).length + n.attrs.length) := by
  obtain ⟨hn, hrest⟩ := hp
  simp only [GetAttrCount, hn]
  cases hpar : n.parent with
  | none =>
    rw [hpar] at hrest
    have : rest = [] := (IsPath_none nodes rest).mp hrest
    subst this
    simp [chainInitAttrs]
  | some q =>
    rw [hpar] at hrest
    simp only [GetParmCount_path nodes rest q fuel hrest hf]

theorem formals_eq (os : String) (attrs : List Attribute) :
    (if (!(!attrs.isEmpty)) = true then os ++ joinSep (attrs.map parmText) ++ "void"
      else os ++ joinSep (attrs.map parmText)) = os ++ formalsText attrs := by
  cases attrs with
  | nil => simp [formalsText, joinSep]
  | cons a t => simp [formalsText]

/-- The whole text of a constructor, for a node `n` at position `p` whose
parent links run through `rest` (the parent first). -/
theorem cpp_EmitConstructor_path (nodes : List Node) (n : Node) (rest : List Node)
    (p : Nat) (fuel : Nat) (os : String)
    (hp : IsPath nodes (some p) (n :: rest)) (hf : rest.length + 1 ≤ fuel) :
    cpp_EmitConstructor nodes fuel os p
      = some (os ++ ctorHead n ++ formalsText (chainInitAttrs (rest.reverse ++ [n])) ++ ")"
          ++ ctorInitText rest.reverse n ++ " \x7b \x7d" ++ "\n" ++ "\n") := by
  have hn : nodes[p]? = some n := hp.1
  have hrest : IsPath nodes n.parent rest := hp.2
  have hf1 : (n :: rest).length ≤ fuel := by simpa using hf
  have hf2 : rest.length ≤ fuel := by omega
  have hparms := fun os1 => cpp_EmitConstructorParms_path nodes (n :: rest) (some p) fuel os1 hp hf1
  have hcnt := GetAttrCount_path nodes n rest p fuel hp hf2
  have hbase := fun os2 => ctorBaseCall_path nodes rest n.parent fuel os2 hrest hf2
  simp only [cpp_EmitConstructor, hn, hparms, hcnt, hbase, formals_eq, ctorInitLoop_spec,
    List.reverse_cons]
  unfold ctorInitText
  split
  · simp only [ctorHead, String.append_assoc, String.append_empty, if_true, *]
  · simp only [ctorHead, String.append_assoc, if_false, *]

/-- The whole text of a Factory function of a node that is not abstract. -/
theorem cpp_EmitFactoryFunc_path (nodes : List Node) (n : Node) (rest : List Node)
    (p : Nat) (fuel : Nat) (os : String)
    (hp : IsPath nodes (some p) (n :: rest)) (hf : rest.length + 1 ≤ fuel)
    (habs : n.flags &&& ABSTRACT = 0) :
    cpp_EmitFactoryFunc nodes fuel os p
      = some (os ++ factoryHead n ++ formalsText (chainInitAttrs (rest.reverse ++ [n])) ++ ")"
          ++ " \x7b return new " ++ n.name.name ++ "("
          ++ joinSep ((chainInitAttrs (rest.reverse ++ [n])).map argText)
          ++ "); \x7d" ++ "\n" ++ "\n") := by
  have hn : nodes[p]? = some n := hp.1
  have hf1 : (n :: rest).length ≤ fuel := by simpa using hf
  have hparms := fun os1 => cpp_EmitConstructorParms_path nodes (n :: rest) (some p) fuel os1 hp hf1
  have hargs := fun os1 => cpp_EmitConstructorArgs_path nodes (n :: rest) (some p) fuel os1 hp hf1
  simp only [cpp_EmitFactoryFunc, hn, hparms, hargs, formals_eq, habs, List.reverse_cons,
    ne_eq, not_true_eq_false, if_false]
  simp only [factoryHead, String.append_assoc]

/-! ## The claims on the constructor parameter threading -/

theorem argText_length (a : Attribute) : (argText a).length = 8 + a.name.length := by
  have h8 : "__init__".length = 8 := by decide
  rw [argText, String.length_append, h8]

theorem joinSep_args_eq_empty (attrs : List Attribute) :
    joinSep (attrs.map argText) = "" ↔ attrs = [] := by
  cases attrs with
  | nil => simp [joinSep]
  | cons a t =>
    simp only [List.map_cons, joinSep_cons, reduceCtorEq, iff_false]
    intro h
    have h2 := congrArg String.length h
    have h3 := argText_length a
    have h0 : "".length = 0 := rfl
    split at h2
    · rw [h0] at h2; omega
    · rw [String.length_append, String.length_append, h0] at h2; omega

theorem ancestorChain_snoc (nodes : List Node) (p : Nat) (pchain : List Node) (n : Node) :
    AncestorChain nodes p (pchain ++ [n]) ↔ IsPath nodes (some p) (n :: pchain.reverse) := by
  simp [AncestorChain]

/-- C1: for every node N with a finite parent chain, the attribute sequence
emitted by `cpp_EmitConstructorParms` for N is the concatenation, from the
root ancestor down to N, of each node's own attributes that lack NOINIT, each
slice in that node's declaration order: the text written is the separated list
of the parameters of that sequence, and the function returns whether the
sequence is non-empty. -/
theorem cpp_EmitConstructorParms_concat (nodes : List Node) (p : Nat) (chain : List Node)
    (fuel : Nat) (os : String)
    (hchain : AncestorChain nodes p chain) (hfuel : chain.length ≤ fuel) :
    cpp_EmitConstructorParms nodes fuel os (some p)
      = some (os ++ joinSep (((chain.map ownInitAttrs).flatten).map parmText),
          !((chain.map ownInitAttrs).flatten).isEmpty) := by
  have h := cpp_EmitConstructorParms_path nodes chain.reverse (some p) fuel os hchain
    (by simpa using hfuel)
  simpa [chainInitAttrs] using h

theorem cpp_EmitConstructorParms_concat_witness :
    AncestorChain abNodes 1 [aNode, bNode] ∧
    cpp_EmitConstructorParms abNodes 2 "" (some 1)
      = some ("" ++ joinSep ((([aNode, bNode].map ownInitAttrs).flatten).map parmText),
          !(([aNode, bNode].map ownInitAttrs).flatten).isEmpty) :=
  ⟨⟨rfl, rfl, trivial⟩,
    cpp_EmitConstructorParms_concat abNodes 1 [aNode, bNode] 2 "" ⟨rfl, rfl, trivial⟩
      (by decide)⟩

/-- C2: for every node N with ancestor chain [root ... N], `GetParmCount` of
N is the sum, over the chain, of the number of each node's own attributes not
flagged NOINIT, and it is the number of parameters in the constructor
parameter list emitted for N. -/
theorem GetParmCount_accumulates (nodes : List Node) (p : Nat) (chain : List Node)
    (fuel : Nat) (os : String)
    (hchain : AncestorChain nodes p chain) (hfuel : chain.length ≤ fuel) :
    GetParmCount nodes fuel p = some ((chain.map (fun n => (ownInitAttrs n).length)).sum)
    ∧ ∃ parms : List Attribute,
        cpp_EmitConstructorParms nodes fuel os (some p)
          = some (os ++ joinSep (parms.map parmText), !parms.isEmpty)
        ∧ GetParmCount nodes fuel p = some parms.length := by
  have hf : chain.reverse.length ≤ fuel := by simpa using hfuel
  have hc := GetParmCount_path nodes chain.reverse p fuel hchain hf
  have hpm := cpp_EmitConstructorParms_path nodes chain.reverse (some p) fuel os hchain hf
  rw [List.reverse_reverse] at hc hpm
  refine ⟨?_, chainInitAttrs chain, hpm, hc⟩
  rw [hc, chainInitAttrs_length]

theorem GetParmCount_accumulates_witness :
    AncestorChain abNodes 1 [aNode, bNode] ∧
    GetParmCount abNodes 2 1 = some (([aNode, bNode].map (fun n => (ownInitAttrs n).length)).sum)
    ∧ ∃ parms : List Attribute,
        cpp_EmitConstructorParms abNodes 2 "" (some 1)
          = some ("" ++ joinSep (parms.map parmText), !parms.isEmpty)
        ∧ GetParmCount abNodes 2 1 = some parms.length :=
  ⟨⟨rfl, rfl, trivial⟩,
    GetParmCount_accumulates abNodes 1 [aNode, bNode] 2 "" ⟨rfl, rfl, trivial⟩ (by decide)⟩

/-- C3: for every non-abstract node N (with ancestor chain `pchain` followed
by N), the formal parameter list of N's constructor, the formal parameter
list of N's Factory function and the argument list Factory passes to
`new N(...)` are built from one attribute sequence, in one order: the i-th
argument is `__init__<name>` of the attribute of the i-th parameter. -/
theorem ctor_factory_lockstep (nodes : List Node) (p : Nat) (pchain : List Node) (n : Node)
    (fuel : Nat) (os : String)
    (hchain : AncestorChain nodes p (pchain ++ [n]))
    (habs : n.flags &&& ABSTRACT = 0) (hfuel : pchain.length + 1 ≤ fuel) :
    cpp_EmitConstructor nodes fuel os p
      = some (os ++ ctorHead n ++ formalsText (chainInitAttrs (pchain ++ [n])) ++ ")"
          ++ ctorInitText pchain n ++ " \x7b \x7d" ++ "\n" ++ "\n")
    ∧ cpp_EmitFactoryFunc nodes fuel os p
      = some (os ++ factoryHead n ++ formalsText (chainInitAttrs (pchain ++ [n])) ++ ")"
          ++ " \x7b return new " ++ n.name.name ++ "("
          ++ joinSep ((chainInitAttrs (pchain ++ [n])).map argText)
          ++ "); \x7d" ++ "\n" ++ "\n") := by
  have hp := (ancestorChain_snoc nodes p pchain n).mp hchain
  have hf : pchain.reverse.length + 1 ≤ fuel := by simpa using hfuel
  have hc := cpp_EmitConstructor_path nodes n pchain.reverse p fuel os hp hf
  have hfac := cpp_EmitFactoryFunc_path nodes n pchain.reverse p fuel os hp hf habs
  rw [List.reverse_reverse] at hc hfac
  exact ⟨hc, hfac⟩

theorem ctor_factory_lockstep_witness :
    AncestorChain abNodes 1 ([aNode] ++ [bNode]) ∧ bNode.flags &&& ABSTRACT = 0 ∧
    cpp_EmitConstructor abNodes 2 "" 1
      = some ("" ++ ctorHead bNode ++ formalsText (chainInitAttrs ([aNode] ++ [bNode])) ++ ")"
          ++ ctorInitText [aNode] bNode ++ " \x7b \x7d" ++ "\n" ++ "\n")
    ∧ cpp_EmitFactoryFunc abNodes 2 "" 1
      = some ("" ++ factoryHead bNode ++ formalsText (chainInitAttrs ([aNode] ++ [bNode]))
          ++ ")" ++ " \x7b return new " ++ bNode.name.name ++ "("
          ++ joinSep ((chainInitAttrs ([aNode] ++ [bNode])).map argText)
          ++ "); \x7d" ++ "\n" ++ "\n") :=
  ⟨⟨rfl, rfl, trivial⟩, by decide,
    ctor_factory_lockstep abNodes 1 [aNode] bNode 2 "" ⟨rfl, rfl, trivial⟩ (by decide)
      (by decide)⟩

theorem ancestorChain_snoc2 (nodes : List Node) (p : Nat) (pchain : List Node)
    (par n : Node) :
    AncestorChain nodes p (pchain ++ [par, n])
      ↔ IsPath nodes (some p) (n :: (pchain ++ [par]).reverse) := by
  simp [AncestorChain]

theorem baseCallItems_snoc (pchain : List Node) (par : Node) :
    baseCallItems (pchain ++ [par])
      = [par.name.name ++ "(" ++ joinSep ((chainInitAttrs (pchain ++ [par])).map argText)
          ++ ")"] := by
  simp [baseCallItems]

/-- The text of the constructor of a node `n` with parent `par` when an
initializer list is emitted. -/
theorem cpp_EmitConstructor_child (nodes : List Node) (p : Nat) (pchain : List Node)
    (par n : Node) (fuel : Nat) (os : String)
    (hchain : AncestorChain nodes p (pchain ++ [par, n]))
    (hinit : n.attrs ≠ [] ∨ chainInitAttrs (pchain ++ [par]) ≠ [])
    (hfuel : pchain.length + 2 ≤ fuel) :
    cpp_EmitConstructor nodes fuel os p
      = some (os ++ ctorHead n ++ formalsText (chainInitAttrs (pchain ++ [par, n])) ++ ")"
          ++ " :" ++ "\n" ++ "\t\t"
          ++ par.name.name ++ "(" ++ joinSep ((chainInitAttrs (pchain ++ [par])).map argText)
          ++ ")"
          ++ (if n.attrs = [] then "" else listSep ++ joinSep (n.attrs.map initText))
          ++ " \x7b \x7d" ++ "\n" ++ "\n") := by
  have hp := (ancestorChain_snoc2 nodes p pchain par n).mp hchain
  have hf : (pchain ++ [par]).reverse.length + 1 ≤ fuel := by simpa using hfuel
  have hc := cpp_EmitConstructor_path nodes n (pchain ++ [par]).reverse p fuel os hp hf
  rw [List.reverse_reverse] at hc
  have hne : ¬ ((chainInitAttrs (pchain ++ [par])).length + n.attrs.length = 0) := by
    intro h0
    have h1 : (chainInitAttrs (pchain ++ [par])).length = 0 := by omega
    have h2 : n.attrs.length = 0 := by omega
    rcases hinit with h | h
    · exact h (List.length_eq_zero.mp h2)
    · exact h (List.length_eq_zero.mp h1)
  have happ : pchain ++ [par, n] = pchain ++ [par] ++ [n] := by simp
  rw [hc, happ]
  simp only [ctorInitText, hne, if_false, baseCallItems_snoc, List.singleton_append,
    joinSep_cons]
  cases hattrs : n.attrs with
  | nil => simp only [List.map_nil, List.isEmpty_nil, if_true, String.append_assoc,
      String.append_empty, String.empty_append]
  | cons a t => simp only [List.map_cons, List.isEmpty_cons, Bool.false_eq_true, if_false,
      String.append_assoc, reduceCtorEq]

/-- C4 as stated fails: for `Leaf` (parent `Common`, attribute `count`) the
constructor takes the parameter of `count` while the base class initializer
`Common()` has no argument, so no attribute sequence is both the parameter
list of `Leaf` and the argument list of its base class initializer. -/
theorem base_args_not_own_parms :
    cpp_EmitConstructor leafNodes 2 "" 1
      = some ("\t//\n\t// -- The Leaf constructor\n"
          ++ "\t//----------------------------------------------------------------------------------\n"
          ++ "protected:\n"
          ++ "\texplicit Leaf(Integer __init__count) :\n\t\tCommon(),\n\t\tcount(__init__count)"
          ++ " \x7b \x7d\n\n")
    ∧ ¬ ∃ attrs : List Attribute,
        cpp_EmitConstructorParms leafNodes 2 "" (some 1)
          = some (joinSep (attrs.map parmText), !attrs.isEmpty)
        ∧ cpp_EmitConstructorBase leafNodes 2 "" leafNode.parent
          = some (joinSep (attrs.map argText), !attrs.isEmpty) := by
  refine ⟨rfl, ?_⟩
  rintro ⟨attrs, h1, h2⟩
  have e1 : cpp_EmitConstructorParms leafNodes 2 "" (some 1)
      = some ("Integer __init__count", true) := by decide
  have e2 : cpp_EmitConstructorBase leafNodes 2 "" leafNode.parent = some ("", false) := by
    decide
  rw [e1] at h1
  rw [e2] at h2
  simp only [Option.some.injEq, Prod.mk.injEq] at h1 h2
  have h3 := h1.2
  have h4 := h2.2
  cases hE : attrs.isEmpty <;> simp [hE] at h3 h4

/-- C4, amended: for every node N with a parent P whose constructor emits an
initializer list, the arguments of the base class initializer are the
attributes of the constructor parameter list of P, in the same order; that
sequence is the parameter sequence of N without N's own attributes lacking
NOINIT, so the two sequences are identical exactly when N has no own
attribute lacking NOINIT. -/
theorem base_args_are_parent_parms (nodes : List Node) (p : Nat) (pchain : List Node)
    (par n : Node) (fuel : Nat) (os : String)
    (hchain : AncestorChain nodes p (pchain ++ [par, n]))
    (hinit : GetAttrCount nodes fuel p ≠ some 0)
    (hfuel : pchain.length + 2 ≤ fuel) :
    cpp_EmitConstructor nodes fuel os p
      = some (os ++ ctorHead n ++ formalsText (chainInitAttrs (pchain ++ [par, n])) ++ ")"
          ++ " :" ++ "\n" ++ "\t\t"
          ++ par.name.name ++ "(" ++ joinSep ((chainInitAttrs (pchain ++ [par])).map argText)
          ++ ")"
          ++ (if n.attrs = [] then "" else listSep ++ joinSep (n.attrs.map initText))
          ++ " \x7b \x7d" ++ "\n" ++ "\n")
    ∧ cpp_EmitConstructorParms nodes fuel os n.parent
        = some (os ++ joinSep ((chainInitAttrs (pchain ++ [par])).map parmText),
            !(chainInitAttrs (pchain ++ [par])).isEmpty)
    ∧ chainInitAttrs (pchain ++ [par, n])
        = chainInitAttrs (pchain ++ [par]) ++ ownInitAttrs n
    ∧ (chainInitAttrs (pchain ++ [par]) = chainInitAttrs (pchain ++ [par, n])
        ↔ ownInitAttrs n = []) := by
  have hp := (ancestorChain_snoc2 nodes p pchain par n).mp hchain
  have hpar : IsPath nodes n.parent (pchain ++ [par]).reverse := hp.2
  have hf : (pchain ++ [par]).reverse.length ≤ fuel := by
    simp only [List.length_reverse, List.length_append, List.length_singleton]; omega
  have hparms := cpp_EmitConstructorParms_path nodes (pchain ++ [par]).reverse n.parent fuel os
    hpar hf
  rw [List.reverse_reverse] at hparms
  have happ : chainInitAttrs (pchain ++ [par, n])
      = chainInitAttrs (pchain ++ [par]) ++ ownInitAttrs n := by
    have : pchain ++ [par, n] = pchain ++ [par] ++ [n] := by simp
    rw [this, chainInitAttrs_snoc]
  have hcnt := GetAttrCount_path nodes n (pchain ++ [par]).reverse p fuel hp hf
  rw [List.reverse_reverse] at hcnt
  have hdis : n.attrs ≠ [] ∨ chainInitAttrs (pchain ++ [par]) ≠ [] := by
    by_contra hcon
    simp only [not_or, not_not] at hcon
    rw [hcnt, hcon.1, hcon.2] at hinit
    exact hinit rfl
  refine ⟨cpp_EmitConstructor_child nodes p pchain par n fuel os hchain hdis hfuel,
    hparms, happ, ?_⟩
  · rw [happ]
    constructor
    · intro h
      exact List.self_eq_append_right.mp h
    · intro h
      rw [h, List.append_nil]

theorem base_args_are_parent_parms_witness :
    AncestorChain abNodes 1 ([] ++ [aNode, bNode]) ∧ GetAttrCount abNodes 2 1 ≠ some 0 ∧
    cpp_EmitConstructor abNodes 2 "" 1
      = some ("" ++ ctorHead bNode ++ formalsText (chainInitAttrs ([] ++ [aNode, bNode]))
          ++ ")" ++ " :" ++ "\n" ++ "\t\t"
          ++ aNode.name.name ++ "(" ++ joinSep ((chainInitAttrs ([] ++ [aNode])).map argText)
          ++ ")"
          ++ (if bNode.attrs = [] then "" else listSep ++ joinSep (bNode.attrs.map initText))
          ++ " \x7b \x7d" ++ "\n" ++ "\n")
    ∧ cpp_EmitConstructorParms abNodes 2 "" bNode.parent
        = some ("" ++ joinSep ((chainInitAttrs ([] ++ [aNode])).map parmText),
            !(chainInitAttrs ([] ++ [aNode])).isEmpty)
    ∧ chainInitAttrs ([] ++ [aNode, bNode])
        = chainInitAttrs ([] ++ [aNode]) ++ ownInitAttrs bNode
    ∧ (chainInitAttrs ([] ++ [aNode]) = chainInitAttrs ([] ++ [aNode, bNode])
        ↔ ownInitAttrs bNode = []) :=
  ⟨⟨rfl, rfl, trivial⟩, by decide,
    base_args_are_parent_parms abNodes 1 [] aNode bNode 2 "" ⟨rfl, rfl, trivial⟩
      (by decide) (by decide)⟩

/-- C5: for every node N that has a parent P and at least one own attribute,
the initializer list of the constructor begins with a call `P(args)` whose
argument attributes are the constructor parameter attributes of P, in the
same order (so the call is `P()` exactly when the constructor of P takes no
parameter), and this sequence is a prefix of the constructor parameter
sequence of N. -/
theorem ctor_base_call_first (nodes : List Node) (p : Nat) (pchain : List Node)
    (par n : Node) (fuel : Nat) (os : String)
    (hchain : AncestorChain nodes p (pchain ++ [par, n]))
    (hattrs : n.attrs ≠ []) (hfuel : pchain.length + 2 ≤ fuel) :
    cpp_EmitConstructor nodes fuel os p
      = some (os ++ ctorHead n ++ formalsText (chainInitAttrs (pchain ++ [par, n])) ++ ")"
          ++ " :" ++ "\n" ++ "\t\t"
          ++ par.name.name ++ "(" ++ joinSep ((chainInitAttrs (pchain ++ [par])).map argText)
          ++ ")"
          ++ listSep ++ joinSep (n.attrs.map initText) ++ " \x7b \x7d" ++ "\n" ++ "\n")
    ∧ cpp_EmitConstructorParms nodes fuel os n.parent
        = some (os ++ joinSep ((chainInitAttrs (pchain ++ [par])).map parmText),
            !(chainInitAttrs (pchain ++ [par])).isEmpty)
    ∧ (joinSep ((chainInitAttrs (pchain ++ [par])).map argText) = ""
        ↔ cpp_EmitConstructorParms nodes fuel os n.parent = some (os, false))
    ∧ chainInitAttrs (pchain ++ [par]) <+: chainInitAttrs (pchain ++ [par, n]) := by
  have hp := (ancestorChain_snoc2 nodes p pchain par n).mp hchain
  have hpar : IsPath nodes n.parent (pchain ++ [par]).reverse := hp.2
  have hf : (pchain ++ [par]).reverse.length ≤ fuel := by
    simp only [List.length_reverse, List.length_append, List.length_singleton]; omega
  have hparms := cpp_EmitConstructorParms_path nodes (pchain ++ [par]).reverse n.parent fuel os
    hpar hf
  rw [List.reverse_reverse] at hparms
  have happ : chainInitAttrs (pchain ++ [par, n])
      = chainInitAttrs (pchain ++ [par]) ++ ownInitAttrs n := by
    have : pchain ++ [par, n] = pchain ++ [par] ++ [n] := by simp
    rw [this, chainInitAttrs_snoc]
  refine ⟨?_, hparms, ?_, ?_⟩
  · rw [cpp_EmitConstructor_child nodes p pchain par n fuel os hchain (Or.inl hattrs) hfuel]
    simp only [hattrs, if_false, String.append_assoc]
  · rw [joinSep_args_eq_empty, hparms]
    constructor
    · intro h
      rw [h]
      simp [joinSep]
    · intro h
      simp only [Option.some.injEq, Prod.mk.injEq] at h
      cases hA : chainInitAttrs (pchain ++ [par]) with
      | nil => rfl
      | cons a t => rw [hA] at h; simp at h
  · rw [happ]
    exact List.prefix_append _ _

theorem ctor_base_call_first_witness :
    AncestorChain leafNodes 1 ([] ++ [commonNode, leafNode]) ∧ leafNode.attrs ≠ [] ∧
    cpp_EmitConstructor leafNodes 2 "" 1
      = some ("" ++ ctorHead leafNode
          ++ formalsText (chainInitAttrs ([] ++ [commonNode, leafNode])) ++ ")"
          ++ " :" ++ "\n" ++ "\t\t"
          ++ commonNode.name.name ++ "("
          ++ joinSep ((chainInitAttrs ([] ++ [commonNode])).map argText) ++ ")"
          ++ listSep ++ joinSep (leafNode.attrs.map initText) ++ " \x7b \x7d" ++ "\n" ++ "\n")
    ∧ cpp_EmitConstructorParms leafNodes 2 "" leafNode.parent
        = some ("" ++ joinSep ((chainInitAttrs ([] ++ [commonNode])).map parmText),
            !(chainInitAttrs ([] ++ [commonNode])).isEmpty)
    ∧ (joinSep ((chainInitAttrs ([] ++ [commonNode])).map argText) = ""
        ↔ cpp_EmitConstructorParms leafNodes 2 "" leafNode.parent = some ("", false))
    ∧ chainInitAttrs ([] ++ [commonNode]) <+: chainInitAttrs ([] ++ [commonNode, leafNode]) :=
  ⟨⟨rfl, rfl, trivial⟩, by decide,
    ctor_base_call_first leafNodes 1 [] commonNode leafNode 2 "" ⟨rfl, rfl, trivial⟩
      (by decide) (by decide)⟩

theorem chainInitAttrs_lack_NOINIT (chain : List Node) :
    ∀ a ∈ chainInitAttrs chain, a.flags &&& NOINIT = 0 := by
  intro a ha
  simp only [chainInitAttrs, List.mem_flatten, List.mem_map] at ha
  obtain ⟨l, ⟨n, _, rfl⟩, hal⟩ := ha
  simp only [ownInitAttrs, List.mem_filter, decide_eq_true_eq] at hal
  exact hal.2

/-- C6: for every node N whose constructor emits an initializer list, each of
N's own attributes is initialised exactly once there, in declaration order,
after the call of the parent's constructor: an attribute flagged NOINIT as
`name(<its default code text>)` and any other attribute as
`name(__init__name)`; no attribute flagged NOINIT is in the sequence from
which the constructor parameters, the Factory arguments and the base
initializer arguments are written. -/
theorem ctor_initializers (nodes : List Node) (p : Nat) (pchain : List Node) (n : Node)
    (fuel : Nat) (os : String)
    (hchain : AncestorChain nodes p (pchain ++ [n]))
    (hinit : GetAttrCount nodes fuel p ≠ some 0) (hfuel : pchain.length + 1 ≤ fuel) :
    cpp_EmitConstructor nodes fuel os p
      = some (os ++ ctorHead n ++ formalsText (chainInitAttrs (pchain ++ [n])) ++ ")"
          ++ " :" ++ "\n" ++ "\t\t"
          ++ joinSep (baseCallItems pchain ++ n.attrs.map initText)
          ++ " \x7b \x7d" ++ "\n" ++ "\n")
    ∧ (∀ a ∈ n.attrs,
        initText a = if a.flags &&& NOINIT ≠ 0 then a.name ++ "(" ++ a.code ++ ")"
          else a.name ++ "(" ++ "__init__" ++ a.name ++ ")")
    ∧ cpp_EmitConstructorArgs nodes fuel os (some p)
        = some (os ++ joinSep ((chainInitAttrs (pchain ++ [n])).map argText),
            !(chainInitAttrs (pchain ++ [n])).isEmpty)
    ∧ (∀ a ∈ chainInitAttrs (pchain ++ [n]), a.flags &&& NOINIT = 0)
    ∧ (∀ a ∈ chainInitAttrs pchain, a.flags &&& NOINIT = 0) := by
  have hp := (ancestorChain_snoc nodes p pchain n).mp hchain
  have hf : pchain.reverse.length + 1 ≤ fuel := by simpa using hfuel
  have hf1 : (n :: pchain.reverse).length ≤ fuel := by simpa using hfuel
  have hc := cpp_EmitConstructor_path nodes n pchain.reverse p fuel os hp hf
  have hcnt := GetAttrCount_path nodes n pchain.reverse p fuel hp (by omega)
  have hargs := cpp_EmitConstructorArgs_path nodes (n :: pchain.reverse) (some p) fuel os hp hf1
  rw [List.reverse_reverse] at hc hcnt
  have hne : ¬ ((chainInitAttrs pchain).length + n.attrs.length = 0) := by
    intro h0
    rw [hcnt, h0] at hinit
    exact hinit rfl
  refine ⟨?_, ?_, ?_, chainInitAttrs_lack_NOINIT _, chainInitAttrs_lack_NOINIT _⟩
  · rw [hc]
    simp only [ctorInitText, hne, if_false, String.append_assoc]
  · intro a _
    unfold initText
    split <;> simp only [String.append_assoc]
  · simpa using hargs

theorem ctor_initializers_witness :
    AncestorChain abNodes 1 ([aNode] ++ [bNode]) ∧ GetAttrCount abNodes 2 1 ≠ some 0 ∧
    cpp_EmitConstructor abNodes 2 "" 1
      = some ("" ++ ctorHead bNode ++ formalsText (chainInitAttrs ([aNode] ++ [bNode])) ++ ")"
          ++ " :" ++ "\n" ++ "\t\t"
          ++ joinSep (baseCallItems [aNode] ++ bNode.attrs.map initText)
          ++ " \x7b \x7d" ++ "\n" ++ "\n")
    ∧ (∀ a ∈ bNode.attrs,
        initText a = if a.flags &&& NOINIT ≠ 0 then a.name ++ "(" ++ a.code ++ ")"
          else a.name ++ "(" ++ "__init__" ++ a.name ++ ")")
    ∧ cpp_EmitConstructorArgs abNodes 2 "" (some 1)
        = some ("" ++ joinSep ((chainInitAttrs ([aNode] ++ [bNode])).map argText),
            !(chainInitAttrs ([aNode] ++ [bNode])).isEmpty)
    ∧ (∀ a ∈ chainInitAttrs ([aNode] ++ [bNode]), a.flags &&& NOINIT = 0)
    ∧ (∀ a ∈ chainInitAttrs [aNode], a.flags &&& NOINIT = 0) :=
  ⟨⟨rfl, rfl, trivial⟩, by decide,
    ctor_initializers abNodes 1 [aNode] bNode 2 "" ⟨rfl, rfl, trivial⟩ (by decide)
      (by decide)⟩

/-! ## The validator: every step only appends diagnostics -/

theorem add_nil (s : SemState) : s.add [] = s := by
  cases s
  simp [SemState.add]

theorem add_add (s : SemState) (d e : List String) : (s.add d).add e = s.add (d ++ e) := by
  cases d <;> simp [SemState.add, Bool.and_assoc]

theorem error_eq_add (s : SemState) (msg : String) : s.error msg = s.add [msg] := by
  simp [SemState.error, SemState.add]

theorem cleanState_add_err (d : List String) : (cleanState.add d).err = d := by
  simp [SemState.add, cleanState]

theorem frame_id : Frame (fun s => s) := by
  intro s
  simp [cleanState, add_nil]

theorem frame_error (msg : String) : Frame (fun s => s.error msg) := by
  intro s
  simp only [error_eq_add, cleanState_add_err]

theorem frame_comp (f g : SemState → SemState) (hf : Frame f) (hg : Frame g) :
    Frame (fun s => g (f s)) := by
  intro s
  have h1 : g (f cleanState) = (cleanState.add (f cleanState).err).add (g cleanState).err := by
    rw [hg (f cleanState)]
    congr 1
    exact hf cleanState
  show g (f s) = s.add (g (f cleanState)).err
  rw [hg (f s), hf s, add_add, h1, add_add, cleanState_add_err]

theorem frame_ite (c : Prop) [Decidable c] (f g : SemState → SemState)
    (hf : Frame f) (hg : Frame g) : Frame (fun s => if c then f s else g s) := by
  by_cases h : c
  · simpa [h] using hf
  · simpa [h] using hg

/-- The diagnostics of a composite step are those of its parts, in order. -/
theorem frame_apply_err (g : SemState → SemState) (hg : Frame g) (s : SemState) :
    (g s).err = s.err ++ (g cleanState).err := by
  rw [hg s]
  simp [SemState.add]

theorem frame_apply_rv (g : SemState → SemState) (hg : Frame g) (s : SemState) :
    (g s).rv = (s.rv && (g cleanState).err.isEmpty) := by
  rw [hg s]
  simp [SemState.add]

theorem inclInner_frame (x : String) (l : List String) : Frame (inclInner x l) := by
  induction l with
  | nil => exact frame_id
  | cons c rest ih =>
    have h : inclInner x (c :: rest) = fun s =>
        if x = c then (fun t => inclInner x rest
          ((fun u => u.error ("Error: Include file " ++ x ++ " specified more than once\n")) t)) s
        else inclInner x rest s := by
      funext s
      simp only [inclInner]
    rw [h]
    exact frame_ite _ _ _ (frame_comp _ _ (frame_error _) ih) ih

theorem inclLoop_frame (l : List String) : Frame (inclLoop l) := by
  induction l with
  | nil => exact frame_id
  | cons x rest ih =>
    have h : inclLoop (x :: rest) = fun s => inclLoop rest (inclInner x rest s) := by
      funext s
      simp only [inclLoop]
    rw [h]
    exact frame_comp _ _ (inclInner_frame x rest) ih

theorem attrDupLoop_frame (n : Node) (a : Attribute) (l : List Attribute) :
    Frame (attrDupLoop n a l) := by
  induction l with
  | nil => exact frame_id
  | cons c rest ih =>
    have h : attrDupLoop n a (c :: rest) = fun s =>
        if a.name = c.name then (fun t => attrDupLoop n a rest
          ((fun u => u.error ("Error: Attrribute name " ++ a.name ++ " in class "
            ++ n.name.name ++ " is duplicated\n")) t)) s
        else attrDupLoop n a rest s := by
      funext s
      simp only [attrDupLoop]
    rw [h]
    exact frame_ite _ _ _ (frame_comp _ _ (frame_error _) ih) ih

theorem attrMethLoop_frame (n : Node) (a : Attribute) (l : List Method) :
    Frame (attrMethLoop n a l) := by
  induction l with
  | nil => exact frame_id
  | cons c rest ih =>
    have h : attrMethLoop n a (c :: rest) = fun s =>
        if a.name = c.name then (fun t => attrMethLoop n a rest
          ((fun u => u.error ("Error: Attrribute name " ++ a.name ++ " in class "
            ++ n.name.name ++ " is duplicated by method " ++ c.name ++ "\n")) t)) s
        else attrMethLoop n a rest s := by
      funext s
      simp only [attrMethLoop]
    rw [h]
    exact frame_ite _ _ _ (frame_comp _ _ (frame_error _) ih) ih

/-- The visibility check appends exactly one diagnostic for each pair of
visibility flags present. -/
theorem attrVisCheck_eq (n : Node) (a : Attribute) (f : Nat) (s : SemState) :
    attrVisCheck n a f s = s.add (visPairDiags n a f) := by
  unfold attrVisCheck visPairDiags
  simp only [error_eq_add]
  split_ifs <;> simp [add_add, add_nil]

theorem attrVisCheck_frame (n : Node) (a : Attribute) (f : Nat) :
    Frame (attrVisCheck n a f) := by
  intro s
  rw [attrVisCheck_eq, attrVisCheck_eq, cleanState_add_err]

theorem sigLoop_frame (meth : Method) (l : List Method) (b : Bool) :
    Frame (fun s => (sigLoop meth l (b, s)).2) := by
  induction l generalizing b with
  | nil => exact frame_id
  | cons chkm rest ih =>
    have h : (fun s => (sigLoop meth (chkm :: rest) (b, s)).2) = fun s =>
        if meth.name = chkm.name then
          (if meth.parms.length = chkm.parms.length then
            (if parmLoop meth chkm b = true then
              (fun t => (sigLoop meth rest (parmLoop meth chkm b, t)).2)
                ((fun u => u.error
                  ("Error: Signature of method " ++ meth.name ++ " is duplicated\n")) s)
            else (sigLoop meth rest (parmLoop meth chkm b, s)).2)
          else (sigLoop meth rest (false, s)).2)
        else (sigLoop meth rest (false, s)).2 := by
      funext s
      simp only [sigLoop]
      split_ifs <;> rfl
    rw [h]
    exact frame_ite _ _ _
      (frame_ite _ _ _
        (frame_ite _ _ _ (frame_comp _ _ (frame_error _) (ih _)) (ih _))
        (ih _))
      (ih _)

theorem methCodeCheck_fst (meth : Method) (s : SemState) :
    (methCodeCheck meth s).1
      = s.add (if meth.code ≠ "" ∧ meth.flags &&& EXTERNAL ≠ 0 then
          ["Error: EXTERNAL method specified when code is also provided in "
            ++ meth.name ++ "\n"] else []) := by
  unfold methCodeCheck
  by_cases hc : meth.code = ""
  · simp [hc, and_cNot_EXTERNAL, Method.Set_Flag, add_nil]
  · by_cases hf : meth.flags &&& EXTERNAL = 0
    · simp [hc, hf, add_nil]
    · simp [hc, hf, error_eq_add]

theorem methCodeCheck_frame (meth : Method) : Frame (fun s => (methCodeCheck meth s).1) := by
  intro s
  simp only [methCodeCheck_fst, cleanState_add_err]

theorem methStep_eq (meth : Method) (rest : List Method) (s : SemState) :
    (methCodeCheck meth (sigLoop meth rest (true, s)).2).1 = s.add (methDiags meth rest) :=
  frame_comp _ _ (sigLoop_frame meth rest true) (methCodeCheck_frame meth) s

theorem methLoop_fst (l : List Method) (s : SemState) :
    (methLoop l s).1 = s.add (eachWithRest methDiags l) := by
  induction l generalizing s with
  | nil => simp [methLoop, eachWithRest, add_nil]
  | cons meth rest ih =>
    simp only [methLoop, ih, methStep_eq, add_add, eachWithRest]

theorem attrStep_eq (n : Node) (a : Attribute) (rest : List Attribute) (s : SemState) :
    attrVisCheck n (attrDefaultVis a a.flags) a.flags
        (attrMethLoop n a n.methods (attrDupLoop n a rest s))
      = s.add (attrDiags n a rest) := by
  rw [attrVisCheck_frame n _ _ (attrMethLoop n a n.methods (attrDupLoop n a rest s)),
    attrMethLoop_frame n a n.methods (attrDupLoop n a rest s), attrDupLoop_frame n a rest s,
    add_add, add_add]
  simp only [attrDiags, attrDupDiags, attrMethDiags, attrVisDiags, List.append_assoc]

theorem attrLoop_fst (n : Node) (l : List Attribute) (s : SemState) :
    (attrLoop n l s).1 = s.add (eachWithRest (attrDiags n) l) := by
  induction l generalizing s with
  | nil => simp [attrLoop, eachWithRest, add_nil]
  | cons a rest ih =>
    simp only [attrLoop, ih, attrStep_eq, add_add, eachWithRest]

theorem semantNode_fst (n : Node) (s : SemState) :
    (semantNode n s).1 = s.add (nodeDiags n) := by
  simp only [semantNode, methLoop_fst, attrLoop_fst, add_add, nodeDiags]

theorem nodeLoop_fst (l : List Node) (s : SemState) :
    (nodeLoop l s).1 = s.add (l.map nodeDiags).flatten := by
  induction l generalizing s with
  | nil => simp [nodeLoop, add_nil]
  | cons n rest ih =>
    simp only [nodeLoop, ih, semantNode_fst, add_add, List.map_cons, List.flatten_cons]

theorem inclLoop_eq (l : List String) (s : SemState) :
    inclLoop l s = s.add (eachWithRest includeDiags l) := by
  induction l generalizing s with
  | nil => simp [inclLoop, eachWithRest, add_nil]
  | cons x rest ih =>
    simp only [inclLoop, ih, inclInner_frame x rest s, add_add, eachWithRest, includeDiags]

/-- The state `Semant` ends in. -/
theorem Semant_state (m : Model) :
    (Semant m).err = eachWithRest includeDiags m.includes ++ (m.nodes.map nodeDiags).flatten
    ∧ (Semant m).rv
      = (eachWithRest includeDiags m.includes ++ (m.nodes.map nodeDiags).flatten).isEmpty := by
  have h : ({ rv := true, err := [] } : SemState) = cleanState := rfl
  simp only [Semant, h, nodeLoop_fst, inclLoop_eq, add_add]
  simp [SemState.add, cleanState]

/-! ## The diagnostics of the single checks -/

theorem mem_add_err (s : SemState) (d : List String) (x : String) (h : x ∈ d) :
    x ∈ (s.add d).err := by
  simp [SemState.add, h]

theorem mem_eachWithRest {α : Type} (f : α → List α → List String) (pre : List α) (x : α)
    (rest : List α) (d : String) (h : d ∈ f x rest) :
    d ∈ eachWithRest f (pre ++ x :: rest) := by
  induction pre with
  | nil => simp [eachWithRest, h]
  | cons y pre ih => simp [eachWithRest, ih]

theorem eachWithRest_split {α : Type} (f : α → List α → List String) (pre : List α) (x : α)
    (rest : List α) :
    ∃ before after, eachWithRest f (pre ++ x :: rest) = before ++ f x rest ++ after := by
  induction pre with
  | nil => exact ⟨[], eachWithRest f rest, by simp [eachWithRest]⟩
  | cons y pre ih =>
    obtain ⟨b, a, h⟩ := ih
    exact ⟨f y (pre ++ x :: rest) ++ b, a, by simp [eachWithRest, h]⟩

theorem Semant_err_of_node (m : Model) (n : Node) (d : String) (hn : n ∈ m.nodes)
    (hd : d ∈ nodeDiags n) : d ∈ (Semant m).err := by
  rw [(Semant_state m).1]
  apply List.mem_append_right
  simp only [List.mem_flatten, List.mem_map]
  exact ⟨nodeDiags n, ⟨n, hn, rfl⟩, hd⟩

theorem Semant_rv_of_err (m : Model) (d : String) (hd : d ∈ (Semant m).err) :
    (Semant m).rv = false := by
  have h := Semant_state m
  rw [h.2, ← h.1]
  cases he : (Semant m).err with
  | nil => rw [he] at hd; simp at hd
  | cons a t => rfl

theorem attrDupLoop_mem (n : Node) (a chk : Attribute) (l : List Attribute) (s : SemState)
    (hchk : chk ∈ l) (hname : a.name = chk.name) :
    ("Error: Attrribute name " ++ a.name ++ " in class " ++ n.name.name ++ " is duplicated\n")
      ∈ (attrDupLoop n a l s).err := by
  induction l generalizing s with
  | nil => simp at hchk
  | cons c rest ih =>
    simp only [attrDupLoop]
    rcases List.mem_cons.mp hchk with h | h
    · subst h
      rw [if_pos hname, attrDupLoop_frame n a rest _]
      simp [SemState.add, SemState.error]
    · split
      · exact ih _ h
      · exact ih _ h

theorem attrDupLoop_none (n : Node) (a : Attribute) (l : List Attribute) (s : SemState)
    (h : ∀ chk ∈ l, a.name ≠ chk.name) : attrDupLoop n a l s = s := by
  induction l generalizing s with
  | nil => rfl
  | cons c rest ih =>
    simp only [attrDupLoop]
    rw [if_neg (h c (List.mem_cons_self _ _))]
    exact ih _ (fun chk hc => h chk (List.mem_cons_of_mem _ hc))

theorem attrMethLoop_mem (n : Node) (a : Attribute) (chk : Method) (l : List Method)
    (s : SemState) (hchk : chk ∈ l) (hname : a.name = chk.name) :
    ("Error: Attrribute name " ++ a.name ++ " in class " ++ n.name.name
        ++ " is duplicated by method " ++ chk.name ++ "\n")
      ∈ (attrMethLoop n a l s).err := by
  induction l generalizing s with
  | nil => simp at hchk
  | cons c rest ih =>
    simp only [attrMethLoop]
    rcases List.mem_cons.mp hchk with h | h
    · subst h
      rw [if_pos hname, attrMethLoop_frame n a rest _]
      simp [SemState.add, SemState.error]
    · split
      · exact ih _ h
      · exact ih _ h

theorem inclInner_mem (x : String) (l : List String) (s : SemState) (hx : x ∈ l) :
    ("Error: Include file " ++ x ++ " specified more than once\n") ∈ (inclInner x l s).err := by
  induction l generalizing s with
  | nil => simp at hx
  | cons c rest ih =>
    simp only [inclInner]
    rcases List.mem_cons.mp hx with h | h
    · subst h
      rw [if_pos rfl, inclInner_frame x rest _]
      simp [SemState.add, SemState.error]
    · split
      · exact ih _ h
      · exact ih _ h

theorem inclInner_none (x : String) (l : List String) (s : SemState) (hx : x ∉ l) :
    inclInner x l s = s := by
  induction l generalizing s with
  | nil => rfl
  | cons c rest ih =>
    simp only [inclInner]
    have h1 : x ≠ c := fun h => hx (h ▸ List.mem_cons_self _ _)
    rw [if_neg h1]
    exact ih _ (fun h => hx (List.mem_cons_of_mem _ h))

theorem includeDiags_nodup (l : List String) (h : l.Nodup) :
    eachWithRest includeDiags l = [] := by
  induction l with
  | nil => rfl
  | cons x rest ih =>
    have h2 := List.nodup_cons.mp h
    simp only [eachWithRest, includeDiags, inclInner_none x rest cleanState h2.1, ih h2.2]
    rfl

theorem includeDiags_dup (l : List String) (h : ¬ l.Nodup) :
    ∃ x ∈ l, ("Error: Include file " ++ x ++ " specified more than once\n")
      ∈ eachWithRest includeDiags l := by
  induction l with
  | nil => simp at h
  | cons x rest ih =>
    by_cases hx : x ∈ rest
    · refine ⟨x, List.mem_cons_self _ _, ?_⟩
      simp only [eachWithRest, List.mem_append]
      exact Or.inl (inclInner_mem x rest cleanState hx)
    · have h2 : ¬ rest.Nodup := fun hr => h (List.nodup_cons.mpr ⟨hx, hr⟩)
      obtain ⟨y, hy, hd⟩ := ih h2
      refine ⟨y, List.mem_cons_of_mem _ hy, ?_⟩
      simp only [eachWithRest, List.mem_append]
      exact Or.inr hd

theorem attrDupDiags_nodup (n : Node) (l : List Attribute)
    (h : (l.map Attribute.name).Nodup) : eachWithRest (attrDupDiags n) l = [] := by
  induction l with
  | nil => rfl
  | cons a rest ih =>
    simp only [List.map_cons, List.nodup_cons, List.mem_map, not_exists, not_and] at h
    have h1 : attrDupLoop n a rest cleanState = cleanState :=
      attrDupLoop_none n a rest cleanState (fun chk hc he => h.1 chk hc he.symm)
    simp only [eachWithRest, attrDupDiags, h1, ih h.2]
    rfl

/-! ## The parent link plays no part in the validator -/

theorem attrDupLoop_congr (n n2 : Node) (a : Attribute) (l : List Attribute) (s : SemState)
    (h : n2.name = n.name) : attrDupLoop n2 a l s = attrDupLoop n a l s := by
  induction l generalizing s with
  | nil => rfl
  | cons c rest ih => simp only [attrDupLoop, h, ih]

theorem attrMethLoop_congr (n n2 : Node) (a : Attribute) (l : List Method) (s : SemState)
    (h : n2.name = n.name) : attrMethLoop n2 a l s = attrMethLoop n a l s := by
  induction l generalizing s with
  | nil => rfl
  | cons c rest ih => simp only [attrMethLoop, h, ih]

theorem attrVisCheck_congr (n n2 : Node) (a : Attribute) (f : Nat) (s : SemState)
    (h : n2.name = n.name) : attrVisCheck n2 a f s = attrVisCheck n a f s := by
  simp only [attrVisCheck, h]

theorem eachWithRest_congr {α : Type} (f g : α → List α → List String) (l : List α)
    (h : ∀ x rest, f x rest = g x rest) : eachWithRest f l = eachWithRest g l := by
  induction l with
  | nil => rfl
  | cons x rest ih => simp only [eachWithRest, h, ih]

theorem nodeDiags_parent (n : Node) (q : Option Nat) :
    nodeDiags { n with parent := q } = nodeDiags n := by
  have hname : ({ n with parent := q } : Node).name = n.name := rfl
  simp only [nodeDiags]
  congr 1
  apply eachWithRest_congr
  intro a rest
  simp only [attrDiags, attrDupDiags, attrMethDiags, attrVisDiags,
    attrDupLoop_congr n _ a rest cleanState hname,
    attrMethLoop_congr n _ a n.methods cleanState hname,
    attrVisCheck_congr n _ _ a.flags cleanState hname]

theorem Semant_parent (m : Model) (f : Node → Option Nat) :
    (Semant { m with nodes := m.nodes.map (fun n => { n with parent := f n }) }).rv
        = (Semant m).rv
    ∧ (Semant { m with nodes := m.nodes.map (fun n => { n with parent := f n }) }).err
        = (Semant m).err := by
  have h1 := Semant_state m
  have h2 := Semant_state { m with nodes := m.nodes.map (fun n => { n with parent := f n }) }
  have h3 : (m.nodes.map (fun n => ({ n with parent := f n } : Node))).map nodeDiags
      = m.nodes.map nodeDiags := by
    rw [List.map_map]
    apply List.map_congr_left
    intro n _
    exact nodeDiags_parent n (f n)
  simp only [h3] at h2
  exact ⟨by rw [h2.2, h1.2], by rw [h2.1, h1.1]⟩

/-! ## The claims on the checks of `Semant` -/

/-- C11: if some node has two own attributes with the same name x, `Semant`
returns false and reports a diagnostic naming x.  Only the own attribute list
of a node is compared: the result and the diagnostics of `Semant` are the same
whatever the parent links of the nodes are, and a node whose own attribute
names are pairwise distinct gets no duplicate-attribute diagnostic. -/
theorem Semant_duplicate_attribute (m : Model) (n : Node) (a1 a2 : Attribute)
    (pre mid post : List Attribute)
    (hn : n ∈ m.nodes) (hattrs : n.attrs = pre ++ a1 :: (mid ++ a2 :: post))
    (hname : a1.name = a2.name) :
    (Semant m).rv = false
    ∧ ("Error: Attrribute name " ++ a1.name ++ " in class " ++ n.name.name
          ++ " is duplicated\n") ∈ (Semant m).err
    ∧ (∀ f : Node → Option Nat,
        (Semant { m with nodes := m.nodes.map (fun k => { k with parent := f k }) }).rv
            = (Semant m).rv
        ∧ (Semant { m with nodes := m.nodes.map (fun k => { k with parent := f k }) }).err
            = (Semant m).err)
    ∧ (∀ k : Node, (k.attrs.map Attribute.name).Nodup →
        eachWithRest (attrDupDiags k) k.attrs = []) := by
  have hd : ("Error: Attrribute name " ++ a1.name ++ " in class " ++ n.name.name
      ++ " is duplicated\n") ∈ (Semant m).err := by
    apply Semant_err_of_node m n _ hn
    simp only [nodeDiags, List.mem_append]
    left
    rw [hattrs]
    apply mem_eachWithRest
    simp only [attrDiags, List.mem_append]
    left; left
    exact attrDupLoop_mem n a1 a2 _ cleanState (by simp) hname
  exact ⟨Semant_rv_of_err m _ hd, hd, Semant_parent m, fun k hk => attrDupDiags_nodup k _ hk⟩

theorem Semant_duplicate_attribute_witness :
    dupAttrNode ∈ dupAttrModel.nodes
    ∧ dupAttrNode.attrs
        = [] ++ ({ flags := PUBLIC, type := tInteger, name := "x", code := "" } : Attribute)
            :: ([] ++ ({ flags := PUBLIC, type := tString, name := "x", code := "" } : Attribute)
              :: [])
    ∧ (Semant dupAttrModel).rv = false
    ∧ ("Error: Attrribute name " ++ "x" ++ " in class " ++ dupAttrNode.name.name
          ++ " is duplicated\n") ∈ (Semant dupAttrModel).err
    ∧ (∀ f : Node → Option Nat,
        (Semant { dupAttrModel with
            nodes := dupAttrModel.nodes.map (fun k => { k with parent := f k }) }).rv
            = (Semant dupAttrModel).rv
        ∧ (Semant { dupAttrModel with
            nodes := dupAttrModel.nodes.map (fun k => { k with parent := f k }) }).err
            = (Semant dupAttrModel).err)
    ∧ (∀ k : Node, (k.attrs.map Attribute.name).Nodup →
        eachWithRest (attrDupDiags k) k.attrs = []) :=
  ⟨by decide, rfl,
    Semant_duplicate_attribute dupAttrModel dupAttrNode
      { flags := PUBLIC, type := tInteger, name := "x", code := "" }
      { flags := PUBLIC, type := tString, name := "x", code := "" } [] [] []
      (by decide) rfl rfl⟩

/-- C12: if some node has an attribute and a method with the same name x,
`Semant` returns false and reports a diagnostic naming x. -/
theorem Semant_attribute_method_clash (m : Model) (n : Node) (a : Attribute) (meth : Method)
    (hn : n ∈ m.nodes) (ha : a ∈ n.attrs) (hm : meth ∈ n.methods)
    (hname : a.name = meth.name) :
    (Semant m).rv = false
    ∧ ("Error: Attrribute name " ++ a.name ++ " in class " ++ n.name.name
          ++ " is duplicated by method " ++ meth.name ++ "\n") ∈ (Semant m).err := by
  have hd : ("Error: Attrribute name " ++ a.name ++ " in class " ++ n.name.name
      ++ " is duplicated by method " ++ meth.name ++ "\n") ∈ (Semant m).err := by
    apply Semant_err_of_node m n _ hn
    obtain ⟨pre, post, hattrs⟩ := List.append_of_mem ha
    simp only [nodeDiags, List.mem_append]
    left
    rw [hattrs]
    apply mem_eachWithRest
    simp only [attrDiags, List.mem_append]
    left; right
    exact attrMethLoop_mem n a meth _ cleanState hm hname
  exact ⟨Semant_rv_of_err m _ hd, hd⟩

theorem Semant_attribute_method_clash_witness :
    clashNode ∈ clashModel.nodes
    ∧ (Semant clashModel).rv = false
    ∧ ("Error: Attrribute name " ++ "size" ++ " in class " ++ clashNode.name.name
          ++ " is duplicated by method " ++ "size" ++ "\n") ∈ (Semant clashModel).err :=
  ⟨by decide,
    Semant_attribute_method_clash clashModel clashNode
      { flags := PUBLIC, type := tInteger, name := "size", code := "" }
      { flags := PUBLIC, type := tInteger, name := "size", parms := [],
        code := "\x7b return 0; \x7d" }
      (by decide) (by decide) (by decide) rfl⟩

/-- C14: the result of `Semant` is the conjunction of all check outcomes: the
diagnostics are those of the include entries followed by those of each node
in turn (for a node, those of each attribute and then of each method), the
result is true exactly when nothing is reported, and each check reports, from
any state reached before it, what it reports from the clean state. -/
theorem Semant_all_checks (m : Model) :
    (Semant m).err
        = eachWithRest includeDiags m.includes ++ (m.nodes.map nodeDiags).flatten
    ∧ ((Semant m).rv = true ↔ (Semant m).err = [])
    ∧ (Semant m).rv
        = ((eachWithRest includeDiags m.includes).isEmpty
            && m.nodes.all (fun n =>
              (eachWithRest (attrDiags n) n.attrs).isEmpty
                && (eachWithRest methDiags n.methods).isEmpty))
    ∧ (∀ x rest s, inclInner x rest s = s.add (includeDiags x rest))
    ∧ (∀ n a rest s,
        attrVisCheck n (attrDefaultVis a a.flags) a.flags
            (attrMethLoop n a n.methods (attrDupLoop n a rest s))
          = s.add (attrDiags n a rest))
    ∧ (∀ meth rest s,
        (methCodeCheck meth (sigLoop meth rest (true, s)).2).1 = s.add (methDiags meth rest))
    ∧ (∀ n s, (semantNode n s).1 = s.add (nodeDiags n)) := by
  have h := Semant_state m
  refine ⟨h.1, ?_, ?_, fun x rest s => inclInner_frame x rest s, attrStep_eq, methStep_eq,
    semantNode_fst⟩
  · rw [h.2, ← h.1]
    cases (Semant m).err <;> simp
  · rw [h.2]
    rw [Bool.eq_iff_iff]
    simp only [List.isEmpty_iff, Bool.and_eq_true, List.all_eq_true, List.append_eq_nil,
      List.flatten_eq_nil_iff, List.mem_map, nodeDiags]
    constructor
    · rintro ⟨h1, h2⟩
      refine ⟨h1, fun n hn => ?_⟩
      have := h2 _ ⟨n, hn, rfl⟩
      simpa using this
    · rintro ⟨h1, h2⟩
      refine ⟨h1, ?_⟩
      rintro l ⟨n, hn, rfl⟩
      have := h2 n hn
      simpa using this

/-- C15: `Semant` returns false (and names a repeated entry) whenever the
include list contains two textually identical entries, and the include check
reports nothing otherwise; the entries are compared as literal strings, so
`<cstdio>` and `"cstdio"` do not collide. -/
theorem Semant_duplicate_includes (m : Model) :
    (¬ m.includes.Nodup →
      (Semant m).rv = false
      ∧ ∃ x ∈ m.includes,
          ("Error: Include file " ++ x ++ " specified more than once\n") ∈ (Semant m).err)
    ∧ (m.includes.Nodup → ∀ s, inclLoop m.includes s = s)
    ∧ (∀ s, inclLoop ["<cstdio>", "\"cstdio\""] s = s) := by
  refine ⟨fun h => ?_, fun h s => ?_, fun s => ?_⟩
  · obtain ⟨x, hx, hd⟩ := includeDiags_dup m.includes h
    have hd2 : ("Error: Include file " ++ x ++ " specified more than once\n")
        ∈ (Semant m).err := by
      rw [(Semant_state m).1]
      exact List.mem_append_left _ hd
    exact ⟨Semant_rv_of_err m _ hd2, x, hx, hd2⟩
  · rw [inclLoop_eq, includeDiags_nodup _ h, add_nil]
  · rw [inclLoop_eq, includeDiags_nodup _ (by decide), add_nil]

theorem Semant_duplicate_includes_witness :
    ¬ dupInclModel.includes.Nodup
    ∧ (Semant dupInclModel).rv = false
    ∧ ∃ x ∈ dupInclModel.includes,
        ("Error: Include file " ++ x ++ " specified more than once\n")
          ∈ (Semant dupInclModel).err :=
  ⟨by decide, (Semant_duplicate_includes dupInclModel).1 (by decide)⟩

theorem visPairDiags_name (n : Node) (a b : Attribute) (f : Nat) (h : b.name = a.name) :
    visPairDiags n b f = visPairDiags n a f := by
  simp only [visPairDiags, h]

theorem attrDefaultVis_name (a : Attribute) (f : Nat) : (attrDefaultVis a f).name = a.name := by
  unfold attrDefaultVis
  split <;> rfl

theorem attrVisDiags_eq (n : Node) (a : Attribute) :
    attrVisDiags n a = visPairDiags n a a.flags := by
  simp only [attrVisDiags, attrVisCheck_eq, cleanState_add_err]
  exact visPairDiags_name n a _ a.flags (attrDefaultVis_name a a.flags)

/-- C16: for an attribute whose flags contain two or more of PUBLIC,
PROTECTED, PRIVATE, `Semant` returns false and the visibility check reports
exactly one diagnostic for each forbidden pair that is present: one when two
of the flags are set and three when all three are set. -/
theorem Semant_visibility_pairs (m : Model) (n : Node) (a : Attribute)
    (pre post : List Attribute)
    (hn : n ∈ m.nodes) (hattrs : n.attrs = pre ++ a :: post)
    (htwo : (a.flags &&& PUBLIC ≠ 0 ∧ a.flags &&& PROTECTED ≠ 0)
      ∨ (a.flags &&& PUBLIC ≠ 0 ∧ a.flags &&& PRIVATE ≠ 0)
      ∨ (a.flags &&& PROTECTED ≠ 0 ∧ a.flags &&& PRIVATE ≠ 0)) :
    (Semant m).rv = false
    ∧ (∀ s, attrVisCheck n (attrDefaultVis a a.flags) a.flags s
        = s.add (visPairDiags n a a.flags))
    ∧ (∃ before after, (Semant m).err = before ++ visPairDiags n a a.flags ++ after)
    ∧ (visPairDiags n a a.flags).length
        = (if a.flags &&& PUBLIC ≠ 0 ∧ a.flags &&& PROTECTED ≠ 0 then 1 else 0)
          + (if a.flags &&& PUBLIC ≠ 0 ∧ a.flags &&& PRIVATE ≠ 0 then 1 else 0)
          + (if a.flags &&& PROTECTED ≠ 0 ∧ a.flags &&& PRIVATE ≠ 0 then 1 else 0)
    ∧ (a.flags &&& PUBLIC ≠ 0 ∧ a.flags &&& PROTECTED ≠ 0 ∧ a.flags &&& PRIVATE ≠ 0 →
        (visPairDiags n a a.flags).length = 3)
    ∧ (a.flags &&& PUBLIC = 0 ∨ a.flags &&& PROTECTED = 0 ∨ a.flags &&& PRIVATE = 0 →
        (visPairDiags n a a.flags).length = 1) := by
  have hlen : (visPairDiags n a a.flags).length
        = (if a.flags &&& PUBLIC ≠ 0 ∧ a.flags &&& PROTECTED ≠ 0 then 1 else 0)
          + (if a.flags &&& PUBLIC ≠ 0 ∧ a.flags &&& PRIVATE ≠ 0 then 1 else 0)
          + (if a.flags &&& PROTECTED ≠ 0 ∧ a.flags &&& PRIVATE ≠ 0 then 1 else 0) := by
    unfold visPairDiags
    split_ifs <;> rfl
  have hsplit : ∃ before after,
      (Semant m).err = before ++ visPairDiags n a a.flags ++ after := by
    obtain ⟨npre, npost, hnodes⟩ := List.append_of_mem hn
    obtain ⟨b, c, hbc⟩ := eachWithRest_split (attrDiags n) pre a post
    refine ⟨eachWithRest includeDiags m.includes ++ (npre.map nodeDiags).flatten ++ b
        ++ attrDupDiags n a post ++ attrMethDiags n a,
      c ++ eachWithRest methDiags n.methods ++ (npost.map nodeDiags).flatten, ?_⟩
    rw [(Semant_state m).1, hnodes]
    simp only [List.map_append, List.map_cons, List.flatten_append, List.flatten_cons,
      nodeDiags, hattrs, hbc, attrDiags, attrVisDiags_eq, List.append_assoc]
  have hne : visPairDiags n a a.flags ≠ [] := by
    intro h0
    have h1 := congrArg List.length h0
    rw [hlen] at h1
    rcases htwo with h | h | h <;> simp [h] at h1
  have hrv : (Semant m).rv = false := by
    obtain ⟨b, c, hbc⟩ := hsplit
    cases hv : visPairDiags n a a.flags with
    | nil => exact absurd hv hne
    | cons d t =>
      apply Semant_rv_of_err m d
      rw [hbc, hv]
      simp
  refine ⟨hrv, fun s => ?_, hsplit, hlen, fun h3 => ?_, fun h2 => ?_⟩
  · rw [attrVisCheck_eq]
    rw [visPairDiags_name n a _ a.flags (attrDefaultVis_name a a.flags)]
  · rw [hlen]
    simp [h3.1, h3.2.1, h3.2.2]
  · rw [hlen]
    rcases h2 with h | h | h
    · rcases htwo with g | g | g
      · exact absurd h g.1
      · exact absurd h g.1
      · simp [h, g.1, g.2]
    · rcases htwo with g | g | g
      · exact absurd h g.2
      · simp [h, g.1, g.2]
      · exact absurd h g.1
    · rcases htwo with g | g | g
      · simp [h, g.1, g.2]
      · exact absurd h g.2
      · exact absurd h g.2

theorem Semant_visibility_pairs_witness :
    twoVisNode ∈ twoVisModel.nodes ∧ twoVisNode.attrs = [] ++ twoVisAttr :: []
    ∧ (twoVisAttr.flags &&& PUBLIC ≠ 0 ∧ twoVisAttr.flags &&& PRIVATE ≠ 0)
    ∧ (Semant twoVisModel).rv = false
    ∧ (visPairDiags twoVisNode twoVisAttr twoVisAttr.flags).length = 1 :=
  ⟨by decide, rfl, by decide,
    (Semant_visibility_pairs twoVisModel twoVisNode twoVisAttr [] [] (by decide) rfl
      (Or.inr (Or.inl (by decide)))).1,
    (Semant_visibility_pairs twoVisModel twoVisNode twoVisAttr [] [] (by decide) rfl
      (Or.inr (Or.inl (by decide)))).2.2.2.2.2 (Or.inr (Or.inl (by decide)))⟩

/-! ## The attribute emitter -/

theorem or_PROTECTED_and_PUBLIC (f : Nat) (h : f &&& PUBLIC = 0) :
    (f ||| PROTECTED) &&& PUBLIC = 0 := by
  rw [Nat.and_comm, Nat.and_or_distrib_left, Nat.and_comm PUBLIC f, h]
  decide

theorem or_PROTECTED_and_PROTECTED (f : Nat) : (f ||| PROTECTED) &&& PROTECTED ≠ 0 := by
  intro h
  have h1 := congrArg (fun x => Nat.testBit x 3) h
  have h3 : Nat.testBit PROTECTED 3 = true := by decide
  simp [Nat.testBit_and, Nat.testBit_or, h3] at h1

theorem emitAttribute_eq (os : String) (a : Attribute) :
    emitAttribute os a = os ++ attrBanner a ++ visLabel a ++ attrMembers a := by
  unfold emitAttribute visLabel attrMembers attrBanner
  simp only
  split_ifs <;> simp only [String.append_assoc, String.append_empty]

theorem cpp_EmitAttributes_append (os : String) (l1 l2 : List Attribute) :
    cpp_EmitAttributes os (l1 ++ l2) = cpp_EmitAttributes (cpp_EmitAttributes os l1) l2 := by
  induction l1 generalizing os with
  | nil => rfl
  | cons a t ih =>
    show cpp_EmitAttributes (emitAttribute os a) (t ++ l2) = _
    rw [ih]
    rfl

theorem cpp_EmitAttributes_at (os : String) (l : List Attribute) (j : Nat) (a : Attribute)
    (h : l[j]? = some a) :
    cpp_EmitAttributes os l
      = cpp_EmitAttributes (emitAttribute (cpp_EmitAttributes os (l.take j)) a)
          (l.drop (j + 1)) := by
  have hlt : j < l.length := by
    rcases List.getElem?_eq_some.mp h with ⟨hj, _⟩
    exact hj
  have hget : l[j] = a := by
    rcases List.getElem?_eq_some.mp h with ⟨_, he⟩
    exact he
  have hsplit : l = l.take j ++ a :: l.drop (j + 1) := by
    rw [← hget, ← List.drop_eq_getElem_cons hlt, List.take_append_drop]
  conv_lhs => rw [hsplit]
  rw [cpp_EmitAttributes_append]
  rfl

theorem Semant_nodes (m : Model) :
    (Semant m).model.nodes
      = m.nodes.map (fun n =>
          ({ n with
            attrs := n.attrs.map (fun a => attrDefaultVis a a.flags),
            methods := n.methods.map
              (fun meth => if meth.code = "" then meth.Set_Flag EXTERNAL else meth) } : Node)) := by
  simp only [Semant, nodeLoop_snd, semantNode_snd]

/-- C13: for every attribute that has none of PUBLIC, PROTECTED, PRIVATE set,
`Semant` sets PROTECTED on it, the visibility check leaves the result and the
diagnostics as they were, and `cpp_EmitAttributes` then writes the attribute
under the label `protected:`. -/
theorem Semant_default_protected (m : Model) (i j : Nat) (n : Node) (a : Attribute)
    (hn : m.nodes[i]? = some n) (ha : n.attrs[j]? = some a)
    (hvis : a.flags &&& PUBLIC = 0 ∧ a.flags &&& PROTECTED = 0 ∧ a.flags &&& PRIVATE = 0) :
    (∃ n2, (Semant m).model.nodes[i]? = some n2
      ∧ n2.attrs[j]? = some (a.Set_Flag PROTECTED)
      ∧ ∀ os, cpp_EmitAttributes os n2.attrs
          = cpp_EmitAttributes
              (cpp_EmitAttributes os (n2.attrs.take j) ++ attrBanner a
                ++ "protected:" ++ "\n" ++ attrMembers (a.Set_Flag PROTECTED))
              (n2.attrs.drop (j + 1)))
    ∧ (∀ s, attrVisCheck n (attrDefaultVis a a.flags) a.flags s = s)
    ∧ (a.Set_Flag PROTECTED).flags &&& PROTECTED ≠ 0 := by
  have hdef : attrDefaultVis a a.flags = a.Set_Flag PROTECTED := by
    simp [attrDefaultVis, hvis.1, hvis.2.1, hvis.2.2]
  have hlabel : visLabel (a.Set_Flag PROTECTED) = "protected:" ++ "\n" := by
    simp only [visLabel, Attribute.Set_Flag, or_PROTECTED_and_PUBLIC a.flags hvis.1,
      ne_eq, not_true_eq_false, if_false, or_PROTECTED_and_PROTECTED a.flags,
      not_false_eq_true, if_true]
  refine ⟨⟨{ n with
      attrs := n.attrs.map (fun a => attrDefaultVis a a.flags),
      methods := n.methods.map
        (fun meth => if meth.code = "" then meth.Set_Flag EXTERNAL else meth) }, ?_, ?_, ?_⟩,
    ?_, or_PROTECTED_and_PROTECTED a.flags⟩
  · rw [Semant_nodes, List.getElem?_map, hn]
    rfl
  · simp only [List.getElem?_map, ha, Option.map_some', hdef]
  · intro os
    have hat : (n.attrs.map (fun a => attrDefaultVis a a.flags))[j]?
        = some (a.Set_Flag PROTECTED) := by
      simp only [List.getElem?_map, ha, Option.map_some', hdef]
    rw [cpp_EmitAttributes_at os _ j _ hat, emitAttribute_eq, hlabel]
    have hb : attrBanner (a.Set_Flag PROTECTED) = attrBanner a := rfl
    rw [hb]
    simp only [String.append_assoc]
  · intro s
    rw [attrVisCheck_eq]
    simp [visPairDiags, hvis.1, hvis.2.1, hvis.2.2, add_nil]

theorem Semant_default_protected_witness :
    leafModel.nodes[1]? = some leafNode ∧ leafNode.attrs[0]? = some countAttr
    ∧ (countAttr.flags &&& PUBLIC = 0 ∧ countAttr.flags &&& PROTECTED = 0
        ∧ countAttr.flags &&& PRIVATE = 0)
    ∧ (∃ n2, (Semant leafModel).model.nodes[1]? = some n2
      ∧ n2.attrs[0]? = some (countAttr.Set_Flag PROTECTED)
      ∧ ∀ os, cpp_EmitAttributes os n2.attrs
          = cpp_EmitAttributes
              (cpp_EmitAttributes os (n2.attrs.take 0) ++ attrBanner countAttr
                ++ "protected:" ++ "\n" ++ attrMembers (countAttr.Set_Flag PROTECTED))
              (n2.attrs.drop (0 + 1)))
    ∧ (∀ s, attrVisCheck leafNode (attrDefaultVis countAttr countAttr.flags)
        countAttr.flags s = s)
    ∧ (countAttr.Set_Flag PROTECTED).flags &&& PROTECTED ≠ 0 :=
  ⟨rfl, rfl, by decide,
    Semant_default_protected leafModel 1 0 leafNode countAttr rfl rfl (by decide)⟩

/-! ## The symbol table -/

theorem Append_eq_append {α : Type} (l r : List α) : Append l r = l ++ r := by
  induction l with
  | nil => cases r <;> rfl
  | cons x l ih =>
    cases r with
    | nil => simp [Append]
    | cons y r => simp only [Append, ih, List.cons_append]

theorem LookupSymbol_iff (symtab : List Symbol) (n : String) :
    LookupSymbol symtab n = true ↔ ∃ s ∈ symtab, s.name = n := by
  induction symtab with
  | nil => simp [LookupSymbol]
  | cons tmp wrk ih =>
    simp only [LookupSymbol]
    by_cases h : tmp.name = n
    · simp [h]
    · simp [h, ih]

theorem LookupSymbol_false_iff (symtab : List Symbol) (n : String) :
    LookupSymbol symtab n = false ↔ ∀ s ∈ symtab, s.name ≠ n := by
  rw [← Bool.not_eq_true, LookupSymbol_iff]
  simp

theorem GetSymbol_eq_find (symtab : List Symbol) (n : String) :
    GetSymbol symtab n = symtab.find? (fun s => s.name = n) := by
  induction symtab with
  | nil => rfl
  | cons tmp wrk ih =>
    simp only [GetSymbol, List.find?_cons]
    by_cases h : tmp.name = n
    · simp [h]
    · simp [h, ih]

theorem GetSymbol_first (symtab : List Symbol) (n : String) (s : Symbol)
    (h : GetSymbol symtab n = some s) :
    ∃ pre post, symtab = pre ++ s :: post ∧ s.name = n ∧ ∀ t ∈ pre, t.name ≠ n := by
  induction symtab with
  | nil => simp [GetSymbol] at h
  | cons tmp wrk ih =>
    simp only [GetSymbol] at h
    by_cases hn : tmp.name = n
    · rw [if_pos hn] at h
      have : tmp = s := Option.some.inj h
      subst this
      exact ⟨[], wrk, rfl, hn, by simp⟩
    · rw [if_neg hn] at h
      obtain ⟨pre, post, h1, h2, h3⟩ := ih h
      refine ⟨tmp :: pre, post, by rw [h1]; rfl, h2, ?_⟩
      intro t ht
      rcases List.mem_cons.mp ht with h4 | h4
      · rw [h4]; exact hn
      · exact h3 t h4

theorem GetSymbol_isSome_iff (symtab : List Symbol) (n : String) :
    GetSymbol symtab n ≠ none ↔ LookupSymbol symtab n = true := by
  induction symtab with
  | nil => simp [GetSymbol, LookupSymbol]
  | cons tmp wrk ih =>
    simp only [GetSymbol, LookupSymbol]
    by_cases h : tmp.name = n
    · simp [h]
    · simp only [h, if_false]
      exact ih

theorem GetSymbol_append_fresh (symtab : List Symbol) (sym : Symbol)
    (h : ∀ s ∈ symtab, s.name ≠ sym.name) :
    GetSymbol (symtab ++ [sym]) sym.name = some sym := by
  induction symtab with
  | nil => simp [GetSymbol]
  | cons tmp wrk ih =>
    have h1 : tmp.name ≠ sym.name := h tmp (List.mem_cons_self _ _)
    simp only [List.cons_append, GetSymbol, if_neg h1]
    exact ih (fun s hs => h s (List.mem_cons_of_mem _ hs))

theorem AddTypeSymbol_fresh (symtab : List Symbol) (n : String)
    (h : ∀ s ∈ symtab, s.name ≠ n) :
    AddTypeSymbol symtab n
      = (some { name := n, kind := Kind.TYPE }, symtab ++ [{ name := n, kind := Kind.TYPE }]) := by
  have hl := (LookupSymbol_false_iff symtab n).mpr h
  simp only [AddTypeSymbol, hl, if_true, Append_eq_append, Symbol.Factory]

theorem AddNodeSymbol_fresh (symtab : List Symbol) (n : String)
    (h : ∀ s ∈ symtab, s.name ≠ n) :
    AddNodeSymbol symtab n
      = (some { name := n, kind := Kind.NODE }, symtab ++ [{ name := n, kind := Kind.NODE }]) := by
  have hl := (LookupSymbol_false_iff symtab n).mpr h
  simp only [AddNodeSymbol, hl, if_true, Append_eq_append, Symbol.Factory]

theorem AddTypeSymbol_existing (symtab : List Symbol) (n : String)
    (h : ∃ s ∈ symtab, s.name = n) : AddTypeSymbol symtab n = (none, symtab) := by
  have hl := (LookupSymbol_iff symtab n).mpr h
  simp [AddTypeSymbol, hl]

theorem AddNodeSymbol_existing (symtab : List Symbol) (n : String)
    (h : ∃ s ∈ symtab, s.name = n) : AddNodeSymbol symtab n = (none, symtab) := by
  have hl := (LookupSymbol_iff symtab n).mpr h
  simp [AddNodeSymbol, hl]

/-- One call keeps what is in the table, in place, and keeps the names
distinct. -/
theorem SymCall.run_spec (symtab : List Symbol) (c : SymCall) :
    symtab <+: c.run symtab
    ∧ ((symtab.map Symbol.name).Nodup → ((c.run symtab).map Symbol.name).Nodup) := by
  have key : ∀ (k : Kind) (n : String),
      symtab <+: (if LookupSymbol symtab n = false
          then (some (Symbol.Factory k n), Append symtab [Symbol.Factory k n])
          else (none, symtab)).2
      ∧ ((symtab.map Symbol.name).Nodup →
        (((if LookupSymbol symtab n = false
          then (some (Symbol.Factory k n), Append symtab [Symbol.Factory k n])
          else (none, symtab)).2).map Symbol.name).Nodup) := by
    intro k n
    by_cases hl : LookupSymbol symtab n = false
    · rw [if_pos hl, Append_eq_append]
      refine ⟨List.prefix_append _ _, fun hnd => ?_⟩
      have hfresh := (LookupSymbol_false_iff symtab n).mp hl
      simp only [List.map_append, List.map_cons, List.map_nil, Symbol.Factory]
      rw [List.nodup_append]
      refine ⟨hnd, by simp, ?_⟩
      intro x hx hx2
      simp only [List.mem_singleton] at hx2
      obtain ⟨s, hs, hsn⟩ := List.mem_map.mp hx
      exact hfresh s hs (hsn.trans hx2)
    · rw [if_neg hl]
      exact ⟨List.prefix_refl _, fun hnd => hnd⟩
  cases c with
  | addType n => exact key Kind.TYPE n
  | addNode n => exact key Kind.NODE n
  | lookup n => exact ⟨List.prefix_refl _, fun h => h⟩
  | get n => exact ⟨List.prefix_refl _, fun h => h⟩

theorem runCalls_spec (symtab : List Symbol) (calls : List SymCall) :
    symtab <+: runCalls symtab calls
    ∧ ((symtab.map Symbol.name).Nodup → ((runCalls symtab calls).map Symbol.name).Nodup) := by
  induction calls generalizing symtab with
  | nil => exact ⟨List.prefix_refl _, fun h => h⟩
  | cons c rest ih =>
    have h1 := SymCall.run_spec symtab c
    have h2 := ih (c.run symtab)
    exact ⟨h1.1.trans h2.1, fun h => h2.2 (h1.2 h)⟩

/-- C17: starting from the empty symbol table, after any sequence of calls of
`AddTypeSymbol` and `AddNodeSymbol` (and of the two lookups) no two symbols in
the table have the same name, whatever their kinds. -/
theorem symtab_names_distinct (calls : List SymCall) :
    ((runCalls [] calls).map Symbol.name).Nodup :=
  (runCalls_spec [] calls).2 List.nodup_nil

/-- C18: `AddTypeSymbol(n)` and `AddNodeSymbol(n)` return NULL and leave the
symbol table unchanged whenever a symbol named n, of either kind, is already
in the table. -/
theorem Add_existing_symbol (symtab : List Symbol) (n : String)
    (h : ∃ s ∈ symtab, s.name = n) :
    AddTypeSymbol symtab n = (none, symtab) ∧ AddNodeSymbol symtab n = (none, symtab) :=
  ⟨AddTypeSymbol_existing symtab n h, AddNodeSymbol_existing symtab n h⟩

theorem Add_existing_symbol_witness :
    (∃ s ∈ [tInteger], s.name = "Integer")
    ∧ AddTypeSymbol [tInteger] "Integer" = (none, [tInteger])
    ∧ AddNodeSymbol [tInteger] "Integer" = (none, [tInteger]) :=
  ⟨⟨tInteger, by decide, rfl⟩,
    Add_existing_symbol [tInteger] "Integer" ⟨tInteger, by decide, rfl⟩⟩

/-- C19: when no symbol named n is in the table, `AddTypeSymbol(n)`
(respectively `AddNodeSymbol(n)`) returns a new symbol with name n and kind
TYPE (respectively NODE) and appends it as the last table entry, the earlier
entries staying as they were; afterwards `GetSymbol(n)` returns that symbol.
No call removes a symbol: the table before any sequence of calls is a prefix
of the table after it. -/
theorem Add_fresh_symbol (symtab : List Symbol) (n : String)
    (h : ∀ s ∈ symtab, s.name ≠ n) :
    AddTypeSymbol symtab n
        = (some { name := n, kind := Kind.TYPE },
            symtab ++ [{ name := n, kind := Kind.TYPE }])
    ∧ GetSymbol (AddTypeSymbol symtab n).2 n = some { name := n, kind := Kind.TYPE }
    ∧ AddNodeSymbol symtab n
        = (some { name := n, kind := Kind.NODE },
            symtab ++ [{ name := n, kind := Kind.NODE }])
    ∧ GetSymbol (AddNodeSymbol symtab n).2 n = some { name := n, kind := Kind.NODE }
    ∧ (∀ (t : List Symbol) (calls : List SymCall), t <+: runCalls t calls) := by
  refine ⟨AddTypeSymbol_fresh symtab n h, ?_, AddNodeSymbol_fresh symtab n h, ?_,
    fun t calls => (runCalls_spec t calls).1⟩
  · rw [AddTypeSymbol_fresh symtab n h]
    exact GetSymbol_append_fresh symtab { name := n, kind := Kind.TYPE } h
  · rw [AddNodeSymbol_fresh symtab n h]
    exact GetSymbol_append_fresh symtab { name := n, kind := Kind.NODE } h

theorem Add_fresh_symbol_witness :
    (∀ s ∈ [tInteger], s.name ≠ "Expr")
    ∧ AddTypeSymbol [tInteger] "Expr"
        = (some { name := "Expr", kind := Kind.TYPE },
            [tInteger] ++ [{ name := "Expr", kind := Kind.TYPE }])
    ∧ GetSymbol (AddTypeSymbol [tInteger] "Expr").2 "Expr"
        = some { name := "Expr", kind := Kind.TYPE }
    ∧ AddNodeSymbol [tInteger] "Expr"
        = (some { name := "Expr", kind := Kind.NODE },
            [tInteger] ++ [{ name := "Expr", kind := Kind.NODE }])
    ∧ GetSymbol (AddNodeSymbol [tInteger] "Expr").2 "Expr"
        = some { name := "Expr", kind := Kind.NODE }
    ∧ (∀ (t : List Symbol) (calls : List SymCall), t <+: runCalls t calls) :=
  ⟨by decide, Add_fresh_symbol [tInteger] "Expr" (by decide)⟩

/-- C20: for every table and name n, `LookupSymbol(n)` is true iff
`GetSymbol(n)` is non-null iff some symbol in the table has name n; a non-null
`GetSymbol(n)` is the first table entry whose name is n. -/
theorem Lookup_Get_agree (symtab : List Symbol) (n : String) :
    (LookupSymbol symtab n = true ↔ GetSymbol symtab n ≠ none)
    ∧ (GetSymbol symtab n ≠ none ↔ ∃ s ∈ symtab, s.name = n)
    ∧ (∀ s, GetSymbol symtab n = some s →
        ∃ pre post, symtab = pre ++ s :: post ∧ s.name = n ∧ ∀ t ∈ pre, t.name ≠ n)
    ∧ GetSymbol symtab n = symtab.find? (fun s => s.name = n) :=
  ⟨(GetSymbol_isSome_iff symtab n).symm,
    (GetSymbol_isSome_iff symtab n).trans (LookupSymbol_iff symtab n),
    fun s h => GetSymbol_first symtab n s h, GetSymbol_eq_find symtab n⟩

/-! ## The emitters only append to the stream -/

theorem concatAll_append (l1 l2 : List String) :
    concatAll (l1 ++ l2) = concatAll l1 ++ concatAll l2 := by
  induction l1 with
  | nil => simp [concatAll]
  | cons x t ih =>
    have e : concatAll (x :: t ++ l2) = x ++ concatAll (t ++ l2) := rfl
    rw [e, ih]
    simp only [concatAll, String.append_assoc]

theorem forwardsLoop_eq (syms : List Symbol) (os : String) :
    forwardsLoop syms os
      = os ++ concatAll ((syms.filter (fun s => s.kind = Kind.NODE)).map
          (fun s => "class " ++ s.name ++ ";" ++ "\n")) := by
  induction syms generalizing os with
  | nil => simp [forwardsLoop, concatAll]
  | cons sym syms ih =>
    by_cases h : sym.kind = Kind.NODE
    · simp only [forwardsLoop, h, if_true, ih, List.filter_cons, decide_True, List.map_cons,
        concatAll, String.append_assoc]
    · simp only [forwardsLoop, h, if_false, ih, List.filter_cons, decide_False]
      rfl

theorem includesLoop_eq (ls : List String) (os : String) :
    includesLoop ls os = os ++ concatAll (ls.map (fun l => "#include " ++ l ++ "\n")) := by
  induction ls generalizing os with
  | nil => simp [includesLoop, concatAll]
  | cons l ls ih =>
    simp only [includesLoop, ih, List.map_cons, concatAll, String.append_assoc]

theorem nodeTypesLoop_eq (nl : List Node) (os : String) :
    nodeTypesLoop nl os
      = os ++ concatAll ((nl.filter (fun n => n.flags &&& ABSTRACT = 0)).map
          (fun n => "\tNODE_TYPE_" ++ n.name.name ++ "," ++ "\n")) := by
  induction nl generalizing os with
  | nil => simp [nodeTypesLoop, concatAll]
  | cons n nl ih =>
    by_cases h : n.flags &&& ABSTRACT = 0
    · simp only [nodeTypesLoop, h, ne_eq, not_true_eq_false, if_false, ih, List.filter_cons,
        decide_True, if_true, List.map_cons, concatAll, String.append_assoc]
    · simp only [nodeTypesLoop, h, ne_eq, not_false_eq_true, if_true, ih, List.filter_cons,
        decide_False]
      rfl

theorem cpp_EmitForwards_eq (os : String) (symtab : List Symbol) :
    cpp_EmitForwards os symtab
      = os ++ forwardsHead
        ++ concatAll ((symtab.filter (fun s => s.kind = Kind.NODE)).map
            (fun s => "class " ++ s.name ++ ";" ++ "\n"))
        ++ "\n" ++ "\n" := by
  simp only [cpp_EmitForwards, forwardsLoop_eq, forwardsHead, String.append_assoc]

theorem cpp_EmitIncludes_eq (os : String) (includes : List String) :
    cpp_EmitIncludes os includes
      = os ++ includesHead ++ concatAll (includes.map (fun l => "#include " ++ l ++ "\n"))
        ++ "\n" ++ "\n" := by
  simp only [cpp_EmitIncludes, includesLoop_eq, includesHead, String.append_assoc]

theorem cpp_EmitNodeTypes_eq (os : String) (nodes : List Node) :
    cpp_EmitNodeTypes os nodes
      = os ++ nodeTypesHead
        ++ concatAll ((nodes.filter (fun n => n.flags &&& ABSTRACT = 0)).map
            (fun n => "\tNODE_TYPE_" ++ n.name.name ++ "," ++ "\n"))
        ++ "\x7d ASTNodeType;" ++ "\n" ++ "\n" := by
  simp only [cpp_EmitNodeTypes, nodeTypesLoop_eq, nodeTypesHead, String.append_assoc]

theorem cpp_EmitDestructor_append (os : String) (n : Node) :
    cpp_EmitDestructor os n = os ++ cpp_EmitDestructor "" n := by
  simp only [cpp_EmitDestructor, String.append_assoc, String.empty_append]

theorem cpp_EmitEmptyFunc_append (os : String) (n : Node) :
    cpp_EmitEmptyFunc os n = os ++ cpp_EmitEmptyFunc "" n := by
  simp only [cpp_EmitEmptyFunc, String.append_assoc, String.empty_append]

theorem cpp_EmitGetType_append (os : String) (n : Node) :
    cpp_EmitGetType os n = os ++ cpp_EmitGetType "" n := by
  simp only [cpp_EmitGetType]
  split <;> simp only [String.append_assoc, String.empty_append]

theorem cpp_EmitGetTypeString_append (os : String) (n : Node) :
    cpp_EmitGetTypeString os n = os ++ cpp_EmitGetTypeString "" n := by
  simp only [cpp_EmitGetTypeString]
  split <;> simp only [String.append_assoc, String.empty_append]

theorem cpp_EmitAttributes_eq (os : String) (l : List Attribute) :
    cpp_EmitAttributes os l
      = os ++ concatAll (l.map (fun a => attrBanner a ++ visLabel a ++ attrMembers a)) := by
  induction l generalizing os with
  | nil => simp [cpp_EmitAttributes, concatAll]
  | cons a t ih =>
    simp only [cpp_EmitAttributes, ih, emitAttribute_eq, List.map_cons, concatAll,
      String.append_assoc]

theorem cpp_EmitAttributes_prepend (os : String) (l : List Attribute) :
    cpp_EmitAttributes os l = os ++ cpp_EmitAttributes "" l := by
  rw [cpp_EmitAttributes_eq os, cpp_EmitAttributes_eq "", String.empty_append]

theorem joinWith_snoc (sep : String) (pre : List String) (x : String) :
    joinWith sep (pre ++ [x]) = if pre.isEmpty then x else joinWith sep pre ++ sep ++ x := by
  induction pre with
  | nil => simp [joinWith]
  | cons a t ih =>
    cases t with
    | nil => simp [joinWith]
    | cons b t2 =>
      have h : joinWith sep (b :: (t2 ++ [x])) = joinWith sep (b :: t2) ++ sep ++ x := by
        simpa using ih
      have e1 : joinWith sep (a :: b :: t2 ++ [x])
          = a ++ sep ++ joinWith sep (b :: (t2 ++ [x])) := rfl
      have e2 : joinWith sep (a :: b :: t2) = a ++ sep ++ joinWith sep (b :: t2) := rfl
      rw [e1, h, e2]
      simp [String.append_assoc]

theorem methParmsLoop_eq (pl : List Parameter) (pre : List String) (os : String) :
    methParmsLoop pl (os ++ joinWith ", " pre, !pre.isEmpty)
      = (os ++ joinWith ", " (pre ++ pl.map methParmText),
          !(pre ++ pl.map methParmText).isEmpty) := by
  induction pl generalizing pre with
  | nil => simp [methParmsLoop]
  | cons p pl ih =>
    have key : (if (os ++ joinWith ", " pre, !pre.isEmpty).2 = true
          then (os ++ joinWith ", " pre, !pre.isEmpty).1 ++ ", "
          else (os ++ joinWith ", " pre, !pre.isEmpty).1)
            ++ p.type.name ++ " " ++ (if p.type.kind = Kind.NODE then "*" else "") ++ p.name
        = os ++ joinWith ", " (pre ++ [methParmText p]) := by
      rw [joinWith_snoc]
      cases pre with
      | nil =>
        simp only [joinWith, methParmText, String.append_assoc, String.append_empty,
          List.isEmpty_nil, Bool.not_true, Bool.false_eq_true, if_false, if_true]
      | cons b t =>
        simp only [methParmText, String.append_assoc, List.isEmpty_cons, Bool.not_false,
          Bool.false_eq_true, if_false, if_true]
    have hb : true = !(pre ++ [methParmText p]).isEmpty := by simp
    simp only [methParmsLoop]
    rw [key, hb, ih (pre ++ [methParmText p])]
    simp

theorem emitMethod_eq (os : String) (m : Method) :
    emitMethod os m
      = os ++ methodBanner m ++ methodVisLabel m
        ++ (if m.flags &&& STATIC ≠ 0 then "\tstatic " else "\tvirtual ")
        ++ methodSignature m
        ++ (if m.flags &&& ABSTRACT ≠ 0 then " = 0;" ++ "\n" ++ "\n"
            else if m.flags &&& EXTERNAL ≠ 0 then ";" ++ "\n" ++ "\n"
            else " " ++ m.code ++ "\n" ++ "\n") := by
  have hp : ∀ os3 : String, (methParmsLoop m.parms (os3, false)).1
      = os3 ++ joinWith ", " (m.parms.map methParmText) := by
    intro os3
    have h := methParmsLoop_eq m.parms [] os3
    simp only [joinWith, String.append_empty, List.isEmpty_nil, Bool.not_true,
      List.nil_append] at h
    rw [h]
  unfold emitMethod methodBanner methodVisLabel methodSignature
  simp only [hp]
  split_ifs <;> simp only [String.append_assoc]

theorem cpp_EmitMethods_eq (os : String) (ml : List Method) :
    cpp_EmitMethods os ml = os ++ concatAll (ml.map (fun m => emitMethod "" m)) := by
  induction ml generalizing os with
  | nil => simp [cpp_EmitMethods, concatAll]
  | cons m ml ih =>
    have h : emitMethod os m = os ++ emitMethod "" m := by
      rw [emitMethod_eq os, emitMethod_eq ""]
      simp only [String.append_assoc, String.empty_append]
    simp only [cpp_EmitMethods, ih, List.map_cons, concatAll, h, String.append_assoc]

theorem cpp_EmitMethods_prepend (os : String) (ml : List Method) :
    cpp_EmitMethods os ml = os ++ cpp_EmitMethods "" ml := by
  rw [cpp_EmitMethods_eq os, cpp_EmitMethods_eq "", String.empty_append]

/-! ## The claims on the enumeration, the forward declarations and the methods -/

/-- C21: `cpp_EmitNodeTypes` writes, between the opening of the enumeration
and its closing, exactly one tag `NODE_TYPE_<name>` for each node lacking the
ABSTRACT flag, in node declaration order, and no tag for an abstract node. -/
theorem cpp_EmitNodeTypes_tags (os : String) (nodes : List Node) :
    cpp_EmitNodeTypes os nodes
      = os ++ nodeTypesHead
        ++ concatAll ((nodes.filter (fun n => n.flags &&& ABSTRACT = 0)).map
            (fun n => "\tNODE_TYPE_" ++ n.name.name ++ "," ++ "\n"))
        ++ "\x7d ASTNodeType;" ++ "\n" ++ "\n" :=
  cpp_EmitNodeTypes_eq os nodes

/-- C26: `cpp_EmitForwards` writes exactly one line `class <name>;` for each
symbol of kind NODE, in the order of the symbol table, and no line for a
symbol of kind TYPE. -/
theorem cpp_EmitForwards_lines (os : String) (symtab : List Symbol) :
    cpp_EmitForwards os symtab
      = os ++ forwardsHead
        ++ concatAll ((symtab.filter (fun s => s.kind = Kind.NODE)).map
            (fun s => "class " ++ s.name ++ ";" ++ "\n"))
        ++ "\n" ++ "\n" :=
  cpp_EmitForwards_eq os symtab

/-- C24: for every method m, `cpp_EmitMethods` writes after the signature
` = 0;` if m has ABSTRACT, otherwise `;` if m has EXTERNAL, otherwise the code
text of the method as it is; the signature is prefixed with `static` if m has
STATIC and with `virtual` otherwise. -/
theorem cpp_EmitMethods_forms (os : String) (ml : List Method) :
    cpp_EmitMethods os ml
      = os ++ concatAll (ml.map (fun m =>
          methodBanner m ++ methodVisLabel m
            ++ (if m.flags &&& STATIC ≠ 0 then "\tstatic " else "\tvirtual ")
            ++ methodSignature m
            ++ (if m.flags &&& ABSTRACT ≠ 0 then " = 0;" ++ "\n" ++ "\n"
                else if m.flags &&& EXTERNAL ≠ 0 then ";" ++ "\n" ++ "\n"
                else " " ++ m.code ++ "\n" ++ "\n"))) := by
  rw [cpp_EmitMethods_eq]
  congr 2
  apply List.map_congr_left
  intro m _
  rw [emitMethod_eq]
  simp only [String.append_assoc, String.empty_append]

/-! ## The members of a class -/

theorem cpp_EmitFactoryFunc_abstract (nodes : List Node) (fuel : Nat) (os : String) (p : Nat)
    (n : Node) (hn : nodes[p]? = some n) (habs : n.flags &&& ABSTRACT ≠ 0) :
    cpp_EmitFactoryFunc nodes fuel os p = some os := by
  simp only [cpp_EmitFactoryFunc, hn]
  rw [if_pos habs]

theorem cpp_EmitFactoryFunc_chain (nodes : List Node) (p : Nat) (pchain : List Node)
    (n : Node) (fuel : Nat) (os : String)
    (hchain : AncestorChain nodes p (pchain ++ [n])) (hfuel : pchain.length + 1 ≤ fuel) :
    cpp_EmitFactoryFunc nodes fuel os p = some (os ++ factoryText pchain n) := by
  have hp := (ancestorChain_snoc nodes p pchain n).mp hchain
  by_cases habs : n.flags &&& ABSTRACT = 0
  · have hf : pchain.reverse.length + 1 ≤ fuel := by simpa using hfuel
    have h := cpp_EmitFactoryFunc_path nodes n pchain.reverse p fuel os hp hf habs
    rw [List.reverse_reverse] at h
    rw [h]
    simp only [factoryText, habs, ne_eq, not_true_eq_false, if_false, String.append_assoc]
  · rw [cpp_EmitFactoryFunc_abstract nodes fuel os p n hp.1 habs]
    simp only [factoryText, habs, ne_eq, not_false_eq_true, if_true, String.append_empty]

theorem cpp_EmitConstructor_chain (nodes : List Node) (p : Nat) (pchain : List Node)
    (n : Node) (fuel : Nat) (os : String)
    (hchain : AncestorChain nodes p (pchain ++ [n])) (hfuel : pchain.length + 1 ≤ fuel) :
    cpp_EmitConstructor nodes fuel os p = some (os ++ ctorText pchain n) := by
  have hp := (ancestorChain_snoc nodes p pchain n).mp hchain
  have hf : pchain.reverse.length + 1 ≤ fuel := by simpa using hfuel
  have h := cpp_EmitConstructor_path nodes n pchain.reverse p fuel os hp hf
  rw [List.reverse_reverse] at h
  rw [h]
  simp only [ctorText, String.append_assoc]

theorem cpp_EmitNodeContents_chain (nodes : List Node) (p : Nat) (pchain : List Node)
    (n : Node) (fuel : Nat) (os : String)
    (hchain : AncestorChain nodes p (pchain ++ [n])) (hfuel : pchain.length + 1 ≤ fuel) :
    cpp_EmitNodeContents nodes fuel os p = some (os ++ contentsText pchain n) := by
  have hp := (ancestorChain_snoc nodes p pchain n).mp hchain
  have hn : nodes[p]? = some n := hp.1
  have hc := fun os1 => cpp_EmitConstructor_chain nodes p pchain n fuel os1 hchain hfuel
  have hfac := fun os1 => cpp_EmitFactoryFunc_chain nodes p pchain n fuel os1 hchain hfuel
  simp only [cpp_EmitNodeContents, hn, hc, hfac]
  rw [cpp_EmitGetTypeString_append, cpp_EmitGetType_append, cpp_EmitEmptyFunc_append,
    cpp_EmitMethods_prepend, cpp_EmitAttributes_prepend, cpp_EmitDestructor_append]
  simp only [contentsText, String.append_assoc]

theorem factoryHead_ne_empty (n : Node) (rest : String) : factoryHead n ++ rest ≠ "" := by
  intro h
  have h1 := congrArg String.length h
  have h0 : "".length = 0 := rfl
  have h3 : "\t//".length = 3 := by decide
  simp only [factoryHead, String.append_assoc, String.length_append, h0, h3] at h1
  omega

theorem chainInitAttrs_eq_nil_iff (chain : List Node) :
    chainInitAttrs chain = [] ↔ ∀ k ∈ chain, ∀ a ∈ k.attrs, a.flags &&& NOINIT ≠ 0 := by
  simp only [chainInitAttrs, List.flatten_eq_nil_iff, List.mem_map, ownInitAttrs]
  constructor
  · intro h k hk a ha hz
    have h1 := h _ ⟨k, hk, rfl⟩
    have h2 : a ∈ List.filter (fun a => decide (a.flags &&& NOINIT = 0)) k.attrs := by
      simp [List.mem_filter, ha, hz]
    rw [h1] at h2
    simp at h2
  · rintro h l ⟨k, hk, rfl⟩
    apply List.filter_eq_nil_iff.mpr
    intro a ha
    simpa using h k hk a ha

/-- C22: in the class of a node the members are written in the order
constructor, destructor, attributes, methods, `Empty`, Factory function,
`_GetType`, `_GetTypeString`.  The Factory function is written if and only if
the node lacks the ABSTRACT flag, the constructor is written for every node,
and the two accessors of an abstract node end in ` = 0;`. -/
theorem class_members_by_abstract (nodes : List Node) (p : Nat) (pchain : List Node)
    (n : Node) (fuel : Nat) (os : String)
    (hchain : AncestorChain nodes p (pchain ++ [n])) (hfuel : pchain.length + 1 ≤ fuel) :
    cpp_EmitNodeContents nodes fuel os p
        = some (os ++ ctorText pchain n ++ cpp_EmitDestructor "" n
            ++ cpp_EmitAttributes "" n.attrs ++ cpp_EmitMethods "" n.methods
            ++ cpp_EmitEmptyFunc "" n ++ factoryText pchain n
            ++ cpp_EmitGetType "" n ++ cpp_EmitGetTypeString "" n)
    ∧ cpp_EmitConstructor nodes fuel os p
        = some (os ++ ctorHead n ++ formalsText (chainInitAttrs (pchain ++ [n])) ++ ")"
            ++ ctorInitText pchain n ++ " \x7b \x7d" ++ "\n" ++ "\n")
    ∧ cpp_EmitFactoryFunc nodes fuel os p = some (os ++ factoryText pchain n)
    ∧ (factoryText pchain n = "" ↔ n.flags &&& ABSTRACT ≠ 0)
    ∧ (n.flags &&& ABSTRACT = 0 →
        factoryText pchain n
          = factoryHead n ++ formalsText (chainInitAttrs (pchain ++ [n])) ++ ")"
            ++ " \x7b return new " ++ n.name.name ++ "("
            ++ joinSep ((chainInitAttrs (pchain ++ [n])).map argText)
            ++ "); \x7d" ++ "\n" ++ "\n")
    ∧ (n.flags &&& ABSTRACT ≠ 0 →
        cpp_EmitGetType os n
          = os ++ "\t//" ++ "\n"
            ++ "\t// -- The " ++ n.name.name ++ " get node type function" ++ "\n"
            ++ "\t//---------------------------------------------------------------------------------"
            ++ "\n"
            ++ "public:" ++ "\n"
            ++ "\tvirtual ASTNodeType _GetType(void) const " ++ " = 0;" ++ "\n" ++ "\n"
        ∧ cpp_EmitGetTypeString os n
          = os ++ "\t//" ++ "\n"
            ++ "\t// -- The " ++ n.name.name ++ " get node type as string function" ++ "\n"
            ++ "\t//---------------------------------------------------------------------------------"
            ++ "\n"
            ++ "public:" ++ "\n"
            ++ "\tvirtual const char *_GetTypeString(void) const " ++ " = 0;" ++ "\n" ++ "\n") := by
  have hcont := cpp_EmitNodeContents_chain nodes p pchain n fuel os hchain hfuel
  have hctor := cpp_EmitConstructor_chain nodes p pchain n fuel os hchain hfuel
  have hfac := cpp_EmitFactoryFunc_chain nodes p pchain n fuel os hchain hfuel
  refine ⟨?_, ?_, hfac, ?_, ?_, ?_⟩
  · rw [hcont]
    simp only [contentsText, String.append_assoc]
  · rw [hctor]
    simp only [ctorText, String.append_assoc]
  · constructor
    · intro h habs
      simp only [factoryText, habs, ne_eq, not_true_eq_false, if_false,
        String.append_assoc] at h
      exact factoryHead_ne_empty n _ h
    · intro habs
      simp only [factoryText]
      rw [if_pos habs]
  · intro habs
    simp only [factoryText, habs, ne_eq, not_true_eq_false, if_false]
  · intro habs
    simp only [cpp_EmitGetType, cpp_EmitGetTypeString]
    rw [if_pos habs, if_pos habs]
    exact ⟨rfl, rfl⟩

theorem class_members_by_abstract_witness :
    AncestorChain leafNodes 0 ([] ++ [commonNode]) ∧ commonNode.flags &&& ABSTRACT ≠ 0
    ∧ cpp_EmitFactoryFunc leafNodes 1 "" 0 = some ("" ++ factoryText [] commonNode)
    ∧ (factoryText [] commonNode = "" ↔ commonNode.flags &&& ABSTRACT ≠ 0)
    ∧ cpp_EmitConstructor leafNodes 1 "" 0
        = some ("" ++ ctorHead commonNode
            ++ formalsText (chainInitAttrs ([] ++ [commonNode])) ++ ")"
            ++ ctorInitText [] commonNode ++ " \x7b \x7d" ++ "\n" ++ "\n") :=
  ⟨⟨rfl, trivial⟩, by decide,
    (class_members_by_abstract leafNodes 0 [] commonNode 1 "" ⟨rfl, trivial⟩ (by decide)).2.2.1,
    (class_members_by_abstract leafNodes 0 [] commonNode 1 "" ⟨rfl, trivial⟩ (by decide)).2.2.2.1,
    (class_members_by_abstract leafNodes 0 [] commonNode 1 "" ⟨rfl, trivial⟩ (by decide)).2.1⟩

/-- C23: `cpp_EmitConstructorParms` returns false if and only if the
`GetParmCount` of N is 0, that is if and only if no attribute on the ancestor
chain of N lacks NOINIT; the constructor is then still written, and it and
the Factory function are declared with the parameter list `void`. -/
theorem ctor_void_iff (nodes : List Node) (p : Nat) (pchain : List Node) (n : Node)
    (fuel : Nat) (os : String)
    (hchain : AncestorChain nodes p (pchain ++ [n])) (hfuel : pchain.length + 1 ≤ fuel) :
    ((cpp_EmitConstructorParms nodes fuel os (some p)).map Prod.snd = some false
        ↔ GetParmCount nodes fuel p = some 0)
    ∧ (GetParmCount nodes fuel p = some 0
        ↔ ∀ k ∈ pchain ++ [n], ∀ a ∈ k.attrs, a.flags &&& NOINIT ≠ 0)
    ∧ (GetParmCount nodes fuel p = some 0 →
        cpp_EmitConstructor nodes fuel os p
            = some (os ++ ctorHead n ++ "void" ++ ")" ++ ctorInitText pchain n
                ++ " \x7b \x7d" ++ "\n" ++ "\n")
        ∧ (n.flags &&& ABSTRACT = 0 →
            cpp_EmitFactoryFunc nodes fuel os p
              = some (os ++ factoryHead n ++ "void" ++ ")"
                  ++ " \x7b return new " ++ n.name.name ++ "(" ++ "); \x7d" ++ "\n" ++ "\n"))) := by
  have hf : (pchain ++ [n]).reverse.length ≤ fuel := by simpa using hfuel
  have hparms := cpp_EmitConstructorParms_path nodes (pchain ++ [n]).reverse (some p) fuel os
    hchain hf
  have hcnt := GetParmCount_path nodes (pchain ++ [n]).reverse p fuel hchain hf
  rw [List.reverse_reverse] at hparms hcnt
  have hzero : GetParmCount nodes fuel p = some 0 ↔ chainInitAttrs (pchain ++ [n]) = [] := by
    rw [hcnt]
    simp only [Option.some.injEq, List.length_eq_zero]
  refine ⟨?_, ?_, ?_⟩
  · rw [hzero, hparms]
    simp only [Option.map_some', Option.some.injEq, Bool.not_eq_false', List.isEmpty_iff]
  · rw [hzero]
    exact chainInitAttrs_eq_nil_iff _
  · intro h0
    have hnil := hzero.mp h0
    have hctor := cpp_EmitConstructor_chain nodes p pchain n fuel os hchain hfuel
    have hfac := cpp_EmitFactoryFunc_chain nodes p pchain n fuel os hchain hfuel
    refine ⟨?_, fun habs => ?_⟩
    · rw [hctor]
      simp only [ctorText, hnil, formalsText, if_true, String.append_assoc]
    · rw [hfac]
      simp only [factoryText, habs, ne_eq, not_true_eq_false, if_false, hnil, formalsText,
        if_true, List.map_nil, joinSep, String.append_assoc, String.empty_append]

theorem ctor_void_iff_witness :
    AncestorChain leafNodes 0 ([] ++ [commonNode])
    ∧ ((cpp_EmitConstructorParms leafNodes 1 "" (some 0)).map Prod.snd = some false
        ↔ GetParmCount leafNodes 1 0 = some 0)
    ∧ GetParmCount leafNodes 1 0 = some 0 :=
  ⟨⟨rfl, trivial⟩, (ctor_void_iff leafNodes 0 [] commonNode 1 "" ⟨rfl, trivial⟩ (by decide)).1,
    by decide⟩

/-- C30 as stated fails: the node `B` (parent `A` with the attribute `x`, own
attribute `y` flagged NOINIT) has `GetAttrCount` 2, while the contribution of
its parent chain plus the number of its own attributes lacking NOINIT is
1 + 0, which is its `GetParmCount`. -/
theorem GetAttrCount_counts_noinit :
    GetAttrCount abNodes 2 1 = some 2
    ∧ GetParmCount abNodes 2 1 = some 1
    ∧ GetParmCount abNodes 2 0 = some 1
    ∧ (ownInitAttrs bNode).length = 0
    ∧ GetAttrCount abNodes 2 1
        ≠ (GetParmCount abNodes 2 0).map (fun c => c + (ownInitAttrs bNode).length) := by
  decide

/-- C30, amended: `GetAttrCount` of N is the contribution of the parent chain
of N (the `GetParmCount` of the parent, 0 for a root) plus the number of all
own attributes of N, flagged NOINIT or not; it exceeds `GetParmCount` of N,
the count of the attributes requiring initialization, by the number of own
attributes flagged NOINIT. -/
theorem GetAttrCount_all_own (nodes : List Node) (p : Nat) (pchain : List Node) (n : Node)
    (fuel : Nat)
    (hchain : AncestorChain nodes p (pchain ++ [n])) (hfuel : pchain.length + 1 ≤ fuel) :
    GetAttrCount nodes fuel p = some ((chainInitAttrs pchain).length + n.attrs.length)
    ∧ GetParmCount nodes fuel p
        = some ((chainInitAttrs pchain).length + (ownInitAttrs n).length)
    ∧ n.attrs.length
        = (ownInitAttrs n).length + (n.attrs.filter (fun a => a.flags &&& NOINIT ≠ 0)).length
    ∧ (match n.parent with
        | none => (chainInitAttrs pchain).length = 0
        | some q => GetParmCount nodes fuel q = some (chainInitAttrs pchain).length) := by
  have hp := (ancestorChain_snoc nodes p pchain n).mp hchain
  have hf : (n :: pchain.reverse).length ≤ fuel := by simpa using hfuel
  have hf2 : pchain.reverse.length ≤ fuel := by
    simp only [List.length_reverse]; omega
  have hattr := GetAttrCount_path nodes n pchain.reverse p fuel hp hf2
  have hcnt := GetParmCount_path nodes (n :: pchain.reverse) p fuel hp hf
  simp only [List.reverse_cons, List.reverse_reverse, chainInitAttrs_snoc,
    List.length_append] at hattr hcnt
  refine ⟨hattr, hcnt, ?_, ?_⟩
  · simp only [ownInitAttrs]
    have h := List.length_eq_length_filter_add (l := n.attrs)
      (fun a => decide (a.flags &&& NOINIT = 0))
    rw [h]
    congr 2
    apply List.filter_congr
    intro a _
    simp
  · have hrest : IsPath nodes n.parent pchain.reverse := hp.2
    cases hpar : n.parent with
    | none =>
      rw [hpar] at hrest
      have h1 : pchain.reverse = [] := (IsPath_none nodes _).mp hrest
      have h2 : pchain = [] := by simpa using h1
      simp [h2, chainInitAttrs]
    | some q =>
      rw [hpar] at hrest
      have h := GetParmCount_path nodes pchain.reverse q fuel hrest hf2
      rw [List.reverse_reverse] at h
      exact h

theorem GetAttrCount_all_own_witness :
    AncestorChain abNodes 1 ([aNode] ++ [bNode])
    ∧ GetAttrCount abNodes 2 1 = some ((chainInitAttrs [aNode]).length + bNode.attrs.length)
    ∧ GetParmCount abNodes 2 1
        = some ((chainInitAttrs [aNode]).length + (ownInitAttrs bNode).length) :=
  ⟨⟨rfl, rfl, trivial⟩,
    (GetAttrCount_all_own abNodes 1 [aNode] bNode 2 ⟨rfl, rfl, trivial⟩ (by decide)).1,
    (GetAttrCount_all_own abNodes 1 [aNode] bNode 2 ⟨rfl, rfl, trivial⟩ (by decide)).2.1⟩

/-! ## The classes and the whole output -/

theorem emitClass_chain (nodes : List Node) (p : Nat) (pchain : List Node) (n : Node)
    (fuel : Nat) (os : String)
    (hchain : AncestorChain nodes p (pchain ++ [n])) (hfuel : pchain.length + 1 ≤ fuel) :
    emitClass nodes fuel os p n = some (os ++ classText pchain n) := by
  have hp := (ancestorChain_snoc nodes p pchain n).mp hchain
  have hrest : IsPath nodes n.parent pchain.reverse := hp.2
  have hcont := fun os1 => cpp_EmitNodeContents_chain nodes p pchain n fuel os1 hchain hfuel
  cases hpn : n.parent with
  | none =>
    rw [hpn] at hrest
    have h1 : pchain.reverse = [] := (IsPath_none nodes _).mp hrest
    have h2 : pchain = [] := by simpa using h1
    simp only [emitClass, hpn, hcont, classText, h2, List.getLast?_nil, String.append_assoc,
      String.empty_append]
  | some q =>
    rw [hpn] at hrest
    cases hrev : pchain.reverse with
    | nil => rw [hrev] at hrest; exact absurd hrest (by simp [IsPath])
    | cons par rest =>
      rw [hrev] at hrest
      have hq : nodes[q]? = some par := hrest.1
      have hl : pchain.getLast? = some par := by
        rw [List.getLast?_eq_head?_reverse, hrev]; rfl
      simp only [emitClass, hpn, hq, hcont, classText, hl, String.append_assoc]

theorem nodesLoop_chain (nodes : List Node) (fuel : Nat) (chainOf : Nat → List Node)
    (rest : List Node) (p : Nat) (os : String)
    (hchains : ∀ j n, rest[j]? = some n →
      AncestorChain nodes (p + j) (chainOf (p + j) ++ [n])
        ∧ (chainOf (p + j)).length + 1 ≤ fuel) :
    nodesLoop nodes fuel rest p os
      = some (os ++ concatAll ((rest.enumFrom p).map (fun x => classText (chainOf x.1) x.2))) := by
  induction rest generalizing p os with
  | nil => simp [nodesLoop, concatAll]
  | cons n rest ih =>
    have h0 := hchains 0 n (by simp)
    simp only [Nat.add_zero] at h0
    have hstep : ∀ j k, rest[j]? = some k →
        AncestorChain nodes (p + 1 + j) (chainOf (p + 1 + j) ++ [k])
          ∧ (chainOf (p + 1 + j)).length + 1 ≤ fuel := by
      intro j k hj
      have h := hchains (j + 1) k (by simpa using hj)
      have e : p + (j + 1) = p + 1 + j := by omega
      rw [e] at h
      exact h
    simp only [nodesLoop, emitClass_chain nodes p (chainOf p) n fuel os h0.1 h0.2,
      ih (p + 1) _ hstep, List.enumFrom_cons, List.map_cons, concatAll, String.append_assoc]

theorem cpp_EmitForwards_append (os : String) (symtab : List Symbol) :
    cpp_EmitForwards os symtab = os ++ cpp_EmitForwards "" symtab := by
  simp only [cpp_EmitForwards_eq, String.append_assoc, String.empty_append]

theorem cpp_EmitNodeTypes_append (os : String) (nodes : List Node) :
    cpp_EmitNodeTypes os nodes = os ++ cpp_EmitNodeTypes "" nodes := by
  simp only [cpp_EmitNodeTypes_eq, String.append_assoc, String.empty_append]

theorem cpp_EmitIncludes_append (os : String) (includes : List String) :
    cpp_EmitIncludes os includes = os ++ cpp_EmitIncludes "" includes := by
  simp only [cpp_EmitIncludes_eq, String.append_assoc, String.empty_append]

theorem cpp_EmitHeader_some (outputFile cf : String) :
    cpp_EmitHeader "" outputFile (some cf) = (headerText outputFile cf, true) := by
  simp only [cpp_EmitHeader, headerText, headerStub, String.append_assoc, String.empty_append]

theorem cpp_EmitHeader_none (outputFile : String) :
    cpp_EmitHeader "" outputFile none = (headerStub outputFile, false) := by
  simp only [cpp_EmitHeader, headerStub, String.append_assoc, String.empty_append]

theorem cpp_EmitNodes_chain (nodes : List Node) (fuel : Nat) (chainOf : Nat → List Node)
    (os : String)
    (hchains : ∀ i n, nodes[i]? = some n →
      AncestorChain nodes i (chainOf i ++ [n]) ∧ (chainOf i).length + 1 ≤ fuel) :
    cpp_EmitNodes nodes fuel os
      = some (os ++ nodesHead
          ++ concatAll (nodes.enum.map (fun x => classText (chainOf x.1) x.2))) := by
  have hloop := nodesLoop_chain nodes fuel chainOf nodes 0
    (os ++ "//-----------------------------------------------------------------------------------------------" ++ "\n"
      ++ "// now to emit each of the nodes in turn" ++ "\n"
      ++ "//-----------------------------------------------------------------------------------------------" ++ "\n"
      ++ "\n" ++ "\n")
    (by intro j n hj; simpa using hchains j n hj)
  simp only [cpp_EmitNodes, hloop, List.enum]
  simp only [nodesHead, String.append_assoc]

theorem cpp_Emit_chain (m : Model) (outputFile curr_file : String) (fuel : Nat)
    (chainOf : Nat → List Node)
    (hchains : ∀ i n, m.nodes[i]? = some n →
      AncestorChain m.nodes i (chainOf i ++ [n]) ∧ (chainOf i).length + 1 ≤ fuel) :
    cpp_Emit m outputFile (some curr_file) fuel
      = some (headerText outputFile curr_file
          ++ cpp_EmitForwards "" m.symtab
          ++ cpp_EmitNodeTypes "" m.nodes
          ++ cpp_EmitIncludes "" m.includes
          ++ nodesHead
          ++ concatAll (m.nodes.enum.map (fun x => classText (chainOf x.1) x.2))
          ++ m.endingCode) := by
  unfold cpp_Emit
  rw [cpp_EmitHeader_some]
  simp only [cpp_EmitNodes_chain m.nodes fuel chainOf _ hchains, if_true]
  rw [cpp_EmitIncludes_append, cpp_EmitNodeTypes_append, cpp_EmitForwards_append]

/-- With no source file opened the output is the header up to the place of
the name of the source file. -/
theorem cpp_Emit_null (m : Model) (outputFile : String) (fuel : Nat)
    (chainOf : Nat → List Node)
    (hchains : ∀ i n, m.nodes[i]? = some n →
      AncestorChain m.nodes i (chainOf i ++ [n]) ∧ (chainOf i).length + 1 ≤ fuel) :
    cpp_Emit m outputFile none fuel = some (headerStub outputFile) := by
  unfold cpp_Emit
  rw [cpp_EmitHeader_none]
  simp only [cpp_EmitNodes_chain m.nodes fuel chainOf _ hchains]
  rfl

/-- With a source file opened, `cpp_Emit` writes the header comment, the
forward declarations, the enumeration of the node types, the includes, the
class of every node in node order, then the ending code. -/
theorem cpp_Emit_sections (m : Model) (outputFile curr_file : String) (fuel : Nat)
    (chainOf : Nat → List Node)
    (hchains : ∀ i n, m.nodes[i]? = some n →
      AncestorChain m.nodes i (chainOf i ++ [n]) ∧ (chainOf i).length + 1 ≤ fuel) :
    cpp_Emit m outputFile (some curr_file) fuel
      = some (headerText outputFile curr_file
          ++ (forwardsHead
              ++ concatAll ((m.symtab.filter (fun s => s.kind = Kind.NODE)).map
                  (fun s => "class " ++ s.name ++ ";" ++ "\n"))
              ++ "\n" ++ "\n")
          ++ (nodeTypesHead
              ++ concatAll ((m.nodes.filter (fun n => n.flags &&& ABSTRACT = 0)).map
                  (fun n => "\tNODE_TYPE_" ++ n.name.name ++ "," ++ "\n"))
              ++ "\x7d ASTNodeType;" ++ "\n" ++ "\n")
          ++ (includesHead ++ concatAll (m.includes.map (fun l => "#include " ++ l ++ "\n"))
              ++ "\n" ++ "\n")
          ++ nodesHead
          ++ concatAll (m.nodes.enum.map (fun x => classText (chainOf x.1) x.2))
          ++ m.endingCode) := by
  rw [cpp_Emit_chain m outputFile curr_file fuel chainOf hchains, cpp_EmitIncludes_eq,
    cpp_EmitNodeTypes_eq, cpp_EmitForwards_eq]
  simp only [String.append_assoc, String.empty_append]

set_option maxRecDepth 100000 in
/-- C25 fails when no source file has been opened.  Run without a file,
`main` leaves `curr_file` null, `Semant` accepts the model `main` starts with,
and `cpp_Emit` is called: the output file holds the 249 characters of the
header up to the place of the name of the source file, and no forward
declaration, enumeration, include, class or ending code. -/
theorem cpp_Emit_null_source_file :
    parseArguments (fun _ => 1) (fun _ => 0) ["ast-cc"] = some argStart
    ∧ argStart.curr_file = none
    ∧ (Semant startModel).rv = true
    ∧ mainAfterParse 0 startModel argStart.outputFile argStart.curr_file 1
        = some { exit := 0,
                 emitted := some ("//===============================================================================================" ++ "\n"
                    ++ "//" ++ "\n"
                    ++ "// ast-nodes.hh -- The defined nodes for the Abstract Syntax Tree" ++ "\n"
                    ++ "//" ++ "\n"
                    ++ "// This file is automatically generated using `ast-cc` against the source file ") }
    ∧ (headerStub argStart.outputFile).length = 249 := by
  refine ⟨?_, ?_, ?_, ?_, ?_⟩ <;> decide

theorem leafNodes_chains (i : Nat) (n : Node) (h : leafNodes[i]? = some n) :
    AncestorChain leafNodes i ((if i = 0 then [] else [commonNode]) ++ [n])
      ∧ (if i = 0 then [] else [commonNode]).length + 1 ≤ 2 := by
  match i, h with
  | 0, h =>
    have e : n = commonNode := by simpa [leafNodes] using h.symm
    subst e
    exact ⟨⟨rfl, trivial⟩, by decide⟩
  | 1, h =>
    have e : n = leafNode := by simpa [leafNodes] using h.symm
    subst e
    exact ⟨⟨rfl, rfl, trivial⟩, by decide⟩
  | k + 2, h => simp [leafNodes] at h

/-- C27: after the parse loop `main` calls `cpp_Emit` and returns 0 if and
only if `parse_error` is 0 and `Semant` returns true; otherwise it returns a
non-zero exit code and nothing is emitted. -/
theorem main_emits_iff (parse_error : Int) (m : Model) (outputFile : String)
    (curr_file : Option String) (fuel : Nat) (chainOf : Nat → List Node)
    (hchains : parse_error = 0 → (Semant m).rv = true →
      ∀ i n, (Semant m).model.nodes[i]? = some n →
        AncestorChain (Semant m).model.nodes i (chainOf i ++ [n])
          ∧ (chainOf i).length + 1 ≤ fuel) :
    ∃ r, mainAfterParse parse_error m outputFile curr_file fuel = some r
      ∧ (r.exit = 0 ↔ parse_error = 0 ∧ (Semant m).rv = true)
      ∧ (r.emitted.isSome ↔ parse_error = 0 ∧ (Semant m).rv = true)
      ∧ (parse_error = 0 ∧ (Semant m).rv = true →
          r.exit = 0 ∧ r.emitted = cpp_Emit (Semant m).model outputFile curr_file fuel)
      ∧ (¬ (parse_error = 0 ∧ (Semant m).rv = true) → r.exit ≠ 0 ∧ r.emitted = none) := by
  by_cases hpe : parse_error = 0
  · cases hrv : (Semant m).rv with
    | false =>
      refine ⟨{ exit := 1, emitted := none }, ?_, ?_, ?_, ?_, ?_⟩
      · simp [mainAfterParse, hpe, hrv]
      · simp
      · simp
      · simp
      · simp
    | true =>
      have hem : ∃ out, cpp_Emit (Semant m).model outputFile curr_file fuel = some out := by
        cases curr_file with
        | none => exact ⟨_, cpp_Emit_null _ outputFile fuel chainOf (hchains hpe hrv)⟩
        | some cf => exact ⟨_, cpp_Emit_chain _ outputFile cf fuel chainOf (hchains hpe hrv)⟩
      obtain ⟨out, hem⟩ := hem
      refine ⟨{ exit := 0, emitted := cpp_Emit (Semant m).model outputFile curr_file fuel },
        ?_, ?_, ?_, ?_, ?_⟩
      · simp only [mainAfterParse, hpe, hrv, hem]
        simp
      · simp [hpe]
      · simp [hpe, hem]
      · simp
      · simp [hpe]
  · refine ⟨{ exit := 1, emitted := none }, ?_, ?_, ?_, ?_, ?_⟩
    · simp [mainAfterParse, hpe]
    · simp [hpe]
    · simp [hpe]
    · simp [hpe]
    · simp

theorem main_emits_iff_witness :
    (Semant leafModel).rv = true
    ∧ ∃ r, mainAfterParse 0 leafModel "ast-nodes.hh" (some "leaf.ast") 2 = some r
      ∧ (r.exit = 0 ↔ (0 : Int) = 0 ∧ (Semant leafModel).rv = true)
      ∧ (r.emitted.isSome ↔ (0 : Int) = 0 ∧ (Semant leafModel).rv = true)
      ∧ ((0 : Int) = 0 ∧ (Semant leafModel).rv = true →
          r.exit = 0
          ∧ r.emitted = cpp_Emit (Semant leafModel).model "ast-nodes.hh" (some "leaf.ast") 2)
      ∧ (¬ ((0 : Int) = 0 ∧ (Semant leafModel).rv = true) → r.exit ≠ 0 ∧ r.emitted = none) :=
  ⟨by decide,
    main_emits_iff 0 leafModel "ast-nodes.hh" (some "leaf.ast") 2
      (fun i => if i = 0 then [] else [commonNode])
      (fun _ _ i n h => by
        have hn : (Semant leafModel).model.nodes
            = [commonNode, { leafNode with attrs := [countAttr.Set_Flag PROTECTED] }] := by
          decide
        rw [hn] at h ⊢
        match i, h with
        | 0, h =>
          have e : n = commonNode := by simpa using h.symm
          subst e
          exact ⟨⟨rfl, trivial⟩, by decide⟩
        | 1, h =>
          have e : n = { leafNode with attrs := [countAttr.Set_Flag PROTECTED] } := by
            simpa using h.symm
          subst e
          exact ⟨⟨rfl, rfl, trivial⟩, by decide⟩
        | k + 2, h => simp at h)⟩

/-! ## The first variant: resolving the parents -/

namespace Legacy

theorem FindNodeByName_cons (c : Node) (prev : List Node) (s : String) :
    FindNodeByName (c :: prev) (some s)
      = if c.name = s then some prev.length else FindNodeByName prev (some s) := by
  cases prev with
  | nil => simp [FindNodeByName]
  | cons d prev2 => simp [FindNodeByName]

theorem FindNodeByName_names (l1 l2 : List Node) (o : Option String)
    (h : l1.map Node.name = l2.map Node.name) :
    FindNodeByName l1 o = FindNodeByName l2 o := by
  cases o with
  | none => cases l1 <;> cases l2 <;> rfl
  | some s =>
    induction l1 generalizing l2 with
    | nil =>
      cases l2 with
      | nil => rfl
      | cons d l2 => simp at h
    | cons c l1 ih =>
      cases l2 with
      | nil => simp at h
      | cons d l2 =>
        simp only [List.map_cons, List.cons.injEq] at h
        have hlen : l1.length = l2.length := by
          have := congrArg List.length h.2
          simpa using this
        rw [FindNodeByName_cons, FindNodeByName_cons, ih l2 h.2, h.1, hlen]

theorem BuildParents_names (l : List Node) :
    (BuildParents l).map Node.name = l.map Node.name := by
  induction l with
  | nil => rfl
  | cons c prev ih => simp [BuildParents, ih]

theorem BuildParents_length (l : List Node) : (BuildParents l).length = l.length := by
  have := congrArg List.length (BuildParents_names l)
  simpa using this

theorem BuildParents_cons (c : Node) (prev : List Node) :
    BuildParents (c :: prev)
      = { c with parent := FindNodeByName (c :: prev) c.inherits } :: BuildParents prev := by
  have h : FindNodeByName (c :: BuildParents prev) c.inherits
      = FindNodeByName (c :: prev) c.inherits :=
    FindNodeByName_names _ _ _ (by simp [BuildParents_names])
  simp only [BuildParents, h]

theorem deref_lt (l : List Node) (p : Nat) (n : Node) (h : deref l p = some n) :
    p < l.length := by
  induction l with
  | nil => simp [deref] at h
  | cons c prev ih =>
    simp only [deref] at h
    by_cases hp : p = prev.length
    · simp [hp]
    · simp only [hp, if_false] at h
      have := ih h
      simp only [List.length_cons]
      omega

/-- The pointer found is a node of the chain bearing the name. -/
theorem FindNodeByName_some (l : List Node) (s : String) (q : Nat)
    (h : FindNodeByName l (some s) = some q) :
    ∃ nq, deref l q = some nq ∧ nq.name = s := by
  induction l with
  | nil => simp [FindNodeByName] at h
  | cons c prev ih =>
    rw [FindNodeByName_cons] at h
    by_cases hc : c.name = s
    · simp only [hc, if_true, Option.some.injEq] at h
      subst h
      exact ⟨c, by simp [deref], hc⟩
    · simp only [hc, if_false] at h
      obtain ⟨nq, hq, hn⟩ := ih h
      have hlt := deref_lt prev q nq hq
      refine ⟨nq, ?_, hn⟩
      have hne : q ≠ prev.length := by omega
      simp [deref, hne, hq]

/-- No pointer is found exactly when no node of the chain bears the name. -/
theorem FindNodeByName_none (l : List Node) (s : String) :
    FindNodeByName l (some s) = none ↔ ∀ q nq, deref l q = some nq → nq.name ≠ s := by
  induction l with
  | nil => simp [FindNodeByName, deref]
  | cons c prev ih =>
    rw [FindNodeByName_cons]
    by_cases hc : c.name = s
    · simp only [hc, if_true]
      constructor
      · intro h; simp at h
      · intro h
        exact absurd hc (h prev.length c (by simp [deref]))
    · simp only [hc, if_false, ih]
      constructor
      · intro h q nq hq
        simp only [deref] at hq
        by_cases hp : q = prev.length
        · simp only [hp, if_true, Option.some.injEq] at hq
          subst hq
          exact hc
        · simp only [hp, if_false] at hq
          exact h q nq hq
      · intro h q nq hq
        have hlt := deref_lt prev q nq hq
        have hne : q ≠ prev.length := by omega
        exact h q nq (by simp [deref, hne, hq])

/-- The chain as seen from the cell of the node behind `p`: that node and the
nodes declared before it. -/
theorem deref_drop (l : List Node) (p : Nat) (q : Nat) (hq : q ≤ p) (hp : p < l.length) :
    deref (l.drop (l.length - (p + 1))) q = deref l q := by
  induction l with
  | nil => simp at hp
  | cons c prev ih =>
    simp only [List.length_cons] at hp ⊢
    by_cases hpe : p = prev.length
    · subst hpe
      simp
    · have hp2 : p < prev.length := by omega
      have e : prev.length + 1 - (p + 1) = (prev.length - (p + 1)) + 1 := by omega
      rw [e, List.drop_succ_cons, ih hp2]
      have hne : q ≠ prev.length := by omega
      simp [deref, hne]

theorem deref_BuildParents (l : List Node) (p : Nat) :
    deref (BuildParents l) p
      = (deref l p).map (fun n =>
          { n with parent := FindNodeByName (l.drop (l.length - (p + 1))) n.inherits }) := by
  induction l with
  | nil => rfl
  | cons c prev ih =>
    rw [BuildParents_cons]
    simp only [deref, BuildParents_length]
    by_cases hp : p = prev.length
    · subst hp
      simp
    · simp only [hp, if_false, ih]
      cases hd : deref prev p with
      | none => rfl
      | some n =>
        have hlt := deref_lt prev p n hd
        have e : (c :: prev).length - (p + 1) = (prev.length - (p + 1)) + 1 := by
          simp only [List.length_cons]; omega
        rw [e, List.drop_succ_cons]

theorem length_drop_upto (l : List Node) (p : Nat) (hp : p < l.length) :
    (l.drop (l.length - (p + 1))).length = p + 1 := by
  simp only [List.length_drop]; omega

/-- C28 as stated fails: in the chain of `A` (declared first, inherits `B`)
and `B` (declared after it) the node `A` keeps a null parent after
`BuildParents`, although the node `B` of the complete list bears its parent
name. -/
theorem BuildParents_forward_reference :
    (∃ a, deref forwardChain 0 = some a ∧ a.name = "A" ∧ a.inherits = some "B")
    ∧ (∃ b, deref forwardChain 1 = some b ∧ b.name = "B")
    ∧ (deref (BuildParents forwardChain) 0).map Node.parent = some none := by
  refine ⟨⟨_, rfl, rfl, rfl⟩, ⟨_, rfl, rfl⟩, rfl⟩

/-- C28, amended: after `BuildParents`, every node whose declared parent name
is the name of a node declared at or before it (the node itself included) has
its parent set to such a node; a node whose declared parent name is borne only
by nodes declared after it (a forward reference) has a null parent. -/
theorem BuildParents_backward (l : List Node) (p : Nat) (n : Node) (s : String)
    (hn : deref l p = some n) (hs : n.inherits = some s) :
    ∃ par, deref (BuildParents l) p = some { n with parent := par }
      ∧ ((∃ q nq, q ≤ p ∧ deref l q = some nq ∧ nq.name = s) →
          ∃ q nq, par = some q ∧ q ≤ p ∧ deref (BuildParents l) q = some nq ∧ nq.name = s)
      ∧ ((∀ q nq, q ≤ p → deref l q = some nq → nq.name ≠ s) → par = none) := by
  have hp := deref_lt l p n hn
  have hlen := length_drop_upto l p hp
  refine ⟨FindNodeByName (l.drop (l.length - (p + 1))) (some s), ?_, ?_, ?_⟩
  · rw [deref_BuildParents, hn, Option.map_some', hs]
  · rintro ⟨q, nq, hq, hd, hname⟩
    cases hf : FindNodeByName (l.drop (l.length - (p + 1))) (some s) with
    | none =>
      have h := (FindNodeByName_none _ s).mp hf q nq (by rw [deref_drop l p q hq hp]; exact hd)
      exact absurd hname h
    | some r =>
      obtain ⟨nr, hr, hrn⟩ := FindNodeByName_some _ s r hf
      have hrlt := deref_lt _ r nr hr
      rw [hlen] at hrlt
      have hrle : r ≤ p := by omega
      rw [deref_drop l p r hrle hp] at hr
      refine ⟨r, { nr with parent := FindNodeByName (l.drop (l.length - (r + 1))) nr.inherits },
        rfl, hrle, ?_, hrn⟩
      rw [deref_BuildParents, hr, Option.map_some']
  · intro hall
    apply (FindNodeByName_none _ s).mpr
    intro q nq hd
    have hqlt := deref_lt _ q nq hd
    rw [hlen] at hqlt
    have hqle : q ≤ p := by omega
    rw [deref_drop l p q hqle hp] at hd
    exact hall q nq hqle hd

theorem BuildParents_backward_witness :
    deref sampleChain 1 = some idNode ∧ idNode.inherits = some "Expression"
    ∧ ∃ par, deref (BuildParents sampleChain) 1 = some { idNode with parent := par }
      ∧ ((∃ q nq, q ≤ 1 ∧ deref sampleChain q = some nq ∧ nq.name = "Expression") →
          ∃ q nq, par = some q ∧ q ≤ 1 ∧ deref (BuildParents sampleChain) q = some nq
            ∧ nq.name = "Expression")
      ∧ ((∀ q nq, q ≤ 1 → deref sampleChain q = some nq → nq.name ≠ "Expression") →
          par = none) :=
  ⟨rfl, rfl, BuildParents_backward sampleChain 1 idNode "Expression" rfl rfl⟩

end Legacy

/-! ## The first variant: the class of a node -/

namespace Legacy

theorem Feature_EmitAttrsAsFormal_prepend (f : Feature) (os : String) (k : Nat) :
    f.EmitAttrsAsFormal (os, k)
      = (os ++ (f.EmitAttrsAsFormal ("", k)).1, (f.EmitAttrsAsFormal ("", k)).2) := by
  cases f with
  | Attr type name opts dft =>
    simp only [Feature.EmitAttrsAsFormal]
    by_cases h1 : opts &&& OPT_NO_INIT ≠ 0
    · rw [if_pos h1, if_pos h1]; simp
    · rw [if_neg h1, if_neg h1]
      by_cases h2 : k ≠ 0
      · simp only [if_pos h2, String.append_assoc, String.empty_append]
      · simp only [if_neg h2, String.append_assoc, String.empty_append]
  | Factory type => simp [Feature.EmitAttrsAsFormal]
  | Func spec code opts => simp [Feature.EmitAttrsAsFormal]

theorem FeatureList_EmitAttrsAsFormal_prepend (fl : List Feature) (os : String) (k : Nat) :
    FeatureList.EmitAttrsAsFormal fl (os, k)
      = (os ++ (FeatureList.EmitAttrsAsFormal fl ("", k)).1,
          (FeatureList.EmitAttrsAsFormal fl ("", k)).2) := by
  induction fl with
  | nil => simp [FeatureList.EmitAttrsAsFormal]
  | cons f prev ih =>
    simp only [FeatureList.EmitAttrsAsFormal]
    rw [ih, Feature_EmitAttrsAsFormal_prepend]
    conv_rhs => rw [Feature_EmitAttrsAsFormal_prepend]
    simp only [String.append_assoc]

theorem Node_EmitAttrsAsFormal_prepend (l : List Node) (fuel : Nat) (os : String) (p : Nat) :
    Node.EmitAttrsAsFormal l fuel os p
      = (Node.EmitAttrsAsFormal l fuel "" p).map (fun st => (os ++ st.1, st.2)) := by
  induction fuel generalizing p with
  | zero => rfl
  | succ fuel ih =>
    simp only [Node.EmitAttrsAsFormal]
    cases hd : deref l p with
    | none => rfl
    | some node =>
      simp only
      cases hpar : node.parent with
      | none =>
        simp only [Option.map_some']
        rw [FeatureList_EmitAttrsAsFormal_prepend]
      | some q =>
        simp only
        rw [ih q]
        cases hq : Node.EmitAttrsAsFormal l fuel "" q with
        | none => rfl
        | some st =>
          simp only [Option.map_some']
          rw [FeatureList_EmitAttrsAsFormal_prepend]
          conv_rhs => rw [FeatureList_EmitAttrsAsFormal_prepend]
          simp only [String.append_assoc]

/-- With the parent chain finite and enough fuel the walk returns. -/
theorem Node_EmitAttrsAsFormal_returns (l : List Node) (path : List Node) (p : Nat)
    (fuel : Nat) (os : String)
    (hpath : IsPath l (some p) path) (hfuel : path.length ≤ fuel) :
    ∃ st, Node.EmitAttrsAsFormal l fuel os p = some st := by
  induction path generalizing p fuel os with
  | nil => exact absurd hpath (by simp [IsPath])
  | cons n rest ih =>
    obtain ⟨hd, hrest⟩ := hpath
    cases fuel with
    | zero => simp at hfuel
    | succ fuel =>
      simp only [Node.EmitAttrsAsFormal, hd]
      cases hpar : n.parent with
      | none => exact ⟨_, rfl⟩
      | some q =>
        rw [hpar] at hrest
        obtain ⟨st, hst⟩ := ih q fuel os hrest (by simpa using hfuel)
        simp only [hst]
        exact ⟨_, rfl⟩

theorem numberedArgs_prepend (k i : Nat) (os : String) :
    numberedArgs k i os = os ++ numberedArgs k i "" := by
  induction k generalizing i os with
  | zero => simp [numberedArgs]
  | succ k ih =>
    simp only [numberedArgs]
    rw [ih]
    conv_rhs => rw [ih]
    by_cases h : i ≠ 1
    · simp only [if_pos h, String.append_assoc, String.empty_append]
    · simp only [if_neg h, String.append_assoc, String.empty_append]

theorem returnTypeLoop_none (fl : List Feature) (h : ∀ t, Feature.Factory t ∉ fl) :
    returnTypeLoop fl = none := by
  induction fl with
  | nil => rfl
  | cons f prev ih =>
    have hprev : ∀ t, Feature.Factory t ∉ prev := fun t ht => h t (List.mem_cons_of_mem _ ht)
    cases f with
    | Attr type name opts dft => simpa [returnTypeLoop] using ih hprev
    | Factory type => exact absurd (List.mem_cons_self _ _) (h type)
    | Func spec code opts => simpa [returnTypeLoop] using ih hprev

theorem returnTypeLoop_some (pre post : List Feature) (t : String)
    (h : ∀ f ∈ pre, f.IsFactory = false) :
    returnTypeLoop (pre ++ Feature.Factory t :: post) = some t := by
  induction pre with
  | nil => rfl
  | cons f pre ih =>
    have hpre : ∀ g ∈ pre, g.IsFactory = false := fun g hg => h g (List.mem_cons_of_mem _ hg)
    have hf := h f (List.mem_cons_self _ _)
    cases f with
    | Attr type name opts dft => simpa [returnTypeLoop] using ih hpre
    | Factory type => simp [Feature.IsFactory] at hf
    | Func spec code opts => simpa [returnTypeLoop] using ih hpre

theorem numberedArgs_append (k i : Nat) (a b : String) :
    numberedArgs k i (a ++ b) = a ++ numberedArgs k i b := by
  rw [numberedArgs_prepend k i (a ++ b), numberedArgs_prepend k i b, String.append_assoc]

theorem Feature_EmitConstruct_append (f : Feature) (a b : String) (c : Bool) (k : Nat) :
    f.EmitConstruct (a ++ b, c, k)
      = (a ++ (f.EmitConstruct (b, c, k)).1, (f.EmitConstruct (b, c, k)).2) := by
  cases f with
  | Attr type name opts dft =>
    simp only [Feature.EmitConstruct]
    by_cases h1 : opts &&& OPT_NO_INIT ≠ 0
    · rw [if_pos h1, if_pos h1]
      cases c <;> simp [String.append_assoc]
    · rw [if_neg h1, if_neg h1]
      cases c <;> simp [String.append_assoc]
  | Factory type => simp [Feature.EmitConstruct]
  | Func spec code opts => simp [Feature.EmitConstruct]

theorem FeatureList_EmitConstruct_append (fl : List Feature) (a b : String) (c : Bool)
    (k : Nat) :
    FeatureList.EmitConstruct fl (a ++ b, c, k)
      = (a ++ (FeatureList.EmitConstruct fl (b, c, k)).1,
          (FeatureList.EmitConstruct fl (b, c, k)).2) := by
  induction fl with
  | nil => simp [FeatureList.EmitConstruct]
  | cons f prev ih =>
    simp only [FeatureList.EmitConstruct]
    rw [ih, Feature_EmitConstruct_append]

theorem FeatureList_EmitAttrCode_append (fl : List Feature) (a b : String) :
    FeatureList.EmitAttrCode fl (a ++ b) = a ++ FeatureList.EmitAttrCode fl b := by
  induction fl with
  | nil => simp [FeatureList.EmitAttrCode]
  | cons f prev ih =>
    simp only [FeatureList.EmitAttrCode, ih]
    cases f with
    | Attr type name opts dft => simp only [Feature.EmitAttrCode, String.append_assoc]
    | Factory type => rfl
    | Func spec code opts => rfl

theorem FeatureList_EmitAttrInline_append (fl : List Feature) (a b : String) :
    FeatureList.EmitAttrInline fl (a ++ b) = a ++ FeatureList.EmitAttrInline fl b := by
  induction fl with
  | nil => simp [FeatureList.EmitAttrInline]
  | cons f prev ih =>
    simp only [FeatureList.EmitAttrInline, ih]
    cases f with
    | Attr type name opts dft =>
      simp only [Feature.EmitAttrInline]
      by_cases h : opts &&& OPT_NO_INLINES ≠ 0
      · rw [if_pos h, if_pos h]
      · rw [if_neg h, if_neg h]
        simp only [String.append_assoc]
    | Factory type => rfl
    | Func spec code opts => rfl

theorem FeatureList_EmitMethod_append (fl : List Feature) (a b : String) :
    FeatureList.EmitMethod fl (a ++ b) = a ++ FeatureList.EmitMethod fl b := by
  induction fl with
  | nil => simp [FeatureList.EmitMethod]
  | cons f prev ih =>
    simp only [FeatureList.EmitMethod, ih]
    cases f with
    | Attr type name opts dft => rfl
    | Factory type => rfl
    | Func spec code opts =>
      simp only [Feature.EmitMethod]
      by_cases h1 : opts &&& OPT_VIRTUAL ≠ 0
      · rw [if_pos h1, if_pos h1]
        simp only [String.append_assoc]
      · rw [if_neg h1, if_neg h1]
        by_cases h2 : opts &&& OPT_EXTERNAL ≠ 0
        · rw [if_pos h2, if_pos h2]
          simp only [String.append_assoc]
        · rw [if_neg h2, if_neg h2]
          cases code with
          | none => simp only [String.append_assoc]
          | some c => simp only [String.append_assoc]

/-- The second part of `Node::EmitCode` only appends to the stream. -/
theorem Node_EmitCodeRest_append (node : Node) (parent : Option Node) (vars : Nat)
    (a b : String) :
    (Node.EmitCodeRest node parent vars (a ++ b)).os
      = a ++ (Node.EmitCodeRest node parent vars b).os := by
  cases parent with
  | none =>
    simp only [Node.EmitCodeRest]
    split_ifs <;>
      simp only [String.append_assoc, numberedArgs_append, FeatureList_EmitConstruct_append,
        FeatureList_EmitAttrCode_append, FeatureList_EmitAttrInline_append,
        FeatureList_EmitMethod_append]
  | some pn =>
    simp only [Node.EmitCodeRest]
    split_ifs <;>
      simp only [String.append_assoc, numberedArgs_append, FeatureList_EmitConstruct_append,
        FeatureList_EmitAttrCode_append, FeatureList_EmitAttrInline_append,
        FeatureList_EmitMethod_append]

theorem Node_EmitCode_eq (l : List Node) (p : Nat) (node : Node) (fuel : Nat) (os : String)
    (parent : Option Node) (st0 : String × Nat)
    (hd : deref l p = some node)
    (hst0 : Node.EmitAttrsAsFormal l fuel "" p = some st0)
    (hpar : (node.parent = none ∧ parent = none)
      ∨ ∃ q pn, node.parent = some q ∧ deref l q = some pn ∧ parent = some pn) :
    Node.EmitCode l fuel os p
      = some (Node.EmitCodeRest node parent
          (if node.opt &&& OPT_ABSTRACT ≠ 0 then FeatureList.GetLocalAttrCount node.feats
            else st0.2)
          (os ++ "class " ++ node.name ++ parentClause parent ++ " \x7b" ++ "\n"
            ++ "public:" ++ "\n"
            ++ "    static " ++ node.GetReturnType ++ " *empty(void) \x7b return ("
            ++ node.GetReturnType ++ " *)0; \x7d" ++ "\n"
            ++ (if node.opt &&& OPT_ABSTRACT ≠ 0 then ""
                else "    static " ++ node.GetReturnType ++ " *factory(" ++ st0.1
                  ++ ") \x7b return new " ++ node.name ++ "(" ++ numberedArgs st0.2 1 ""
                  ++ "); \x7d" ++ "\n" ++ "\n")
            ++ "    virtual AstNodeType Get_AstNodeType(void) const \x7b return NODE_"
            ++ node.name ++ "; \x7d" ++ "\n" ++ "\n"
            ++ "protected:" ++ "\n"
            ++ "    explicit " ++ node.name ++ "(" ++ st0.1 ++ ") ")) := by
  have hform : ∀ os1, Node.EmitAttrsAsFormal l fuel os1 p = some (os1 ++ st0.1, st0.2) := by
    intro os1
    rw [Node_EmitAttrsAsFormal_prepend, hst0]
    rfl
  rcases hpar with ⟨hp, rfl⟩ | ⟨q, pn, hp, hq, rfl⟩
  · by_cases habs : node.opt &&& OPT_ABSTRACT ≠ 0
    · simp only [Node.EmitCode, hd, hp, if_pos habs, hform, parentClause,
        String.append_assoc, String.append_empty, String.empty_append]
    · simp only [Node.EmitCode, hd, hp, if_neg habs, hform]
      conv_lhs => rw [numberedArgs_prepend]
      simp only [parentClause, String.append_assoc, String.append_empty,
        String.empty_append]
  · by_cases habs : node.opt &&& OPT_ABSTRACT ≠ 0
    · simp only [Node.EmitCode, hd, hp, hq, if_pos habs, hform, parentClause,
        String.append_assoc, String.append_empty, String.empty_append]
    · simp only [Node.EmitCode, hd, hp, hq, if_neg habs, hform]
      conv_lhs => rw [numberedArgs_prepend]
      simp only [parentClause, String.append_assoc, String.append_empty,
        String.empty_append]

/-- C29: in the class written by `Node::EmitCode` for a node N, the return
type of the static functions `empty` and `factory` is the type of the Factory
feature of N when N declares one (the one declared last) and the name of N
otherwise, while the class name, the expression `new <name>(...)`, the
constructor and the clause `: public <parent>` use the name of N and of its
resolved parent. -/
theorem EmitCode_return_type (l : List Node) (p : Nat) (node : Node) (path : List Node)
    (fuel : Nat) (os : String)
    (hpath : IsPath l (some p) (node :: path)) (hfuel : path.length + 1 ≤ fuel) :
    ∃ r formals vars rest,
      Node.EmitCode l fuel os p = some r
      ∧ Node.EmitAttrsAsFormal l fuel "" p = some (formals, vars)
      ∧ r.os = os ++ "class " ++ node.name ++ parentClause path.head? ++ " \x7b" ++ "\n"
          ++ "public:" ++ "\n"
          ++ "    static " ++ node.GetReturnType ++ " *empty(void) \x7b return ("
          ++ node.GetReturnType ++ " *)0; \x7d" ++ "\n"
          ++ (if node.opt &&& OPT_ABSTRACT ≠ 0 then ""
              else "    static " ++ node.GetReturnType ++ " *factory(" ++ formals
                ++ ") \x7b return new " ++ node.name ++ "(" ++ numberedArgs vars 1 ""
                ++ "); \x7d" ++ "\n" ++ "\n")
          ++ "    virtual AstNodeType Get_AstNodeType(void) const \x7b return NODE_"
          ++ node.name ++ "; \x7d" ++ "\n" ++ "\n"
          ++ "protected:" ++ "\n"
          ++ "    explicit " ++ node.name ++ "(" ++ formals ++ ") " ++ rest
      ∧ (match node.parent with
          | none => path.head? = none
          | some q => deref l q = path.head? ∧ path.head? ≠ none)
      ∧ ((∀ t, Feature.Factory t ∉ node.feats) → node.GetReturnType = node.name)
      ∧ (∀ pre t post, node.feats = pre ++ Feature.Factory t :: post →
          (∀ f ∈ pre, f.IsFactory = false) → node.GetReturnType = t) := by
  obtain ⟨hd, hrest⟩ := hpath
  obtain ⟨st0, hst0⟩ := Node_EmitAttrsAsFormal_returns l (node :: path) p fuel ""
    ⟨hd, hrest⟩ (by simpa using hfuel)
  have hrt1 : (∀ t, Feature.Factory t ∉ node.feats) → node.GetReturnType = node.name := by
    intro h
    simp only [Node.GetReturnType, returnTypeLoop_none node.feats h]
  have hrt2 : ∀ pre t post, node.feats = pre ++ Feature.Factory t :: post →
      (∀ f ∈ pre, f.IsFactory = false) → node.GetReturnType = t := by
    intro pre t post hf hpre
    simp only [Node.GetReturnType, hf, returnTypeLoop_some pre post t hpre]
  have hpar : ((node.parent = none ∧ path.head? = none)
        ∨ ∃ q pn, node.parent = some q ∧ deref l q = some pn ∧ path.head? = some pn)
      ∧ (match node.parent with
          | none => path.head? = none
          | some q => deref l q = path.head? ∧ path.head? ≠ none) := by
    cases hp : node.parent with
    | none =>
      rw [hp] at hrest
      cases path with
      | nil => exact ⟨Or.inl ⟨rfl, rfl⟩, rfl⟩
      | cons pn rest => simp [IsPath] at hrest
    | some q =>
      rw [hp] at hrest
      cases path with
      | nil => simp [IsPath] at hrest
      | cons pn rest =>
        have hq : deref l q = some pn := hrest.1
        exact ⟨Or.inr ⟨q, pn, rfl, hq, rfl⟩, by simp [hq]⟩
  have hcode := Node_EmitCode_eq l p node fuel os path.head? st0 hd hst0 hpar.1
  refine ⟨_, st0.1, st0.2, (Node.EmitCodeRest node path.head?
      (if node.opt &&& OPT_ABSTRACT ≠ 0 then FeatureList.GetLocalAttrCount node.feats
        else st0.2) "").os, hcode, hst0, ?_, hpar.2, hrt1, hrt2⟩
  have e : ") " = ") " ++ "" := rfl
  conv_lhs => rw [e]
  simp only [← String.append_assoc]
  rw [Node_EmitCodeRest_append]

theorem EmitCode_return_type_witness :
    IsPath (BuildParents sampleChain) (some 1) ({ idNode with parent := some 0 } :: [exprNode])
    ∧ ([exprNode].length + 1 ≤ 2)
    ∧ ({ idNode with parent := some 0 } : Node).GetReturnType = "Expression"
    ∧ ∃ r formals vars rest,
        Node.EmitCode (BuildParents sampleChain) 2 "" 1 = some r
        ∧ Node.EmitAttrsAsFormal (BuildParents sampleChain) 2 "" 1 = some (formals, vars)
        ∧ r.os = "" ++ "class " ++ "ID" ++ parentClause (some exprNode) ++ " \x7b" ++ "\n"
            ++ "public:" ++ "\n"
            ++ "    static " ++ "Expression" ++ " *empty(void) \x7b return ("
            ++ "Expression" ++ " *)0; \x7d" ++ "\n"
            ++ ("    static " ++ "Expression" ++ " *factory(" ++ formals
                  ++ ") \x7b return new " ++ "ID" ++ "(" ++ numberedArgs vars 1 ""
                  ++ "); \x7d" ++ "\n" ++ "\n")
            ++ "    virtual AstNodeType Get_AstNodeType(void) const \x7b return NODE_"
            ++ "ID" ++ "; \x7d" ++ "\n" ++ "\n"
            ++ "protected:" ++ "\n"
            ++ "    explicit " ++ "ID" ++ "(" ++ formals ++ ") " ++ rest :=
  ⟨⟨rfl, rfl, trivial⟩, by decide, rfl,
    match EmitCode_return_type (BuildParents sampleChain) 1 { idNode with parent := some 0 }
        [exprNode] 2 "" ⟨rfl, rfl, trivial⟩ (by decide) with
    | ⟨r, formals, vars, rest, h1, h2, h3, _⟩ => ⟨r, formals, vars, rest, h1, h2, h3⟩⟩

end Legacy

/-! ## The signature check -/

theorem Get_Parm_type (meth : Method) (i : Nat) :
    (meth.Get_Parm i).map Parameter.type = (meth.parms.map Parameter.type)[i]? := by
  simp only [Method.Get_Parm, List.getElem?_map]
  split
  · rename_i h
    rw [List.getElem?_eq_none (by simpa using h)]
  · rfl

theorem foldl_clear (c : Nat → Prop) [DecidablePred c] (l : List Nat) (b : Bool) :
    l.foldl (fun sm i => if c i then false else sm) b = true
      ↔ b = true ∧ ∀ i ∈ l, ¬ c i := by
  induction l generalizing b with
  | nil => simp
  | cons x rest ih =>
    simp only [List.foldl_cons, ih, List.mem_cons, forall_eq_or_imp]
    by_cases hx : c x
    · simp [hx]
    · simp [hx]

theorem parmLoop_eq_true (meth chkm : Method) (b : Bool) :
    parmLoop meth chkm b = true
      ↔ b = true ∧ ∀ i, i < meth.parms.length →
          (meth.parms.map Parameter.type)[i]? = (chkm.parms.map Parameter.type)[i]? := by
  unfold parmLoop
  rw [foldl_clear (fun i => (meth.Get_Parm i).map Parameter.type
      ≠ (chkm.Get_Parm i).map Parameter.type)]
  simp only [List.mem_range, ne_eq, not_not, Get_Parm_type]

theorem parmLoop_types (meth chkm meth2 chkm2 : Method) (b : Bool)
    (h1 : meth2.parms.map Parameter.type = meth.parms.map Parameter.type)
    (h2 : chkm2.parms.map Parameter.type = chkm.parms.map Parameter.type) :
    parmLoop meth2 chkm2 b = parmLoop meth chkm b := by
  have hlen : meth2.parms.length = meth.parms.length := by
    have := congrArg List.length h1
    simpa using this
  unfold parmLoop
  simp only [Get_Parm_type, h1, h2, hlen]

theorem zip_types_iff (l1 l2 : List Parameter) :
    (l1.length = l2.length ∧ ∀ pc ∈ l1.zip l2, pc.1.type = pc.2.type)
      ↔ l1.map Parameter.type = l2.map Parameter.type := by
  induction l1 generalizing l2 with
  | nil => cases l2 <;> simp
  | cons x l1 ih =>
    cases l2 with
    | nil => simp
    | cons y l2 =>
      simp only [List.length_cons, Nat.add_right_cancel_iff, List.zip_cons_cons, List.mem_cons,
        forall_eq_or_imp, List.map_cons, List.cons.injEq, ← ih l2]
      tauto

theorem sameSignature_iff (m1 m2 : Method) :
    SameSignature m1 m2
      ↔ m1.name = m2.name ∧ m1.parms.map Parameter.type = m2.parms.map Parameter.type := by
  simp only [SameSignature, ← zip_types_iff]

theorem sigLoop_mem (meth : Method) (rest : List Method) (b : Bool) (s : SemState)
    (d : String) (h : d ∈ (sigLoop meth rest (b, s)).2.err) :
    d ∈ s.err ∨ (d = "Error: Signature of method " ++ meth.name ++ " is duplicated\n"
      ∧ ∃ chkm ∈ rest, SameSignature meth chkm) := by
  induction rest generalizing b s with
  | nil => exact Or.inl (by simpa [sigLoop] using h)
  | cons chkm rest ih =>
    have hlift : ∀ b2 s2, d ∈ (sigLoop meth rest (b2, s2)).2.err → s2.err = s.err →
        d ∈ s.err ∨ (d = "Error: Signature of method " ++ meth.name ++ " is duplicated\n"
          ∧ ∃ c ∈ chkm :: rest, SameSignature meth c) := by
      intro b2 s2 h2 he
      rcases ih b2 s2 h2 with h3 | ⟨h3, c, hc, hs⟩
      · exact Or.inl (he ▸ h3)
      · exact Or.inr ⟨h3, c, List.mem_cons_of_mem _ hc, hs⟩
    simp only [sigLoop] at h
    by_cases hn : meth.name = chkm.name
    · by_cases hl : meth.parms.length = chkm.parms.length
      · by_cases hp : parmLoop meth chkm b = true
        · simp only [hn, hl, hp, if_true] at h
          have hsame : SameSignature meth chkm := by
            rw [sameSignature_iff]
            refine ⟨hn, ?_⟩
            apply List.ext_getElem?
            intro i
            by_cases hi : i < meth.parms.length
            · exact ((parmLoop_eq_true meth chkm b).mp hp).2 i hi
            · rw [List.getElem?_eq_none (by simpa using hi),
                List.getElem?_eq_none (by simp only [List.length_map]; omega)]
          rcases ih _ _ h with h3 | ⟨h3, c, hc, hs⟩
          · simp only [SemState.error, List.mem_append, List.mem_singleton] at h3
            rcases h3 with h4 | h4
            · exact Or.inl h4
            · exact Or.inr ⟨by rw [hn]; exact h4, chkm, List.mem_cons_self _ _, hsame⟩
          · exact Or.inr ⟨h3, c, List.mem_cons_of_mem _ hc, hs⟩
        · simp only [hn, hl, hp, if_true] at h
          exact hlift _ _ h rfl
      · simp only [hn, hl, if_true, if_false] at h
        exact hlift _ _ h rfl
    · simp only [hn, if_false] at h
      exact hlift _ _ h rfl

theorem sigLoop_types (f : Method → Method)
    (hf : ∀ x, (f x).name = x.name
      ∧ (f x).parms.map Parameter.type = x.parms.map Parameter.type)
    (meth : Method) (rest : List Method) (st : Bool × SemState) :
    sigLoop (f meth) (rest.map f) st = sigLoop meth rest st := by
  induction rest generalizing st with
  | nil => rfl
  | cons chkm rest ih =>
    have hlen : ∀ x, (f x).parms.length = x.parms.length := by
      intro x
      have := congrArg List.length (hf x).2
      simpa using this
    simp only [List.map_cons, sigLoop, (hf meth).1, (hf chkm).1, hlen, ih,
      parmLoop_types meth chkm (f meth) (f chkm) _ (hf meth).2 (hf chkm).2]

theorem methDiags_eq (meth : Method) (rest : List Method) :
    methDiags meth rest = sigDiags meth rest ++ codeDiags meth := by
  simp only [methDiags, sigDiags, codeDiags, methCodeCheck_fst, SemState.add, cleanState,
    List.nil_append]

/-- C32: `Semant` reports a duplicate signature for a method only against a
later method of the same node with the same name, the same number of
parameters and the same parameter types position by position; methods that
differ in one of these never produce the report, and the names of the
parameters and the return types play no part in the check. -/
theorem Semant_signature_only_real (m : Model) :
    (Semant m).err
        = eachWithRest includeDiags m.includes
          ++ (m.nodes.map (fun n =>
                eachWithRest (attrDiags n) n.attrs
                  ++ eachWithRest (fun meth rest => sigDiags meth rest ++ codeDiags meth)
                      n.methods)).flatten
    ∧ (∀ meth rest d, d ∈ sigDiags meth rest →
        d = "Error: Signature of method " ++ meth.name ++ " is duplicated\n"
        ∧ ∃ chkm ∈ rest, SameSignature meth chkm)
    ∧ (∀ meth rest, (∀ chkm ∈ rest, ¬ SameSignature meth chkm) → sigDiags meth rest = [])
    ∧ (∀ f : Method → Method,
        (∀ x, (f x).name = x.name
          ∧ (f x).parms.map Parameter.type = x.parms.map Parameter.type) →
        ∀ meth rest, sigDiags (f meth) (rest.map f) = sigDiags meth rest) := by
  have hmem : ∀ meth rest d, d ∈ sigDiags meth rest →
      d = "Error: Signature of method " ++ meth.name ++ " is duplicated\n"
      ∧ ∃ chkm ∈ rest, SameSignature meth chkm := by
    intro meth rest d hd
    rcases sigLoop_mem meth rest true cleanState d hd with h | h
    · simp [cleanState] at h
    · exact h
  refine ⟨?_, hmem, ?_, ?_⟩
  · rw [(Semant_state m).1]
    congr 2
    apply List.map_congr_left
    intro n _
    simp only [nodeDiags]
    congr 1
    apply eachWithRest_congr
    intro meth rest
    exact methDiags_eq meth rest
  · intro meth rest hno
    apply List.eq_nil_iff_forall_not_mem.mpr
    intro d hd
    obtain ⟨_, chkm, hc, hs⟩ := hmem meth rest d hd
    exact hno chkm hc hs
  · intro f hf meth rest
    simp only [sigDiags, sigLoop_types f hf]

theorem Semant_signature_only_real_witness :
    (∀ chkm ∈ [computeStrMeth], ¬ SameSignature computeMeth chkm)
    ∧ sigDiags computeMeth [computeStrMeth] = []
    ∧ (Semant overloadModel).rv = true :=
  ⟨by decide,
    (Semant_signature_only_real overloadModel).2.2.1 computeMeth [computeStrMeth] (by decide),
    by decide⟩

/-! ## What `Semant` changes in the model -/

theorem or_and_self (f g : Nat) : (f ||| g) &&& f = f := by
  apply Nat.eq_of_testBit_eq
  intro i
  simp only [Nat.testBit_and, Nat.testBit_or]
  cases Nat.testBit f i <;> simp

theorem or_PROTECTED_and_PRIVATE (f : Nat) (h : f &&& PRIVATE = 0) :
    (f ||| PROTECTED) &&& PRIVATE = 0 := by
  rw [Nat.and_comm, Nat.and_or_distrib_left, Nat.and_comm PRIVATE f, h]
  decide

theorem attrDefaultVis_eq (a : Attribute) :
    attrDefaultVis a a.flags
      = { a with flags := a.flags |||
          (if a.flags &&& PUBLIC = 0 ∧ a.flags &&& PROTECTED = 0 ∧ a.flags &&& PRIVATE = 0
            then PROTECTED else 0) } := by
  unfold attrDefaultVis
  split
  · rfl
  · simp only [Nat.or_zero]

theorem methDefault_eq (meth : Method) :
    (if meth.code = "" then meth.Set_Flag EXTERNAL else meth)
      = { meth with flags := meth.flags ||| (if meth.code = "" then EXTERNAL else 0) } := by
  split
  · rfl
  · simp only [Nat.or_zero]

theorem attrDefaultVis_idem (a : Attribute) :
    attrDefaultVis (attrDefaultVis a a.flags) (attrDefaultVis a a.flags).flags
      = attrDefaultVis a a.flags := by
  by_cases h : a.flags &&& PUBLIC = 0 ∧ a.flags &&& PROTECTED = 0 ∧ a.flags &&& PRIVATE = 0
  · have h1 : attrDefaultVis a a.flags = a.Set_Flag PROTECTED := by
      simp only [attrDefaultVis, h, and_self, if_true]
    rw [h1]
    have h2 : (a.Set_Flag PROTECTED).flags &&& PROTECTED ≠ 0 := or_PROTECTED_and_PROTECTED _
    simp only [attrDefaultVis, h2, false_and, and_false, if_false]
  · have h1 : attrDefaultVis a a.flags = a := by
      simp only [attrDefaultVis, h, if_false]
    rw [h1, h1]

theorem methDefault_idem (meth : Method) :
    (if (if meth.code = "" then meth.Set_Flag EXTERNAL else meth).code = ""
      then (if meth.code = "" then meth.Set_Flag EXTERNAL else meth).Set_Flag EXTERNAL
      else (if meth.code = "" then meth.Set_Flag EXTERNAL else meth))
      = (if meth.code = "" then meth.Set_Flag EXTERNAL else meth) := by
  by_cases h : meth.code = ""
  · simp only [h, if_true, Method.Set_Flag, Nat.or_assoc, Nat.or_self]
  · simp only [h, if_false]

/-- The node loop leaves a node it has already been through as it is. -/
theorem semantNode_snd_idem (n : Node) (s s2 : SemState) :
    (semantNode (semantNode n s).2 s2).2 = (semantNode n s).2 := by
  have hm : n.methods.map
      ((fun meth : Method => if meth.code = "" then meth.Set_Flag EXTERNAL else meth)
        ∘ (fun meth : Method => if meth.code = "" then meth.Set_Flag EXTERNAL else meth))
      = n.methods.map (fun meth => if meth.code = "" then meth.Set_Flag EXTERNAL else meth) :=
    List.map_congr_left (fun meth _ => methDefault_idem meth)
  have ha : n.attrs.map
      ((fun a : Attribute => attrDefaultVis a a.flags)
        ∘ (fun a : Attribute => attrDefaultVis a a.flags))
      = n.attrs.map (fun a => attrDefaultVis a a.flags) :=
    List.map_congr_left (fun a _ => attrDefaultVis_idem a)
  simp only [semantNode_snd, List.map_map, hm, ha]

/-- C37: `Semant` leaves the model as it was except that an attribute with
none of PUBLIC, PROTECTED, PRIVATE gets PROTECTED and a method without code
gets EXTERNAL: the includes, the symbol table, the ending code, the order of
the lists, and every name, type, code text, parameter list and parent link
stay, and no flag is cleared. -/
theorem Semant_only_adds_flags (m : Model) :
    (Semant m).model
        = { m with nodes := m.nodes.map (fun n =>
            ({ n with
              attrs := n.attrs.map (fun a =>
                ({ a with flags := a.flags |||
                    (if a.flags &&& PUBLIC = 0 ∧ a.flags &&& PROTECTED = 0
                        ∧ a.flags &&& PRIVATE = 0
                      then PROTECTED else 0) } : Attribute)),
              methods := n.methods.map (fun meth =>
                ({ meth with flags := meth.flags |||
                    (if meth.code = "" then EXTERNAL else 0) } : Method)) } : Node)) }
    ∧ (∀ a : Attribute, (attrDefaultVis a a.flags).flags &&& a.flags = a.flags)
    ∧ (∀ meth : Method, (meth.Set_Flag EXTERNAL).flags &&& meth.flags = meth.flags) := by
  refine ⟨?_, ?_, ?_⟩
  · have hn := Semant_nodes m
    have hm : (Semant m).model = { m with nodes := (Semant m).model.nodes } := rfl
    rw [hm, hn]
    congr 1
    apply List.map_congr_left
    intro n _
    congr 1
    · apply List.map_congr_left
      intro meth _
      exact methDefault_eq meth
    · apply List.map_congr_left
      intro a _
      exact attrDefaultVis_eq a
  · intro a
    rw [attrDefaultVis_eq]
    exact or_and_self _ _
  · intro meth
    exact or_and_self _ _

/-! ## A second run of `Semant` -/

theorem eachWithRest_map {α β : Type} (f : α → List α → List String)
    (g : β → List β → List String) (h : α → β) (l : List α)
    (hfg : ∀ x rest, g (h x) (rest.map h) = f x rest) :
    eachWithRest g (l.map h) = eachWithRest f l := by
  induction l with
  | nil => rfl
  | cons x rest ih => simp only [List.map_cons, eachWithRest, hfg, ih]

theorem attrDupLoop_map (n n2 : Node) (a a2 : Attribute) (h : Attribute → Attribute)
    (l : List Attribute) (s : SemState)
    (hn : n2.name = n.name) (ha : a2.name = a.name) (hh : ∀ x, (h x).name = x.name) :
    attrDupLoop n2 a2 (l.map h) s = attrDupLoop n a l s := by
  induction l generalizing s with
  | nil => rfl
  | cons x rest ih => simp only [List.map_cons, attrDupLoop, hn, ha, hh, ih]

theorem attrMethLoop_map (n n2 : Node) (a a2 : Attribute) (g : Method → Method)
    (l : List Method) (s : SemState)
    (hn : n2.name = n.name) (ha : a2.name = a.name) (hg : ∀ x, (g x).name = x.name) :
    attrMethLoop n2 a2 (l.map g) s = attrMethLoop n a l s := by
  induction l generalizing s with
  | nil => rfl
  | cons x rest ih => simp only [List.map_cons, attrMethLoop, hn, ha, hg, ih]

theorem methDefault_name (meth : Method) :
    (if meth.code = "" then meth.Set_Flag EXTERNAL else meth).name = meth.name
    ∧ (if meth.code = "" then meth.Set_Flag EXTERNAL else meth).parms.map Parameter.type
        = meth.parms.map Parameter.type := by
  split <;> exact ⟨rfl, rfl⟩

theorem codeDiags_default (meth : Method) :
    codeDiags (if meth.code = "" then meth.Set_Flag EXTERNAL else meth) = codeDiags meth := by
  by_cases h : meth.code = ""
  · have h2 : (meth.Set_Flag EXTERNAL).code = "" := h
    simp only [h, if_true, codeDiags, methCodeCheck_fst, h2, ne_eq, not_true_eq_false,
      false_and, if_false]
  · simp only [h, if_false]

theorem visPairDiags_default (n n2 : Node) (a : Attribute) (hn : n2.name = n.name) :
    visPairDiags n2 (attrDefaultVis a a.flags) (attrDefaultVis a a.flags).flags
      = visPairDiags n a a.flags := by
  by_cases h : a.flags &&& PUBLIC = 0 ∧ a.flags &&& PROTECTED = 0 ∧ a.flags &&& PRIVATE = 0
  · have h1 : attrDefaultVis a a.flags = a.Set_Flag PROTECTED := by
      simp only [attrDefaultVis, h, and_self, if_true]
    have hpub : (a.Set_Flag PROTECTED).flags &&& PUBLIC = 0 := or_PROTECTED_and_PUBLIC _ h.1
    have hpriv : (a.Set_Flag PROTECTED).flags &&& PRIVATE = 0 :=
      or_PROTECTED_and_PRIVATE _ h.2.2
    rw [h1]
    simp only [visPairDiags, hpub, hpriv, h.1, h.2.1, h.2.2, ne_eq, not_true_eq_false,
      false_and, and_false, if_false]
  · have h1 : attrDefaultVis a a.flags = a := by
      simp only [attrDefaultVis, h, if_false]
    rw [h1]
    simp only [visPairDiags, hn]

theorem nodeDiags_post (n : Node) (s : SemState) :
    nodeDiags (semantNode n s).2 = nodeDiags n := by
  rw [semantNode_snd]
  have hname : ({ n with
      attrs := n.attrs.map (fun a => attrDefaultVis a a.flags),
      methods := n.methods.map
        (fun meth => if meth.code = "" then meth.Set_Flag EXTERNAL else meth) } : Node).name
      = n.name := rfl
  simp only [nodeDiags]
  congr 1
  · apply eachWithRest_map
    intro a rest
    simp only [attrDiags, attrDupDiags, attrMethDiags, attrVisDiags_eq]
    rw [attrDupLoop_map n _ a _ (fun a => attrDefaultVis a a.flags) rest cleanState hname
        (attrDefaultVis_name a a.flags) (fun x => attrDefaultVis_name x x.flags),
      attrMethLoop_map n _ a _
        (fun meth => if meth.code = "" then meth.Set_Flag EXTERNAL else meth) n.methods
        cleanState hname (attrDefaultVis_name a a.flags) (fun x => (methDefault_name x).1),
      visPairDiags_default n _ a hname]
  · apply eachWithRest_map
    intro meth rest
    rw [methDiags_eq, methDiags_eq, codeDiags_default]
    simp only [sigDiags,
      sigLoop_types (fun meth => if meth.code = "" then meth.Set_Flag EXTERNAL else meth)
        methDefault_name]

theorem Semant_nodes_sem (m : Model) :
    (Semant m).model.nodes = m.nodes.map (fun n => (semantNode n cleanState).2) := by
  rw [Semant_nodes]
  apply List.map_congr_left
  intro n _
  rw [semantNode_snd]

/-- C38: a second run of `Semant`, on the model a first run leaves, returns
what the first run returned, reports the same diagnostics and leaves the model,
every flag included, as it is. -/
theorem Semant_idempotent (m : Model) :
    Semant (Semant m).model = Semant m := by
  have hincl : (Semant m).model.includes = m.includes := rfl
  have hdiags : ((Semant m).model.nodes.map nodeDiags).flatten
      = (m.nodes.map nodeDiags).flatten := by
    rw [Semant_nodes_sem, List.map_map]
    congr 1
    apply List.map_congr_left
    intro n _
    exact nodeDiags_post n cleanState
  have herr : (Semant (Semant m).model).err = (Semant m).err := by
    rw [(Semant_state (Semant m).model).1, (Semant_state m).1, hincl, hdiags]
  have hrv : (Semant (Semant m).model).rv = (Semant m).rv := by
    rw [(Semant_state (Semant m).model).2, (Semant_state m).2, hincl, hdiags]
  have hnodes : (Semant (Semant m).model).model.nodes = (Semant m).model.nodes := by
    rw [Semant_nodes_sem (Semant m).model, Semant_nodes_sem m, List.map_map]
    apply List.map_congr_left
    intro n _
    exact semantNode_snd_idem n cleanState cleanState
  have hmodel : (Semant (Semant m).model).model = (Semant m).model := by
    have h1 : (Semant (Semant m).model).model
        = { (Semant m).model with nodes := (Semant (Semant m).model).model.nodes } := rfl
    rw [h1, hnodes]
  have hext : ∀ a b : SemantResult, a.rv = b.rv → a.err = b.err → a.model = b.model → a = b := by
    intro a b h1 h2 h3
    cases a
    cases b
    simp only at h1 h2 h3
    simp only [h1, h2, h3]
  exact hext _ _ hrv herr hmodel

/-! ## The visibility of the attributes after `Semant` -/

theorem eachWithRest_nil {α : Type} (f : α → List α → List String) (l : List α)
    (h : eachWithRest f l = []) (pre : List α) (x : α) (rest : List α)
    (hl : l = pre ++ x :: rest) : f x rest = [] := by
  subst hl
  obtain ⟨before, after, he⟩ := eachWithRest_split f pre x rest
  rw [he] at h
  simp only [List.append_eq_nil] at h
  exact h.1.2

theorem visPairDiags_nil (n : Node) (a : Attribute) (f : Nat) (h : visPairDiags n a f = []) :
    ¬ (f &&& PUBLIC ≠ 0 ∧ f &&& PROTECTED ≠ 0) ∧ ¬ (f &&& PUBLIC ≠ 0 ∧ f &&& PRIVATE ≠ 0)
      ∧ ¬ (f &&& PROTECTED ≠ 0 ∧ f &&& PRIVATE ≠ 0) := by
  unfold visPairDiags at h
  simp only [List.append_eq_nil] at h
  obtain ⟨⟨h1, h2⟩, h3⟩ := h
  refine ⟨?_, ?_, ?_⟩
  · intro hc
    rw [if_pos hc] at h1
    simp at h1
  · intro hc
    rw [if_pos hc] at h2
    simp at h2
  · intro hc
    rw [if_pos hc] at h3
    simp at h3

theorem attrDefaultVis_one (a : Attribute)
    (h : ¬ (a.flags &&& PUBLIC ≠ 0 ∧ a.flags &&& PROTECTED ≠ 0)
      ∧ ¬ (a.flags &&& PUBLIC ≠ 0 ∧ a.flags &&& PRIVATE ≠ 0)
      ∧ ¬ (a.flags &&& PROTECTED ≠ 0 ∧ a.flags &&& PRIVATE ≠ 0)) :
    OneVisibility (attrDefaultVis a a.flags).flags := by
  by_cases hnone : a.flags &&& PUBLIC = 0 ∧ a.flags &&& PROTECTED = 0 ∧ a.flags &&& PRIVATE = 0
  · have h1 : attrDefaultVis a a.flags = a.Set_Flag PROTECTED := by
      simp only [attrDefaultVis, hnone, and_self, if_true]
    rw [h1]
    exact Or.inr (Or.inl ⟨or_PROTECTED_and_PUBLIC _ hnone.1, or_PROTECTED_and_PROTECTED _,
      or_PROTECTED_and_PRIVATE _ hnone.2.2⟩)
  · have h1 : attrDefaultVis a a.flags = a := by
      simp only [attrDefaultVis, hnone, if_false]
    rw [h1]
    unfold OneVisibility
    by_cases hpub : a.flags &&& PUBLIC = 0 <;> by_cases hprot : a.flags &&& PROTECTED = 0
      <;> by_cases hpriv : a.flags &&& PRIVATE = 0 <;> simp_all

/-- C39: when `Semant` returns true, every attribute of every node has
afterwards exactly one of PUBLIC, PROTECTED, PRIVATE set, and the label
`cpp_EmitAttributes` writes for it is the label of that flag. -/
theorem Semant_true_one_visibility (m : Model) (h : (Semant m).rv = true) :
    ∀ n2 ∈ (Semant m).model.nodes, ∀ a ∈ n2.attrs,
      OneVisibility a.flags
      ∧ (a.flags &&& PUBLIC ≠ 0 → visLabel a = "public:" ++ "\n")
      ∧ (a.flags &&& PROTECTED ≠ 0 → visLabel a = "protected:" ++ "\n")
      ∧ (a.flags &&& PRIVATE ≠ 0 → visLabel a = "private:" ++ "\n")
      ∧ ∀ os, emitAttribute os a = os ++ attrBanner a ++ visLabel a ++ attrMembers a := by
  have herr : eachWithRest includeDiags m.includes ++ (m.nodes.map nodeDiags).flatten = [] := by
    have h2 := (Semant_state m).2
    rw [h] at h2
    exact List.isEmpty_iff.mp h2.symm
  have hnodes : ∀ n ∈ m.nodes, nodeDiags n = [] := by
    intro n hn
    have h3 := (List.append_eq_nil.mp herr).2
    rw [List.flatten_eq_nil_iff] at h3
    exact h3 _ (List.mem_map_of_mem _ hn)
  intro n2 hn2 a2 ha2
  rw [Semant_nodes, List.mem_map] at hn2
  obtain ⟨n, hn, rfl⟩ := hn2
  simp only [List.mem_map] at ha2
  obtain ⟨a, ha, rfl⟩ := ha2
  obtain ⟨pre, rest, hsplit⟩ := List.append_of_mem ha
  have hattr : eachWithRest (attrDiags n) n.attrs = [] :=
    (List.append_eq_nil.mp (hnodes n hn)).1
  have hd : attrDiags n a rest = [] := eachWithRest_nil _ _ hattr pre a rest hsplit
  have hvis : visPairDiags n a a.flags = [] := by
    simp only [attrDiags, List.append_eq_nil] at hd
    rw [← attrVisDiags_eq]
    exact hd.2
  have hone := attrDefaultVis_one a (visPairDiags_nil n a a.flags hvis)
  refine ⟨hone, ?_, ?_, ?_, fun os => emitAttribute_eq os _⟩
  · intro hp
    simp only [visLabel, hp, ne_eq, not_false_eq_true, if_true]
  · intro hp
    rcases hone with ⟨h1, h2, _⟩ | ⟨h1, _, _⟩ | ⟨_, h2, _⟩
    · exact absurd h2 hp
    · simp only [visLabel, h1, hp, ne_eq, not_true_eq_false, not_false_eq_true, if_true,
        if_false]
    · exact absurd h2 hp
  · intro hp
    rcases hone with ⟨_, _, h3⟩ | ⟨_, _, h3⟩ | ⟨h1, h2, _⟩
    · exact absurd h3 hp
    · exact absurd h3 hp
    · simp only [visLabel, h1, h2, ne_eq, not_true_eq_false, if_false]

theorem Semant_true_one_visibility_witness :
    (Semant leafModel).rv = true
    ∧ ∀ n2 ∈ (Semant leafModel).model.nodes, ∀ a ∈ n2.attrs,
      OneVisibility a.flags
      ∧ (a.flags &&& PUBLIC ≠ 0 → visLabel a = "public:" ++ "\n")
      ∧ (a.flags &&& PROTECTED ≠ 0 → visLabel a = "protected:" ++ "\n")
      ∧ (a.flags &&& PRIVATE ≠ 0 → visLabel a = "private:" ++ "\n")
      ∧ ∀ os, emitAttribute os a = os ++ attrBanner a ++ visLabel a ++ attrMembers a :=
  ⟨by decide, Semant_true_one_visibility leafModel (by decide)⟩

/-! ## The initializer list and the attribute count -/

theorem colon_ne_empty (rest : String) : " :" ++ rest ≠ "" := by
  intro h
  have h1 := congrArg String.length h
  have h0 : "".length = 0 := rfl
  have h2 : " :".length = 2 := by decide
  simp only [String.length_append, h0, h2] at h1
  omega

/-- C36: `cpp_EmitConstructor` leaves the initializer list out exactly when
`GetAttrCount` of N is 0, that is when N has no own attribute and its parent,
if any, has `GetParmCount` 0; when the constructor of the parent takes a
parameter, the initializer list is written and starts with the call of the
constructor of the parent. -/
theorem ctor_init_list_omitted_iff (nodes : List Node) (p : Nat) (pchain : List Node)
    (n : Node) (fuel : Nat) (os : String)
    (hchain : AncestorChain nodes p (pchain ++ [n])) (hfuel : pchain.length + 1 ≤ fuel) :
    cpp_EmitConstructor nodes fuel os p
        = some (os ++ ctorHead n ++ formalsText (chainInitAttrs (pchain ++ [n])) ++ ")"
            ++ ctorInitText pchain n ++ " \x7b \x7d" ++ "\n" ++ "\n")
    ∧ (ctorInitText pchain n = "" ↔ GetAttrCount nodes fuel p = some 0)
    ∧ (GetAttrCount nodes fuel p = some 0
        ↔ n.attrs = [] ∧ (match n.parent with
            | none => True
            | some q => GetParmCount nodes fuel q = some 0))
    ∧ (∀ q c, n.parent = some q → GetParmCount nodes fuel q = some c → 0 < c →
        ∃ par, nodes[q]? = some par
          ∧ ctorInitText pchain n
            = " :" ++ "\n" ++ "\t\t" ++ par.name.name ++ "("
              ++ joinSep ((chainInitAttrs pchain).map argText) ++ ")"
              ++ (if n.attrs = [] then "" else listSep ++ joinSep (n.attrs.map initText))) := by
  have hp := (ancestorChain_snoc nodes p pchain n).mp hchain
  have hrest : IsPath nodes n.parent pchain.reverse := hp.2
  have hf2 : pchain.reverse.length ≤ fuel := by
    simp only [List.length_reverse]; omega
  have hctor := cpp_EmitConstructor_chain nodes p pchain n fuel os hchain hfuel
  have hcount := GetAttrCount_path nodes n pchain.reverse p fuel hp hf2
  rw [List.reverse_reverse] at hcount
  have hparent : ∀ q, n.parent = some q →
      GetParmCount nodes fuel q = some (chainInitAttrs pchain).length
      ∧ ∃ par, nodes[q]? = some par ∧ pchain.getLast? = some par := by
    intro q hq
    rw [hq] at hrest
    have h := GetParmCount_path nodes pchain.reverse q fuel hrest hf2
    rw [List.reverse_reverse] at h
    refine ⟨h, ?_⟩
    cases hrev : pchain.reverse with
    | nil => rw [hrev] at hrest; exact absurd hrest (by simp [IsPath])
    | cons par rest =>
      rw [hrev] at hrest
      exact ⟨par, hrest.1, by rw [List.getLast?_eq_head?_reverse, hrev]; rfl⟩
  refine ⟨?_, ?_, ?_, ?_⟩
  · rw [hctor]
    simp only [ctorText, String.append_assoc]
  · rw [hcount]
    simp only [Option.some.injEq]
    unfold ctorInitText
    by_cases hz : (chainInitAttrs pchain).length + n.attrs.length = 0
    · simp only [hz, if_true]
    · simp only [hz, if_false, iff_false, String.append_assoc]
      exact colon_ne_empty _
  · rw [hcount]
    simp only [Option.some.injEq]
    cases hpar : n.parent with
    | none =>
      rw [hpar] at hrest
      have h1 : pchain.reverse = [] := (IsPath_none nodes _).mp hrest
      have h2 : pchain = [] := by simpa using h1
      simp [h2, chainInitAttrs]
    | some q =>
      simp only [(hparent q hpar).1, Option.some.injEq, Nat.add_eq_zero, List.length_eq_zero]
      tauto
  · intro q c hq hc hpos
    obtain ⟨hcnt, par, hpn, hlast⟩ := hparent q hq
    rw [hcnt] at hc
    simp only [Option.some.injEq] at hc
    refine ⟨par, hpn, ?_⟩
    have hnz : ¬ ((chainInitAttrs pchain).length + n.attrs.length = 0) := by omega
    have hbase : baseCallItems pchain
        = [par.name.name ++ "(" ++ joinSep ((chainInitAttrs pchain).map argText) ++ ")"] := by
      simp only [baseCallItems, hlast]
    simp only [ctorInitText, hnz, if_false, hbase, List.singleton_append, joinSep_cons,
      List.isEmpty_iff, List.map_eq_nil_iff]
    by_cases ha : n.attrs = []
    · simp only [ha, if_true, String.append_assoc, String.append_empty]
    · simp only [ha, if_false, String.append_assoc]

theorem ctor_init_list_omitted_iff_witness :
    AncestorChain leafNodes 1 ([commonNode] ++ [leafNode])
    ∧ (ctorInitText [commonNode] leafNode = "" ↔ GetAttrCount leafNodes 2 1 = some 0)
    ∧ GetAttrCount leafNodes 2 1 = some 1 :=
  ⟨⟨rfl, rfl, trivial⟩,
    (ctor_init_list_omitted_iff leafNodes 1 [commonNode] leafNode 2 "" ⟨rfl, rfl, trivial⟩
      (by decide)).2.1,
    by decide⟩

/-! ## The enumeration and the accessors `_GetType` -/

theorem string_append_left_cancel (a b c : String) (h : a ++ b = a ++ c) : b = c := by
  have h1 := congrArg String.data h
  simp only [String.data_append, List.append_cancel_left_eq] at h1
  exact String.ext h1

theorem cpp_EmitNodeTypes_enumTags (os : String) (nodes : List Node) :
    cpp_EmitNodeTypes os nodes
      = os ++ nodeTypesHead
        ++ concatAll ((enumTags nodes).map (fun t => "\t" ++ t ++ "," ++ "\n"))
        ++ "\x7d ASTNodeType;" ++ "\n" ++ "\n" := by
  rw [cpp_EmitNodeTypes_eq]
  have h : ∀ s : String, "\tNODE_TYPE_" ++ s = "\t" ++ ("NODE_TYPE_" ++ s) := by
    intro s
    rw [← String.append_assoc]
    rfl
  simp only [enumTags, List.map_map, Function.comp_def, String.append_assoc, h]

theorem cpp_EmitGetType_returnedTag (os : String) (n : Node) :
    cpp_EmitGetType os n
      = os ++ getTypeHead n
        ++ (match returnedTag n with
            | none => " = 0;"
            | some t => "\x7b return " ++ t ++ "; \x7d")
        ++ "\n" ++ "\n" := by
  have h : ∀ s : String, "\x7b return NODE_TYPE_" ++ s = "\x7b return " ++ ("NODE_TYPE_" ++ s) := by
    intro s
    rw [← String.append_assoc]
    rfl
  unfold cpp_EmitGetType returnedTag
  by_cases habs : n.flags &&& ABSTRACT ≠ 0
  · simp only [if_pos habs, getTypeHead, String.append_assoc]
  · simp only [if_neg habs, getTypeHead, String.append_assoc, h]

theorem returnedTag_mem (nodes : List Node) (n : Node) (hn : n ∈ nodes) (t : String)
    (ht : returnedTag n = some t) : t ∈ enumTags nodes := by
  unfold returnedTag at ht
  by_cases habs : n.flags &&& ABSTRACT ≠ 0
  · simp [habs] at ht
  · simp only [if_neg habs, Option.some.injEq] at ht
    subst ht
    simp only [enumTags, List.mem_map, List.mem_filter, decide_eq_true_eq]
    exact ⟨n, ⟨hn, by simpa using habs⟩, rfl⟩

theorem enumTags_nodup (nodes : List Node)
    (hnames : (nodes.map (fun n => n.name.name)).Nodup) : (enumTags nodes).Nodup := by
  have h1 : ((nodes.filter (fun n => n.flags &&& ABSTRACT = 0)).map
      (fun n => n.name.name)).Nodup :=
    List.Nodup.sublist (List.Sublist.map _ (List.filter_sublist _)) hnames
  have h2 : enumTags nodes
      = ((nodes.filter (fun n => n.flags &&& ABSTRACT = 0)).map (fun n => n.name.name)).map
          (fun s => "NODE_TYPE_" ++ s) := by
    simp only [enumTags, List.map_map, Function.comp_def]
  rw [h2]
  exact List.Nodup.map (fun a b hab => string_append_left_cancel _ a b hab) h1

theorem names_index_unique (nodes : List Node)
    (hnames : (nodes.map (fun n => n.name.name)).Nodup) (i j : Nat) (n k : Node)
    (hi : nodes[i]? = some n) (hj : nodes[j]? = some k) (h : k.name.name = n.name.name) :
    j = i := by
  have hi2 : (nodes.map (fun n => n.name.name))[i]? = some n.name.name := by
    simp only [List.getElem?_map, hi, Option.map_some']
  have hj2 : (nodes.map (fun n => n.name.name))[j]? = some n.name.name := by
    simp only [List.getElem?_map, hj, Option.map_some', h]
  obtain ⟨hil, hie⟩ := List.getElem?_eq_some_iff.mp hi2
  obtain ⟨hjl, hje⟩ := List.getElem?_eq_some_iff.mp hj2
  exact (List.Nodup.getElem_inj_iff hnames).mp (hje.trans hie.symm)

/-- C40: in the output of `cpp_Emit` for a model whose node names are
pairwise distinct, every tag `NODE_TYPE_<name>` that an accessor `_GetType`
returns is a tag of the enumeration `ASTNodeType`, and every tag of the
enumeration is returned by the accessor of exactly one class. -/
theorem enum_tags_match_accessors (m : Model) (outputFile curr_file : String) (fuel : Nat)
    (chainOf : Nat → List Node)
    (hchains : ∀ i n, m.nodes[i]? = some n →
      AncestorChain m.nodes i (chainOf i ++ [n]) ∧ (chainOf i).length + 1 ≤ fuel)
    (hnames : (m.nodes.map (fun n => n.name.name)).Nodup) :
    cpp_Emit m outputFile (some curr_file) fuel
        = some (headerText outputFile curr_file
            ++ cpp_EmitForwards "" m.symtab
            ++ (nodeTypesHead
                ++ concatAll ((enumTags m.nodes).map (fun t => "\t" ++ t ++ "," ++ "\n"))
                ++ "\x7d ASTNodeType;" ++ "\n" ++ "\n")
            ++ cpp_EmitIncludes "" m.includes
            ++ nodesHead
            ++ concatAll (m.nodes.enum.map (fun x => classText (chainOf x.1) x.2))
            ++ m.endingCode)
    ∧ cpp_Emit m outputFile none fuel = some (headerStub outputFile)
    ∧ (∀ pchain n,
        contentsText pchain n
          = ctorText pchain n ++ cpp_EmitDestructor "" n ++ cpp_EmitAttributes "" n.attrs
            ++ cpp_EmitMethods "" n.methods ++ cpp_EmitEmptyFunc "" n ++ factoryText pchain n
            ++ (getTypeHead n
                ++ (match returnedTag n with
                    | none => " = 0;"
                    | some t => "\x7b return " ++ t ++ "; \x7d")
                ++ "\n" ++ "\n")
            ++ cpp_EmitGetTypeString "" n)
    ∧ (∀ n ∈ m.nodes, ∀ t, returnedTag n = some t → t ∈ enumTags m.nodes)
    ∧ (∀ t ∈ enumTags m.nodes,
        ∃ (i : Nat) (n : Node), m.nodes[i]? = some n ∧ returnedTag n = some t
          ∧ ∀ (j : Nat) (k : Node), m.nodes[j]? = some k → returnedTag k = some t → j = i)
    ∧ (enumTags m.nodes).Nodup := by
  refine ⟨?_, cpp_Emit_null m outputFile fuel chainOf hchains, ?_, ?_, ?_,
    enumTags_nodup m.nodes hnames⟩
  · rw [cpp_Emit_chain m outputFile curr_file fuel chainOf hchains, cpp_EmitNodeTypes_enumTags]
    simp only [String.append_assoc, String.empty_append]
  · intro pchain n
    simp only [contentsText, cpp_EmitGetType_returnedTag, String.append_assoc,
      String.empty_append]
  · intro n hn t ht
    exact returnedTag_mem m.nodes n hn t ht
  · intro t ht
    simp only [enumTags, List.mem_map, List.mem_filter, decide_eq_true_eq] at ht
    obtain ⟨n, ⟨hn, habs⟩, rfl⟩ := ht
    obtain ⟨i, hi⟩ := List.mem_iff_getElem?.mp hn
    refine ⟨i, n, hi, by simp [returnedTag, habs], ?_⟩
    intro j k hj hk
    unfold returnedTag at hk
    by_cases hkabs : k.flags &&& ABSTRACT ≠ 0
    · simp [hkabs] at hk
    · simp only [if_neg hkabs, Option.some.injEq] at hk
      exact names_index_unique m.nodes hnames i j n k hi hj
        (string_append_left_cancel _ _ _ hk)

theorem enum_tags_match_accessors_witness :
    (leafModel.nodes.map (fun n => n.name.name)).Nodup
    ∧ enumTags leafModel.nodes = ["NODE_TYPE_Leaf"]
    ∧ (∀ t ∈ enumTags leafModel.nodes,
        ∃ (i : Nat) (n : Node), leafModel.nodes[i]? = some n ∧ returnedTag n = some t
          ∧ ∀ (j : Nat) (k : Node), leafModel.nodes[j]? = some k → returnedTag k = some t →
              j = i) :=
  ⟨by decide, by decide,
    (enum_tags_match_accessors leafModel "ast-nodes.hh" "leaf.ast" 2
      (fun i => if i = 0 then [] else [commonNode]) leafNodes_chains (by decide)).2.2.2.2.1⟩

namespace Legacy

/-! ## The first variant: cycles, the latest declaration, deeper chains -/

theorem FindNodeByName_latest (l : List Node) (s : String) (q : Nat)
    (h : FindNodeByName l (some s) = some q) :
    ∀ q2 n2, q < q2 → deref l q2 = some n2 → n2.name ≠ s := by
  induction l with
  | nil => simp [FindNodeByName] at h
  | cons c prev ih =>
    rw [FindNodeByName_cons] at h
    intro q2 n2 hlt hd
    have hq2 := deref_lt _ q2 n2 hd
    simp only [List.length_cons] at hq2
    by_cases hc : c.name = s
    · simp only [hc, if_true, Option.some.injEq] at h
      omega
    · simp only [hc, if_false] at h
      simp only [deref] at hd
      by_cases hp : q2 = prev.length
      · simp only [hp, if_true, Option.some.injEq] at hd
        subst hd
        exact hc
      · simp only [hp, if_false] at hd
        exact ih h q2 n2 hlt hd

/-- C31 fails on a node that names itself as its parent: after `BuildParents`
the node `A` of `selfChain` is its own parent, no chain of parent links from
it ends in a root, and `Node::EmitAttrsAsFormal` does not return on it,
whatever the fuel. -/
theorem BuildParents_self_parent :
    (∃ a, deref selfChain 0 = some a ∧ a.name = "A" ∧ a.inherits = some "A")
    ∧ (deref (BuildParents selfChain) 0).map Node.parent = some (some 0)
    ∧ (∀ path, ¬ IsPath (BuildParents selfChain) (some 0) path)
    ∧ ∀ fuel os, Node.EmitAttrsAsFormal (BuildParents selfChain) fuel os 0 = none := by
  have hd : deref (BuildParents selfChain) 0
      = some { parent := some 0, name := "A", inherits := some "A", opt := OPT_NONE,
               feats := [], factType := none, hasInitParms := false } := rfl
  refine ⟨⟨_, rfl, rfl, rfl⟩, rfl, ?_, ?_⟩
  · intro path
    induction path with
    | nil => simp [IsPath]
    | cons n rest ih =>
      rintro ⟨h1, h2⟩
      rw [hd] at h1
      simp only [Option.some.injEq] at h1
      subst h1
      exact ih h2
  · intro fuel os
    induction fuel with
    | zero => rfl
    | succ fuel ih => simp only [Node.EmitAttrsAsFormal, hd, ih]

/-- C33: after `BuildParents` the parent of a node is the node declared
latest, at or before it, that bears the name the node inherits from, and is
null when the node inherits from nothing or no node at or before it bears that
name. -/
theorem BuildParents_latest (l : List Node) (p : Nat) (n : Node)
    (hn : deref l p = some n) :
    ∃ par, deref (BuildParents l) p = some { n with parent := par }
      ∧ (n.inherits = none → par = none)
      ∧ ∀ s, n.inherits = some s →
          (∀ q, par = some q ↔
            (q ≤ p ∧ (∃ nq, deref l q = some nq ∧ nq.name = s)
              ∧ ∀ q2 n2, q < q2 → q2 ≤ p → deref l q2 = some n2 → n2.name ≠ s))
          ∧ (par = none ↔ ∀ q nq, q ≤ p → deref l q = some nq → nq.name ≠ s) := by
  have hp := deref_lt l p n hn
  have hlen := length_drop_upto l p hp
  refine ⟨FindNodeByName (l.drop (l.length - (p + 1))) n.inherits, ?_, ?_, ?_⟩
  · rw [deref_BuildParents, hn, Option.map_some']
  · intro h
    rw [h]
    cases l.drop (l.length - (p + 1)) <;> rfl
  · intro s hs
    rw [hs]
    have hsome : ∀ r, FindNodeByName (l.drop (l.length - (p + 1))) (some s) = some r →
        r ≤ p ∧ (∃ nq, deref l r = some nq ∧ nq.name = s)
          ∧ ∀ q2 n2, r < q2 → q2 ≤ p → deref l q2 = some n2 → n2.name ≠ s := by
      intro r hf
      obtain ⟨nr, hr, hrn⟩ := FindNodeByName_some _ s r hf
      have hrlt := deref_lt _ r nr hr
      rw [hlen] at hrlt
      have hrle : r ≤ p := by omega
      rw [deref_drop l p r hrle hp] at hr
      refine ⟨hrle, ⟨nr, hr, hrn⟩, ?_⟩
      intro q2 n2 hlt hle hd
      exact FindNodeByName_latest _ s r hf q2 n2 hlt (by rw [deref_drop l p q2 hle hp]; exact hd)
    have hnone : FindNodeByName (l.drop (l.length - (p + 1))) (some s) = none
        ↔ ∀ q nq, q ≤ p → deref l q = some nq → nq.name ≠ s := by
      rw [FindNodeByName_none]
      constructor
      · intro h q nq hq hd
        exact h q nq (by rw [deref_drop l p q hq hp]; exact hd)
      · intro h q nq hd
        have hqlt := deref_lt _ q nq hd
        rw [hlen] at hqlt
        have hqle : q ≤ p := by omega
        rw [deref_drop l p q hqle hp] at hd
        exact h q nq hqle hd
    refine ⟨?_, hnone⟩
    intro q
    constructor
    · intro h
      exact hsome q h
    · rintro ⟨hq, ⟨nq, hdq, hnq⟩, hmax⟩
      cases hf : FindNodeByName (l.drop (l.length - (p + 1))) (some s) with
      | none => exact absurd hnq (hnone.mp hf q nq hq hdq)
      | some r =>
        obtain ⟨hr, ⟨nr, hdr, hnr⟩, hrmax⟩ := hsome r hf
        rcases Nat.lt_trichotomy r q with hlt | heq | hgt
        · exact absurd hnq (hrmax q nq hlt hq hdq)
        · rw [heq]
        · exact absurd hnr (hmax r nr hgt hr hdr)

theorem BuildParents_latest_witness :
    deref sampleChain 1 = some idNode
    ∧ ∃ par, deref (BuildParents sampleChain) 1 = some { idNode with parent := par }
      ∧ (idNode.inherits = none → par = none)
      ∧ ∀ s, idNode.inherits = some s →
          (∀ q, par = some q ↔
            (q ≤ 1 ∧ (∃ nq, deref sampleChain q = some nq ∧ nq.name = s)
              ∧ ∀ q2 n2, q < q2 → q2 ≤ 1 → deref sampleChain q2 = some n2 → n2.name ≠ s))
          ∧ (par = none ↔ ∀ q nq, q ≤ 1 → deref sampleChain q = some nq → nq.name ≠ s) :=
  ⟨rfl, BuildParents_latest sampleChain 1 idNode rfl⟩

set_option maxRecDepth 100000 in
/-- C34 fails on a chain of depth two.  For `G` (attribute `a`), `P : G`
(attribute `b`) and `N : P` (attribute `c`), with `G` and `P` already emitted,
the constructor of `P` takes two parameters, while the constructor of `N`
passes one argument to it and initialises `c` from the parameter number 2 of
its three. -/
theorem EmitCode_grandparent_args_missed :
    (BuildParents depthChain).map Node.parent = [some 1, some 0, none]
    ∧ (NodeList.EmitCode 3 ((BuildParents depthChain).drop 2) (BuildParents depthChain, "")).map
          Prod.fst
        = some (update (fun n => { n with hasInitParms := true }) (BuildParents depthChain) 0)
    ∧ (NodeList.EmitCode 3 ((BuildParents depthChain).drop 1) (BuildParents depthChain, "")).map
          Prod.fst
        = some (update (fun n => { n with hasInitParms := true })
            (update (fun n => { n with hasInitParms := true }) (BuildParents depthChain) 0) 1)
    ∧ (Node.EmitCode
          (update (fun n => { n with hasInitParms := true }) (BuildParents depthChain) 0)
          3 "" 1).map EmitResult.os
        = some ("class P : public G \x7b" ++ "\n"
            ++ "public:" ++ "\n"
            ++ "    static P *empty(void) \x7b return (P *)0; \x7d" ++ "\n"
            ++ "    static P *factory(int __1__, int __2__) \x7b return new P(__1__, __2__); \x7d" ++ "\n"
            ++ "\n"
            ++ "    virtual AstNodeType Get_AstNodeType(void) const \x7b return NODE_P; \x7d" ++ "\n"
            ++ "\n"
            ++ "protected:" ++ "\n"
            ++ "    explicit P(int __1__, int __2__) : G(__1__), b(__2__) \x7b \x7d" ++ "\n"
            ++ "\n"
            ++ "protected:" ++ "\n"
            ++ "    int b;" ++ "\n"
            ++ "\n"
            ++ "public:" ++ "\n"
            ++ "    virtual int Get_b(void) const \x7b return b; \x7d" ++ "\n"
            ++ "    virtual void Set_b(int __val__) \x7b b = __val__; \x7d" ++ "\n"
            ++ "\n"
            ++ "\x7d;" ++ "\n"
            ++ "\n")
    ∧ (Node.EmitCode
          (update (fun n => { n with hasInitParms := true })
            (update (fun n => { n with hasInitParms := true }) (BuildParents depthChain) 0) 1)
          3 "" 2).map EmitResult.os
        = some ("class N : public P \x7b" ++ "\n"
            ++ "public:" ++ "\n"
            ++ "    static N *empty(void) \x7b return (N *)0; \x7d" ++ "\n"
            ++ "    static N *factory(int __1__, int __2__, int __3__) \x7b return new N(__1__, __2__, __3__); \x7d" ++ "\n"
            ++ "\n"
            ++ "    virtual AstNodeType Get_AstNodeType(void) const \x7b return NODE_N; \x7d" ++ "\n"
            ++ "\n"
            ++ "protected:" ++ "\n"
            ++ "    explicit N(int __1__, int __2__, int __3__) : P(__1__), c(__2__) \x7b \x7d" ++ "\n"
            ++ "\n"
            ++ "protected:" ++ "\n"
            ++ "    int c;" ++ "\n"
            ++ "\n"
            ++ "public:" ++ "\n"
            ++ "    virtual int Get_c(void) const \x7b return c; \x7d" ++ "\n"
            ++ "    virtual void Set_c(int __val__) \x7b c = __val__; \x7d" ++ "\n"
            ++ "\n"
            ++ "\x7d;" ++ "\n"
            ++ "\n") := by
  refine ⟨?_, ?_, ?_, ?_, ?_⟩ <;> decide

end Legacy

/-! ## The argument loop of the driver -/

theorem argLoop_parsed (openBuffer yyparse : String → Int) (k : Nat) :
    ∀ (args : List String) (s s2 : ArgState), args.length ≤ k →
      argLoop openBuffer yyparse args s = some s2 →
      s2.parsed.length ≤ s.parsed.length + 1 := by
  induction k with
  | zero =>
    intro args s s2 hk h
    have : args = [] := List.length_eq_zero.mp (by omega)
    subst this
    simp only [argLoop, Option.some.injEq] at h
    subst h
    omega
  | succ k ih =>
    intro args s s2 hk h
    cases args with
    | nil =>
      simp only [argLoop, Option.some.injEq] at h
      subst h
      omega
    | cons a rest =>
      simp only [List.length_cons] at hk
      unfold argLoop at h
      split at h
      · cases rest with
        | nil => simp at h
        | cons v rest2 =>
          simp only [List.length_cons] at hk
          have := ih rest2 _ s2 (by omega) h
          simpa using this
      · split at h
        · split at h
          · simp only [Option.some.injEq] at h
            subst h
            simp
          · simp only [Option.some.injEq] at h
            subst h
            simp
        · exact ih rest s s2 (by omega) h

/-- C35 fails on a command line with two input files: with `a.ast` and
`b.ast` both readable only `a.ast` is parsed, an option `-o` that follows the
first input file is not looked at, and no command line has more than one file
parsed. -/
theorem argLoop_stops_after_first_file :
    parseArguments (fun _ => 1) (fun _ => 0) ["ast-cc", "a.ast", "b.ast"]
      = some { outfile := none, outputFile := "ast-nodes.hh", curr_file := some "a.ast",
               parsed := ["a.ast"], cerr := [] }
    ∧ parseArguments (fun _ => 1) (fun _ => 0) ["ast-cc", "a.ast", "-o", "out.hh"]
      = some { outfile := none, outputFile := "ast-nodes.hh", curr_file := some "a.ast",
               parsed := ["a.ast"], cerr := [] }
    ∧ ∀ (openBuffer yyparse : String → Int) (argv : List String) (s : ArgState),
        parseArguments openBuffer yyparse argv = some s → s.parsed.length ≤ 1 := by
  refine ⟨rfl, rfl, ?_⟩
  intro openBuffer yyparse argv s h
  have := argLoop_parsed openBuffer yyparse (argv.drop 1).length (argv.drop 1) argStart s
    (Nat.le_refl _) h
  simpa [argStart] using this

end AstCC
